import Mathlib

/-!
# darknet `src-lib/image_opencv.cpp`: pixel-buffer conversion and augmentation

A shallow embedding of the conversion routines `mat_to_image` and `image_to_mat` and of
`image_data_augmentation`, together with the properties the specification states about them.

Conventions of the embedding

* C `int` values are mathematical integers (`Nat` where the source value is a size or an index,
  `Int` where it may be negative).  Signed overflow is undefined behaviour in C++ and lies
  outside the embedding.
* `float` and `double` values are IEEE-754 binary32 / binary64 values: a finite value is the
  rational number it denotes, every operation rounds its exact result to nearest, ties to even.
  Infinities and NaN are one extra value `Flt.nonfin`.
* The byte memory of a `cv::Mat` is a function from byte offsets to bytes, the sample memory of a
  `Darknet::Image` a function from sample offsets to floats.
* OpenCV routines whose result is an algorithm of its own (`cv::resize`, `cv::mean`, `cv::cvtColor`,
  `cv::GaussianBlur`, `cv::randn`) are parameters of the embedding (`OpenCV`); the elementary ones
  (`cv::Rect` intersection, region of interest, `setTo`, `copyTo`, `cv::flip`, saturating
  arithmetic) are defined from their documented behaviour.
-/

namespace Darknet

/-! ## Binary floating point -/

/-- A binary floating-point format: `prec` significand bits, `emin` the exponent of the least
positive (subnormal) value, and `emax` the exponent at which values overflow. -/
structure FloatFormat where
  prec : Nat
  emin : Int
  emax : Int

/-- IEEE-754 single precision (C `float`). -/
def binary32 : FloatFormat := ⟨24, -149, 128⟩

/-- IEEE-754 double precision (C `double`). -/
def binary64 : FloatFormat := ⟨53, -1074, 1024⟩

/-- A floating-point value: a finite value, given by the rational number it denotes, or a
non-finite one (an infinity or NaN). -/
inductive Flt where
  | fin (q : ℚ)
  | nonfin
  deriving DecidableEq

/-- Nearest integer, ties to the even neighbour (the IEEE default rounding direction). -/
def roundHalfEven (q : ℚ) : Int :=
  let f := ⌊q⌋
  let r := q - f
  if r < 1 / 2 then f
  else if 1 / 2 < r then f + 1
  else if f % 2 = 0 then f else f + 1

/-- Nearest integer, ties away from zero (`std::round`). -/
def roundHalfAway (q : ℚ) : Int :=
  if 0 ≤ q then ⌊q + 1 / 2⌋ else -⌊-q + 1 / 2⌋

/-- Truncation toward zero (conversion of a floating value to an integer type). -/
def truncate (q : ℚ) : Int :=
  if 0 ≤ q then ⌊q⌋ else -⌊-q⌋

/-- Exponent of the unit in the last place of `q` in format `F`. -/
def FloatFormat.ulpExp (F : FloatFormat) (q : ℚ) : Int :=
  max (Int.log 2 |q| - ((F.prec : Int) - 1)) F.emin

/-- Round the rational `q` to the nearest value of format `F` with unbounded exponent range above
(ties to even). -/
def FloatFormat.rnd (F : FloatFormat) (q : ℚ) : ℚ :=
  if q = 0 then 0
  else (roundHalfEven (q / (2 : ℚ) ^ F.ulpExp q) : ℚ) * (2 : ℚ) ^ F.ulpExp q

/-- The floating-point value of format `F` for the exact result `q`: rounded to nearest, and
non-finite on overflow. -/
def Flt.ofRat (F : FloatFormat) (q : ℚ) : Flt :=
  let r := F.rnd q
  if |r| < (2 : ℚ) ^ F.emax then Flt.fin r else Flt.nonfin

/-- Conversion of an integer to format `F`. -/
def Flt.ofInt (F : FloatFormat) (z : Int) : Flt := Flt.ofRat F z

/-- Conversion between formats (`float` to `double` promotion, or `double` to `float`). -/
def Flt.cast (F : FloatFormat) : Flt → Flt
  | Flt.fin q => Flt.ofRat F q
  | Flt.nonfin => Flt.nonfin

/-- Floating-point multiplication in format `F`. -/
def Flt.mul (F : FloatFormat) : Flt → Flt → Flt
  | Flt.fin a, Flt.fin b => Flt.ofRat F (a * b)
  | _, _ => Flt.nonfin

/-- Floating-point subtraction in format `F`. -/
def Flt.sub (F : FloatFormat) : Flt → Flt → Flt
  | Flt.fin a, Flt.fin b => Flt.ofRat F (a - b)
  | _, _ => Flt.nonfin

/-- Floating-point division in format `F`; a zero divisor gives a non-finite value. -/
def Flt.div (F : FloatFormat) : Flt → Flt → Flt
  | Flt.fin a, Flt.fin b => if b = 0 then Flt.nonfin else Flt.ofRat F (a / b)
  | _, _ => Flt.nonfin

/-- The C test `x == 0` (so `!x`): true for a zero, false for every other value, NaN included. -/
def Flt.isZero : Flt → Bool
  | Flt.fin q => decide (q = 0)
  | Flt.nonfin => false

/-- Conversion of a floating value to `int`: truncation; no result for a non-finite value. -/
def Flt.toInt : Flt → Option Int
  | Flt.fin q => some (truncate q)
  | Flt.nonfin => none

/-- The rational value of a finite float (zero for a non-finite one). -/
def Flt.toRat : Flt → ℚ
  | Flt.fin q => q
  | Flt.nonfin => 0

/-- A sample in the normalized range: finite and within `[0, 1]`. -/
def Flt.InUnit (f : Flt) : Prop := ∃ q, f = Flt.fin q ∧ 0 ≤ q ∧ q ≤ 1

/-! ## The two pixel representations -/

/-- The native buffer `cv::Mat` of depth `CV_8U`: `rows` x `cols` pixels of `chans` interleaved
bytes each, row `y` starting at byte offset `y * step`. -/
structure Mat where
  rows : Nat
  cols : Nat
  chans : Nat
  step : Nat
  data : Nat → Fin 256

/-- The normalized planar buffer `Darknet::Image`: `c` planes of `h * w` floats. -/
structure Image where
  w : Nat
  h : Nat
  c : Nat
  data : Nat → Flt

/-- Modelled from the spec: `Darknet::make_image` (image.cpp, not in this file) allocates a
zero-filled planar buffer of the given dimensions. -/
def make_image (w h c : Nat) : Image := ⟨w, h, c, fun _ => Flt.fin 0⟩

/-- The byte of channel `k` of pixel `(x, y)`, read at offset `y * step + x * chans + k`. -/
def Mat.pixel (m : Mat) (y x k : Nat) : Fin 256 := m.data (y * m.step + x * m.chans + k)

/-- A freshly allocated, continuous `cv::Mat` (`step = cols * chans`) whose pixels are given by
`f row column channel`. -/
def Mat.ofFn (rows cols chans : Nat) (f : Nat → Nat → Nat → Fin 256) : Mat :=
  ⟨rows, cols, chans, cols * chans,
    fun off => f (off / (cols * chans)) (off % (cols * chans) / chans) (off % chans)⟩

/-- How a call can end without a result: `fatal` is the path into `darknet_fatal_error` (an
exception thrown by OpenCV and caught by the caller), `undefined` is behaviour C++ or OpenCV
leaves undefined (out-of-range float conversion, null dereference). -/
inductive Failure where
  | fatal
  | undefined
  deriving DecidableEq

/-- A counted loop `for (int i = 0; i < n; ++i) s = body(i, s);`. -/
def forLoop {σ : Type} (n : Nat) (body : Nat → σ → σ) (s : σ) : σ :=
  (List.range n).foldl (fun acc i => body i acc) s

/-- A counted loop whose body may fail. -/
def forLoopM {σ : Type} (n : Nat) (body : Nat → σ → Except Failure σ) (s : σ) :
    Except Failure σ :=
  (List.range n).foldlM (fun acc i => body i acc) s

/-- Embedding of `mat_to_image`: native interleaved bytes to normalized planar floats. -/
def mat_to_image (mat : Mat) : Image :=
  let w := mat.cols
  let h := mat.rows
  let c := mat.chans
  let im := make_image w h c
  let step := mat.step
  let data :=
    forLoop h (fun y d =>
      forLoop c (fun k d =>
        forLoop w (fun x d =>
          Function.update d (k * w * h + y * w + x)
            (Flt.div binary32 (Flt.ofInt binary32 (mat.data (y * step + x * c + k)).val)
              (Flt.fin 255))) d) d) im.data
  { im with data := data }

/-- The function `std::round` on a `float`. -/
def Flt.round : Flt → Flt
  | Flt.fin q => Flt.fin (roundHalfAway q)
  | Flt.nonfin => Flt.nonfin

/-- Conversion of a floating value to `unsigned char`: truncation, undefined when the truncated
value is not in `0 .. 255`. -/
def Flt.toUChar : Flt → Except Failure (Fin 256)
  | Flt.fin q =>
    if h : 0 ≤ truncate q ∧ truncate q < 256 then
      Except.ok ⟨(truncate q).toNat, by omega⟩
    else Except.error Failure.undefined
  | Flt.nonfin => Except.error Failure.undefined

/-- Embedding of `image_to_mat`: normalized planar floats to native interleaved bytes.  The
matrix `cv::Mat mat(height, width, CV_8UC(channels))` is continuous, so `mat.step` is
`width * channels`; its initial content is never observed on a pixel, every pixel is stored. -/
def image_to_mat (img : Image) : Except Failure Mat :=
  let channels := img.c
  let width := img.w
  let height := img.h
  let mat := Mat.ofFn height width channels (fun _ _ _ => 0)
  let step := mat.step
  (forLoopM img.h (fun y d =>
    forLoopM img.w (fun x d =>
      forLoopM img.c (fun c d =>
        let val := img.data (c * img.h * img.w + y * img.w + x)
        (Flt.round (Flt.mul binary32 val (Flt.fin 255))).toUChar.map
          (fun b => Function.update d (y * step + x * img.c + c) b)) d) d) mat.data).map
    (fun data => { mat with data := data })

/-- The byte `image_to_mat` stores for the sample `f` (zero where the conversion is
undefined); used to state what the loops compute. -/
def byteOf (f : Flt) : Fin 256 :=
  match (Flt.round (Flt.mul binary32 f (Flt.fin 255))).toUChar with
  | Except.ok b => b
  | Except.error _ => 0

/-! ## OpenCV primitives used by the augmentation -/

/-- The type `cv::Rect`: top-left corner and size. -/
structure Rect where
  x : Int
  y : Int
  width : Int
  height : Int
  deriving DecidableEq

/-- The `cv::Rect` intersection `a & b`; the empty intersection is the all-zero rectangle. -/
def Rect.inter (a b : Rect) : Rect :=
  let x1 := max a.x b.x
  let y1 := max a.y b.y
  let w := min (a.x + a.width) (b.x + b.width) - x1
  let h := min (a.y + a.height) (b.y + b.height) - y1
  if w ≤ 0 ∨ h ≤ 0 then ⟨0, 0, 0, 0⟩ else ⟨x1, y1, w, h⟩

/-- The region of interest `m(r)`.  OpenCV asserts that `r` lies inside `m` and throws
otherwise; the result is a view on the memory of `m`. -/
def Mat.roi (m : Mat) (r : Rect) : Except Failure Mat :=
  if 0 ≤ r.x ∧ 0 ≤ r.width ∧ r.x + r.width ≤ m.cols ∧
      0 ≤ r.y ∧ 0 ≤ r.height ∧ r.y + r.height ≤ m.rows then
    Except.ok ⟨r.height.toNat, r.width.toNat, m.chans, m.step,
      fun off => m.data (r.y.toNat * m.step + r.x.toNat * m.chans + off)⟩
  else Except.error Failure.fatal

/-- The constructor `cv::Mat(size, type)`; a negative size throws. -/
def Mat.create (width height : Int) (chans : Nat) : Except Failure Mat :=
  if 0 ≤ width ∧ 0 ≤ height then
    Except.ok (Mat.ofFn height.toNat width.toNat chans (fun _ _ _ => 0))
  else Except.error Failure.fatal

/-- The call `m.setTo(colour)`: every pixel becomes `colour`. -/
def Mat.setTo (m : Mat) (colour : Nat → Fin 256) : Mat :=
  Mat.ofFn m.rows m.cols m.chans (fun _ _ k => colour k)

/-- The effect on `dst` of `src.copyTo(dst(r))` for a region `r` inside `dst`: an empty `src`
copies nothing; a `src` of the size and type of the region is stored into the region; any other
`src` only reallocates the temporary header `dst(r)`. -/
def Mat.copyToRoi (src dst : Mat) (r : Rect) : Mat :=
  if src.rows = 0 ∨ src.cols = 0 then dst
  else if (src.rows : Int) = r.height ∧ (src.cols : Int) = r.width ∧ src.chans = dst.chans then
    Mat.ofFn dst.rows dst.cols dst.chans (fun y x k =>
      if r.y ≤ y ∧ (y : Int) < r.y + r.height ∧ r.x ≤ x ∧ (x : Int) < r.x + r.width then
        src.pixel (y - r.y.toNat) (x - r.x.toNat) k
      else dst.pixel y x k)
  else dst

/-- The call `cv::flip(src, dst, 1)`: mirror around the vertical axis, result in a new matrix. -/
def Mat.flipH (m : Mat) : Mat :=
  Mat.ofFn m.rows m.cols m.chans (fun y x k => m.pixel y (m.cols - 1 - x) k)

/-- The conversion `cv::saturate_cast<uchar>` of an integer. -/
def clampByte (z : Int) : Fin 256 :=
  if h : z < 0 then 0
  else if h2 : 255 < z then 255
  else ⟨z.toNat, by omega⟩

/-- One plane of `cv::split`. -/
def Mat.channel (m : Mat) (k : Nat) : Mat :=
  Mat.ofFn m.rows m.cols 1 (fun y x _ => m.pixel y x k)

/-- The result of `cv::merge` on three single-channel planes. -/
def Mat.merge3 (a b c : Mat) : Mat :=
  Mat.ofFn a.rows a.cols 3 (fun y x k =>
    if k = 0 then a.pixel y x 0 else if k = 1 then b.pixel y x 0 else c.pixel y x 0)

/-- The statement `m *= alpha` on 8-bit data: `saturate_cast<uchar>(pixel * alpha)`, rounding to nearest.
A non-finite factor is outside the documented behaviour. -/
def Mat.scale (m : Mat) (alpha : Flt) : Except Failure Mat :=
  match alpha with
  | Flt.fin a =>
    Except.ok (Mat.ofFn m.rows m.cols m.chans (fun y x k =>
      clampByte (roundHalfEven (((m.pixel y x k).val : ℚ) * a))))
  | Flt.nonfin => Except.error Failure.undefined

/-- The statement `m += s` on 8-bit data: `saturate_cast<uchar>(pixel + s)`, rounding to nearest. -/
def Mat.addScalar (m : Mat) (s : Flt) : Except Failure Mat :=
  match s with
  | Flt.fin a =>
    Except.ok (Mat.ofFn m.rows m.cols m.chans (fun y x k =>
      clampByte (roundHalfEven (((m.pixel y x k).val : ℚ) + a))))
  | Flt.nonfin => Except.error Failure.undefined

/-- The sum `a + b` of 8-bit matrices of one size: the saturated sum `min(255, a + b)`. -/
def Mat.addSat (a b : Mat) : Mat :=
  Mat.ofFn a.rows a.cols a.chans (fun y x k =>
    clampByte (((a.pixel y x k).val : Int) + ((b.pixel y x k).val : Int)))

/-- The OpenCV algorithms the augmentation calls, as parameters.  Each gives the pixels of its
result (`row column channel`), the size of the result being fixed by OpenCV's contract; `none`
is a thrown exception.  `ρ` is the state of OpenCV's process-wide random-number generator. -/
structure OpenCV (ρ : Type) where
  /-- Pixels of `cv::resize(src, dst, Size(w, h), 0, 0, INTER_LINEAR)`. -/
  resize : Mat → Nat → Nat → Nat → Nat → Nat → Fin 256
  /-- Colour stored by `setTo(cv::mean(src))`. -/
  mean : Mat → Option (Nat → Fin 256)
  /-- Pixels of `cvtColor(src, dst, COLOR_RGB2HSV)`. -/
  rgb2hsv : Mat → Option (Nat → Nat → Nat → Fin 256)
  /-- Pixels of `cvtColor(src, dst, COLOR_HSV2RGB)`. -/
  hsv2rgb : Mat → Option (Nat → Nat → Nat → Fin 256)
  /-- Pixels of `cv::GaussianBlur(src, dst, Size(k, k), 0)`. -/
  gaussianBlur : Mat → Int → Option (Nat → Nat → Nat → Fin 256)
  /-- Pixels filled by `cv::randn(noise, 0, stddev)` into a matrix of the given rows, columns and
  channels, and the generator state afterwards. -/
  randn : ρ → Nat → Nat → Nat → Int → (Nat → Nat → Nat → Fin 256) × ρ

/-- An exception thrown by OpenCV ends in `darknet_fatal_error`. -/
def orFatal {α : Type} : Option α → Except Failure α
  | some a => Except.ok a
  | none => Except.error Failure.fatal

/-- The call `cv::resize(src, sized, cv::Size(w, h), 0, 0, cv::INTER_LINEAR)`: throws on an empty source
or an empty target size, otherwise gives a `w` x `h` matrix of the source's type. -/
def resizeTo {ρ : Type} (cv : OpenCV ρ) (src : Mat) (w h : Int) : Except Failure Mat :=
  if src.rows = 0 ∨ src.cols = 0 ∨ w ≤ 0 ∨ h ≤ 0 then Except.error Failure.fatal
  else Except.ok (Mat.ofFn h.toNat w.toNat src.chans (cv.resize src w.toNat h.toNat))

/-! ## `image_data_augmentation` -/

/-- The crop (source lines 983-1001 up to the call of `cv::resize`): the buffer that is handed
to the resize step. -/
def crop_buffer {ρ : Type} (cv : OpenCV ρ) (img : Mat) (pleft ptop swidth sheight : Int) :
    Except Failure Mat :=
  let src_rect : Rect := ⟨pleft, ptop, swidth, sheight⟩
  let img_rect : Rect := ⟨0, 0, img.cols, img.rows⟩
  let new_src_rect := src_rect.inter img_rect
  let dst_rect : Rect := ⟨max 0 (-pleft), max 0 (-ptop), new_src_rect.width, new_src_rect.height⟩
  if src_rect.x = 0 ∧ src_rect.y = 0 ∧ src_rect.width = img.cols ∧ src_rect.height = img.rows then
    Except.ok img
  else do
    let cropped ← Mat.create src_rect.width src_rect.height img.chans
    let colour ← orFatal (cv.mean img)
    let cropped := cropped.setTo colour
    let src_view ← img.roi new_src_rect
    let _ ← cropped.roi dst_rect
    pure (src_view.copyToRoi cropped dst_rect)

/-- The flip (source lines 1004-1008). -/
def flip_step (sized : Mat) (flip : Int) : Mat :=
  if flip ≠ 0 then sized.flipH else sized

/-- The update of the three HSV planes (source lines 1018-1025). -/
def hsv_update (hsv_src : Mat) (dhue dsat dexp : Flt) : Except Failure Mat := do
  let h0 := hsv_src.channel 0
  let h1 ← (hsv_src.channel 1).scale dsat
  let h2 ← (hsv_src.channel 2).scale dexp
  let h0 ← h0.addScalar (Flt.mul binary32 (Flt.ofInt binary32 179) dhue)
  pure (Mat.merge3 h0 h1 h2)

/-- The hue/saturation/exposure step (source lines 1012-1033); `img` is the source image, whose
channel count selects the branch. -/
def hsv_step {ρ : Type} (cv : OpenCV ρ) (img sized : Mat) (dhue dsat dexp : Flt) :
    Except Failure Mat :=
  if dsat ≠ Flt.fin 1 ∨ dexp ≠ Flt.fin 1 ∨ dhue ≠ Flt.fin 0 then
    if 3 ≤ img.chans then do
      let hsv_px ← orFatal (cv.rgb2hsv sized)
      let hsv_src ← hsv_update (Mat.ofFn sized.rows sized.cols 3 hsv_px) dhue dsat dexp
      let rgb_px ← orFatal (cv.hsv2rgb hsv_src)
      pure (Mat.ofFn hsv_src.rows hsv_src.cols 3 rgb_px)
    else sized.scale dexp
  else Except.ok sized

/-- A ground-truth box: centre and size as fractions of the image size. -/
structure Box where
  x : Flt
  y : Flt
  w : Flt
  h : Flt

/-- Modelled from the spec: `float_to_box_stride` (box.cpp, not in this file) reads a box
(centre x, centre y, width, height) from four floats `stride` apart. -/
def float_to_box_stride (f : Nat → Flt) (stride : Nat) : Box :=
  ⟨f 0, f (1 * stride), f (2 * stride), f (3 * stride)⟩

/-- Conversion of a floating value to `int`, undefined for a non-finite value. -/
def Flt.toIntE (f : Flt) : Except Failure Int :=
  match f.toInt with
  | some z => Except.ok z
  | none => Except.error Failure.undefined

/-- The pixel rectangle of box `b` in `sized` (source lines 1067-1072), clipped to the image. -/
def box_roi (sized : Mat) (b : Box) : Except Failure Rect := do
  let half_w := Flt.div binary64 (Flt.cast binary64 b.w) (Flt.fin 2)
  let half_h := Flt.div binary64 (Flt.cast binary64 b.h) (Flt.fin 2)
  let left ← (Flt.mul binary64 (Flt.sub binary64 (Flt.cast binary64 b.x) half_w)
    (Flt.ofInt binary64 sized.cols)).toIntE
  let width ← (Flt.mul binary32 b.w (Flt.ofInt binary32 sized.cols)).toIntE
  let top ← (Flt.mul binary64 (Flt.sub binary64 (Flt.cast binary64 b.y) half_h)
    (Flt.ofInt binary64 sized.rows)).toIntE
  let height ← (Flt.mul binary32 b.h (Flt.ofInt binary32 sized.rows)).toIntE
  let img_rect : Rect := ⟨0, 0, sized.cols, sized.rows⟩
  pure ((⟨left, top, width, height⟩ : Rect).inter img_rect)

/-- The loop over the ground-truth boxes (source lines 1064-1075), from box `t` on with `n`
boxes left: inside each box the blurred `dst` gets the pixels of `sized` back; a box whose `x`
is zero ends the loop. -/
def revert_boxes (sized : Mat) (truth_size : Nat) (truth : Nat → Flt) :
    Nat → Nat → Mat → Except Failure Mat
  | _, 0, dst => Except.ok dst
  | t, n + 1, dst =>
    let b := float_to_box_stride (fun i => truth (t * truth_size + i)) 1
    if b.x.isZero then Except.ok dst
    else do
      let roi ← box_roi sized b
      let src_view ← sized.roi roi
      let _ ← dst.roi roi
      revert_boxes sized truth_size truth (t + 1) n (src_view.copyToRoi dst roi)

/-- Side of the Gaussian kernel (source lines 1042-1049); `/` is C integer division. -/
def blur_ksize (blur : Int) : Int :=
  if blur = 1 then 17 else (Int.tdiv blur 2) * 2 + 1

/-- The blur step (source lines 1040-1078). -/
def blur_step {ρ : Type} (cv : OpenCV ρ) (sized : Mat) (blur num_boxes : Int) (truth_size : Nat)
    (truth : Nat → Flt) : Except Failure Mat :=
  if blur ≠ 0 then do
    let dst_px ← orFatal (cv.gaussianBlur sized (blur_ksize blur))
    let dst := Mat.ofFn sized.rows sized.cols sized.chans dst_px
    if blur = 1 then
      revert_boxes sized truth_size truth 0 num_boxes.toNat dst
    else pure dst
  else Except.ok sized

/-- The noise step (source lines 1080-1091): the result and the generator state afterwards. -/
def noise_step {ρ : Type} (cv : OpenCV ρ) (rng : ρ) (sized : Mat) (gaussian_noise : Int) :
    Mat × ρ :=
  if gaussian_noise ≠ 0 then
    let gaussian_noise := min gaussian_noise 127
    let gaussian_noise := max gaussian_noise 0
    let drawn := cv.randn rng sized.rows sized.cols sized.chans gaussian_noise
    let noise := Mat.ofFn sized.rows sized.cols sized.chans drawn.1
    (sized.addSat noise, drawn.2)
  else (sized, rng)

/-- Embedding of `image_data_augmentation`.  `mat` is the handle `mat_cv*` (`none` is the null
pointer, which the function dereferences unchecked); `rng` is the state of OpenCV's
random-number generator when the call starts.  The result is the planar image and the generator
state afterwards. -/
def image_data_augmentation {ρ : Type} (cv : OpenCV ρ) (rng : ρ) (mat : Option Mat) (w h : Int)
    (pleft ptop swidth sheight : Int) (flip : Int) (dhue dsat dexp : Flt)
    (gaussian_noise blur num_boxes : Int) (truth_size : Nat) (truth : Nat → Flt) :
    Except Failure (Image × ρ) :=
  match mat with
  | none => Except.error Failure.undefined
  | some img => do
    let buffer ← crop_buffer cv img pleft ptop swidth sheight
    let sized ← resizeTo cv buffer w h
    let sized := flip_step sized flip
    let sized ← hsv_step cv img sized dhue dsat dexp
    let sized ← blur_step cv sized blur num_boxes truth_size truth
    let noisy := noise_step cv rng sized gaussian_noise
    pure (mat_to_image noisy.1, noisy.2)

/-! ## Concrete inputs on which the embedding is evaluated -/

/-- A stand-in for the OpenCV algorithms with which the embedding can be evaluated: `resize`
repeats the first source pixel, `mean` is the first pixel, the colour conversions are the
identity, the blur is black, and `randn` fills the matrix with the generator state as a byte.
It is no model of what OpenCV computes. -/
def sampleCV : OpenCV Nat where
  resize := fun src _ _ _ _ k => src.pixel 0 0 k
  mean := fun m => some (fun k => m.pixel 0 0 k)
  rgb2hsv := fun m => some (fun y x k => m.pixel y x k)
  hsv2rgb := fun m => some (fun y x k => m.pixel y x k)
  gaussianBlur := fun _ _ => some (fun _ _ _ => 0)
  randn := fun s _ _ _ _ => (fun _ _ _ => Fin.ofNat s, s + 1)

/-- A 2 x 2 native buffer of 3 channels whose rows are 8 bytes apart (2 bytes of padding). -/
def sampleMat : Mat := ⟨2, 2, 3, 8, fun off => Fin.ofNat (off * 37)⟩

/-- A 2 x 2 planar image of 3 channels with samples in `[0, 1)`. -/
def sampleImage : Image := ⟨2, 2, 3, fun i => Flt.fin (((i % 4 : Nat) : ℚ) / 4)⟩

/-- One ground-truth box covering the full frame: centre `(0.5, 0.5)`, width 1, height 1. -/
def fullFrameTruth : Nat → Flt := fun i => if i < 2 then Flt.fin (1 / 2) else Flt.fin 1

/-- A white single-row buffer of `2^24 + 1` columns. -/
def wideMat : Mat := Mat.ofFn 1 16777217 1 (fun _ _ _ => 255)

/-- A black 1 x 1 buffer. -/
def dotMat : Mat := Mat.ofFn 1 1 1 (fun _ _ _ => 0)

/-! ## Handles and the null checks -/

/-- Embedding of `get_width_mat`; `mat` is the handle `mat_cv*`, `none` the null pointer.
The function `darknet_fatal_error` does not return, so the null branch is one call of it. -/
def get_width_mat (mat : Option Mat) : Except Failure Int :=
  match mat with
  | none => Except.error Failure.fatal
  | some m => Except.ok m.cols

/-- Embedding of `get_height_mat`. -/
def get_height_mat (mat : Option Mat) : Except Failure Int :=
  match mat with
  | none => Except.error Failure.fatal
  | some m => Except.ok m.rows

/-- Embedding of `mat_to_image_cv`: the handle is dereferenced without a null check. -/
def mat_to_image_cv (mat : Option Mat) : Except Failure Image :=
  match mat with
  | none => Except.error Failure.undefined
  | some m => Except.ok (mat_to_image m)

/-! ## The stream frame acquirer -/

/-- How a call of a stream function can end without a result: `fatal` is a call of
`darknet_fatal_error` (in `get_capture_frame_cv`), `undefined` is behaviour C++ leaves undefined
(use of a null or deleted pointer), `uncaught` is an OpenCV exception that leaves the function,
the stream functions having no handler. -/
inductive StreamFailure where
  | fatal
  | undefined
  | uncaught
  deriving DecidableEq

/-- A pointer to a heap object: `none` is the null pointer, `some a` the address `a`. -/
abbrev Ptr := Option Nat

/-- The `cv::Mat` objects made by `new`: `cells a` is the object at address `a` (`none` when
nothing lives there, in particular after `delete`), `next` the address `new` gives out next. -/
structure Heap where
  cells : Nat → Option Mat
  next : Nat

/-- The capture source `cv::VideoCapture`: whether it is opened, the frame its `i`-th read
delivers, and the number of frames read so far. -/
structure Capture where
  opened : Bool
  frames : Nat → Mat
  pos : Nat

/-- The state the stream functions work on: the heap of frames, the capture sources by address,
and the three function-local `static int once` flags. -/
structure World where
  heap : Heap
  caps : Nat → Capture
  once_cpp : Bool
  once_resize : Bool
  once_letterbox : Bool

/-- The statement `new cv::Mat(...)` holding `m`: the fresh address and the heap afterwards. -/
def Heap.alloc (h : Heap) (m : Mat) : Nat × Heap :=
  (h.next, ⟨Function.update h.cells h.next (some m), h.next + 1⟩)

/-- The statement `delete p`: nothing for the null pointer, undefined for an address where no
object lives. -/
def World.delete (w : World) (p : Ptr) : Except StreamFailure World :=
  match p with
  | none => Except.ok w
  | some a =>
    match w.heap.cells a with
    | none => Except.error StreamFailure.undefined
    | some _ => Except.ok { w with heap := ⟨Function.update w.heap.cells a none, w.heap.next⟩ }

/-- The object `*p`, undefined for the null pointer and for an address where no object lives. -/
def World.deref (w : World) (p : Ptr) : Except StreamFailure Mat :=
  match p with
  | none => Except.error StreamFailure.undefined
  | some a =>
    match w.heap.cells a with
    | none => Except.error StreamFailure.undefined
    | some m => Except.ok m

/-- An OpenCV call that throws (`Failure.fatal` where an enclosing handler exists) inside a
stream function, which has no handler. -/
def thrown {α : Type} : Except Failure α → Except StreamFailure α
  | Except.ok a => Except.ok a
  | Except.error Failure.fatal => Except.error StreamFailure.uncaught
  | Except.error Failure.undefined => Except.error StreamFailure.undefined

/-- Embedding of `get_capture_frame_cv`: a null or closed source throws inside the `try` and
ends in `darknet_fatal_error`; otherwise a new `cv::Mat` receives the next frame. -/
def get_capture_frame_cv (ptr : Ptr) (w : World) : Except StreamFailure (Ptr × World) :=
  match ptr with
  | none => Except.error StreamFailure.fatal
  | some c =>
    if (w.caps c).opened then
      let cell := w.heap.alloc ((w.caps c).frames (w.caps c).pos)
      Except.ok (some cell.1,
        { w with
          heap := cell.2
          caps := Function.update w.caps c { w.caps c with pos := (w.caps c).pos + 1 } })
    else Except.error StreamFailure.fatal

/-- The test `src->cols < 1 || src->rows < 1 || src->channels() < 1`. -/
def Mat.invalid (m : Mat) : Bool :=
  decide (m.cols < 1) || decide (m.rows < 1) || decide (m.chans < 1)

/-- Modelled from the spec: `Darknet::make_empty_image` (image.cpp, not in this file) gives the
empty-image sentinel of the given dimensions, without samples. -/
def make_empty_image (w h c : Nat) : Image := ⟨w, h, c, fun _ => Flt.fin 0⟩

/-- Modelled from the spec: `Darknet::rgbgr_image` (image.cpp, not in this file) reverses the
channel order of a planar image in place, plane `k` becoming plane `c - 1 - k`. -/
def rgbgr_image (im : Image) : Image :=
  { im with
    data := fun off =>
      if off < im.c * (im.w * im.h) then
        im.data ((im.c - 1 - off / (im.w * im.h)) * (im.w * im.h) + off % (im.w * im.h))
      else im.data off }

/-- The loop `do { if (src) delete src; src = get_capture_frame_cv(cap);
if (!src) return make_empty_image(0, 0, 0); } while (invalid)` of the three stream functions,
run for at most `fuel` passes (`none`: more passes are needed).  The result is the image of the
early `return` or the pointer `src` with which the loop is left. -/
def warm_up (cap : Ptr) : Nat → Ptr → World →
    Option (Except StreamFailure ((Image ⊕ Ptr) × World))
  | 0, _, _ => none
  | fuel + 1, src, w =>
    match w.delete src with
    | Except.error e => some (Except.error e)
    | Except.ok w1 =>
      match get_capture_frame_cv cap w1 with
      | Except.error e => some (Except.error e)
      | Except.ok (src1, w2) =>
        match src1 with
        | none => some (Except.ok (Sum.inl (make_empty_image 0 0 0), w2))
        | some a =>
          match w2.deref (some a) with
          | Except.error e => some (Except.error e)
          | Except.ok m =>
            if m.invalid then warm_up cap fuel (some a) w2
            else some (Except.ok (Sum.inr (some a), w2))

/-- The tail of `get_image_from_stream_cpp` (source lines 647-651), from the null check on. -/
def cpp_convert (src : Ptr) (w : World) : Except StreamFailure (Image × World) :=
  match src with
  | none => Except.ok (make_empty_image 0 0 0, w)
  | some a => do
    let m ← w.deref (some a)
    let im := rgbgr_image (mat_to_image m)
    let w1 ← w.delete (some a)
    pure (im, w1)

/-- Embedding of `get_image_from_stream_cpp`; `fuel` bounds the passes of the retry loop
(`none`: more passes are needed). -/
def get_image_from_stream_cpp (fuel : Nat) (cap : Ptr) (w : World) :
    Option (Except StreamFailure (Image × World)) :=
  if w.once_cpp then
    match warm_up cap fuel none { w with once_cpp := false } with
    | none => none
    | some (Except.error e) => some (Except.error e)
    | some (Except.ok (Sum.inl im, w1)) => some (Except.ok (im, w1))
    | some (Except.ok (Sum.inr src, w1)) => some (cpp_convert src w1)
  else
    match get_capture_frame_cv cap w with
    | Except.error e => some (Except.error e)
    | Except.ok (src, w1) => some (cpp_convert src w1)

/-- The loop `for (z = 0; z < 20; ++z) { src = get_capture_frame_cv(cap); delete src; }` of
`wait_for_stream`, with `n` passes left. -/
def discard_frames (cap : Ptr) : Nat → World → Except StreamFailure World
  | 0, w => Except.ok w
  | n + 1, w => do
    let r ← get_capture_frame_cv cap w
    let w1 ← r.2.delete r.1
    discard_frames cap n w1

/-- The uninitialised buffer `new cv::Mat(416, 416, CV_8UC(3))`. -/
def placeholder : Mat := Mat.ofFn 416 416 3 (fun _ _ _ => 0)

/-- The body of `wait_for_stream`: the returned `int`, the value of the parameter `src` when
the function returns, and the state afterwards.  The parameter `src` is a copy of the caller's
pointer. -/
def wait_for_stream_body (cap : Ptr) (src : Ptr) (dont_close : Int) (w : World) :
    Except StreamFailure (Int × Ptr × World) :=
  let checked (src : Ptr) (w : World) : Except StreamFailure (Int × Ptr × World) := do
    let m ← w.deref src
    if m.invalid then
      if dont_close ≠ 0 then do
        let w1 ← w.delete src
        let w2 ← discard_frames cap 20 w1
        let cell := w2.heap.alloc placeholder
        pure (1, some cell.1, { w2 with heap := cell.2 })
      else pure (0, src, w)
    else pure (1, src, w)
  match src with
  | none =>
    if dont_close ≠ 0 then
      let cell := w.heap.alloc placeholder
      checked (some cell.1) { w with heap := cell.2 }
    else pure (0, none, w)
  | some a => checked (some a) w

/-- Embedding of `wait_for_stream`: the caller sees the returned `int` and the state, not the
final value of the parameter `src`. -/
def wait_for_stream (cap : Ptr) (src : Ptr) (dont_close : Int) (w : World) :
    Except StreamFailure (Int × World) :=
  (wait_for_stream_body cap src dont_close w).map (fun r => (r.1, r.2.2))

/-- The conversion `cv::cvtColor(src, dst, cv::COLOR_RGB2BGR)`: the first and third channel
change places and the result has 3 channels; a source that is empty or has neither 3 nor 4
channels throws. -/
def cvtColor_RGB2BGR (m : Mat) : Except Failure Mat :=
  if (m.chans = 3 ∨ m.chans = 4) ∧ 0 < m.rows ∧ 0 < m.cols then
    Except.ok (Mat.ofFn m.rows m.cols 3 (fun y x k => m.pixel y x (2 - k)))
  else Except.error Failure.fatal

/-- What a stream function hands back: the image, the pointer stored through `in_img` (`none`
when nothing was stored), and the state afterwards. -/
structure StreamResult where
  im : Image
  in_img : Option Ptr
  world : World

/-- The tail of `get_image_from_stream_resize` (source lines 699-710), from the call of
`wait_for_stream` on, `c` being the channel count after `c = c ? c : 3`. -/
def resize_convert {ρ : Type} (cv : OpenCV ρ) (cap : Ptr) (src : Ptr) (w h c : Int)
    (dont_close : Int) (world : World) : Except StreamFailure StreamResult := do
  let waited ← wait_for_stream cap src dont_close world
  if waited.1 = 0 then pure ⟨make_empty_image 0 0 0, none, waited.2⟩
  else do
    let _ ← thrown (Mat.create w h c.toNat)
    let frame ← waited.2.deref src
    let new_img ← thrown (resizeTo cv frame w h)
    let new_img ← if 1 < c then thrown (cvtColor_RGB2BGR new_img) else pure new_img
    pure ⟨mat_to_image new_img, some src, waited.2⟩

/-- Embedding of `get_image_from_stream_resize`. -/
def get_image_from_stream_resize {ρ : Type} (cv : OpenCV ρ) (fuel : Nat) (cap : Ptr)
    (w h c : Int) (dont_close : Int) (world : World) :
    Option (Except StreamFailure StreamResult) :=
  let c := if c ≠ 0 then c else 3
  if world.once_resize then
    match warm_up cap fuel none { world with once_resize := false } with
    | none => none
    | some (Except.error e) => some (Except.error e)
    | some (Except.ok (Sum.inl im, w1)) => some (Except.ok ⟨im, none, w1⟩)
    | some (Except.ok (Sum.inr src, w1)) => some (resize_convert cv cap src w h c dont_close w1)
  else
    match get_capture_frame_cv cap world with
    | Except.error e => some (Except.error e)
    | Except.ok (src, w1) => some (resize_convert cv cap src w h c dont_close w1)

/-- The tail of `get_image_from_stream_letterbox` (source lines 733-746); `letterbox` stands for
`Darknet::letterbox_image` (image.cpp, not in this file). -/
def letterbox_convert {ρ : Type} (cv : OpenCV ρ) (letterbox : Image → Int → Int → Image)
    (cap : Ptr) (src : Ptr) (w h c : Int) (dont_close : Int) (world : World) :
    Except StreamFailure StreamResult := do
  let waited ← wait_for_stream cap src dont_close world
  if waited.1 = 0 then pure ⟨make_empty_image 0 0 0, none, waited.2⟩
  else do
    let frame ← waited.2.deref src
    let copy ← thrown (resizeTo cv frame frame.cols frame.rows)
    let cell := waited.2.heap.alloc copy
    let w1 : World := { waited.2 with heap := cell.2 }
    let frame ← if 1 < c then thrown (cvtColor_RGB2BGR frame) else pure frame
    let im := letterbox (mat_to_image frame) w h
    let w2 ← w1.delete src
    pure ⟨im, some (some cell.1), w2⟩

/-- Embedding of `get_image_from_stream_letterbox`. -/
def get_image_from_stream_letterbox {ρ : Type} (cv : OpenCV ρ)
    (letterbox : Image → Int → Int → Image) (fuel : Nat) (cap : Ptr) (w h c : Int)
    (dont_close : Int) (world : World) : Option (Except StreamFailure StreamResult) :=
  let c := if c ≠ 0 then c else 3
  if world.once_letterbox then
    match warm_up cap fuel none { world with once_letterbox := false } with
    | none => none
    | some (Except.error e) => some (Except.error e)
    | some (Except.ok (Sum.inl im, w1)) => some (Except.ok ⟨im, none, w1⟩)
    | some (Except.ok (Sum.inr src, w1)) =>
      some (letterbox_convert cv letterbox cap src w h c dont_close w1)
  else
    match get_capture_frame_cv cap world with
    | Except.error e => some (Except.error e)
    | Except.ok (src, w1) => some (letterbox_convert cv letterbox cap src w h c dont_close w1)

/-! ## Concrete capture sources on which the stream functions are evaluated -/

/-- The frame a capture delivers when no picture is ready: `cv::Mat()`, no rows, no columns. -/
def emptyFrame : Mat := Mat.ofFn 0 0 1 (fun _ _ _ => 0)

/-- A frame of 640 columns, 480 rows and 3 channels. -/
def vgaFrame : Mat := Mat.ofFn 480 640 3 (fun y x k => Fin.ofNat (y + 2 * x + 3 * k))

/-- A heap without objects. -/
def noHeap : Heap := ⟨fun _ => none, 0⟩

/-- An opened source that delivers two empty frames and then frames of 640 x 480 x 3. -/
def warmingCapture : Capture := ⟨true, fun i => if i < 2 then emptyFrame else vgaFrame, 0⟩

/-- An opened source that delivers empty frames only. -/
def stalledCapture : Capture := ⟨true, fun _ => emptyFrame, 0⟩

/-- An opened source that delivers one empty frame and then frames of 640 x 480 x 3. -/
def lateCapture : Capture := ⟨true, fun i => if i = 0 then emptyFrame else vgaFrame, 0⟩

/-- An opened source that delivers frames of 640 x 480 x 3 only. -/
def steadyCapture : Capture := ⟨true, fun _ => vgaFrame, 0⟩

/-- The state of a process in which no stream function has run yet, every source being `cap`. -/
def freshWorld (cap : Capture) : World := ⟨noHeap, fun _ => cap, true, true, true⟩

/-- The state of a process in which each stream function has run before, every source being
`cap`. -/
def startedWorld (cap : Capture) : World := ⟨noHeap, fun _ => cap, false, false, false⟩

/-- A fresh process with two sources: source 0 is `steadyCapture`, every other source is
`lateCapture`. -/
def twoSources : World :=
  ⟨noHeap, fun i => if i = 0 then steadyCapture else lateCapture, true, true, true⟩

/-- A started process that holds one empty frame at address 0, every source being
`stalledCapture`. -/
def heldWorld : World :=
  ⟨⟨fun a => if a = 0 then some emptyFrame else none, 1⟩, fun _ => stalledCapture,
    false, false, false⟩

/-! ## Floating-point rounding -/

theorem roundHalfEven_intCast (z : Int) : roundHalfEven (z : ℚ) = z := by
  simp [roundHalfEven]

theorem abs_roundHalfEven_sub_le (q : ℚ) : |(roundHalfEven q : ℚ) - q| ≤ 1 / 2 := by
  unfold roundHalfEven
  have h1 := Int.floor_le q
  have h2 := Int.lt_floor_add_one q
  simp only
  split_ifs with a b c
  · rw [abs_le]; constructor <;> linarith
  · rw [abs_le]; push_cast; constructor <;> linarith
  · rw [abs_le]; constructor <;> linarith
  · rw [abs_le]; push_cast; constructor <;> linarith

theorem ulpExp_le (F : FloatFormat) {q : ℚ} (hq : q ≠ 0) {t : Int} (ht : F.emin ≤ t)
    (hlt : |q| < (2 : ℚ) ^ (t + F.prec)) : F.ulpExp q ≤ t := by
  unfold FloatFormat.ulpExp
  have hpos : 0 < |q| := abs_pos.mpr hq
  have := (Int.lt_zpow_iff_log_lt (b := 2) (by norm_num) hpos (x := t + F.prec)).mp (by exact_mod_cast hlt)
  apply max_le _ ht
  omega

theorem rnd_exact (F : FloatFormat) (m k : Int) (hm : |(m : ℚ)| < (2 : ℚ) ^ F.prec) (hk : F.emin ≤ k) :
    F.rnd ((m : ℚ) * (2 : ℚ) ^ k) = (m : ℚ) * (2 : ℚ) ^ k := by
  unfold FloatFormat.rnd
  split_ifs with h0
  · exact h0.symm
  · have h2 : (0 : ℚ) < 2 := by norm_num
    have hle : F.ulpExp ((m : ℚ) * (2 : ℚ) ^ k) ≤ k := by
      apply ulpExp_le F h0 hk
      rw [abs_mul, abs_of_pos (zpow_pos h2 k), zpow_add₀ (by norm_num), mul_comm ((2:ℚ)^k)]
      have := zpow_pos h2 k
      rw [zpow_natCast]
      exact mul_lt_mul_of_pos_right hm this
    set e := F.ulpExp ((m : ℚ) * (2 : ℚ) ^ k) with he
    obtain ⟨n, hn⟩ : ∃ n : Nat, k = e + n := ⟨(k - e).toNat, by omega⟩
    have hdiv : (m : ℚ) * (2 : ℚ) ^ k / (2 : ℚ) ^ e = ((m * 2 ^ n : Int) : ℚ) := by
      rw [hn, zpow_add₀ (by norm_num), zpow_natCast]
      have := ne_of_gt (zpow_pos h2 e)
      field_simp
      ring
    rw [hdiv, roundHalfEven_intCast, hn, zpow_add₀ (by norm_num), zpow_natCast]
    push_cast
    ring

theorem abs_rnd_sub_le (F : FloatFormat) (q : ℚ) :
    |F.rnd q - q| ≤ (2 : ℚ) ^ F.ulpExp q / 2 := by
  unfold FloatFormat.rnd
  have h2 : (0 : ℚ) < 2 := by norm_num
  have hp := zpow_pos h2 (F.ulpExp q)
  split_ifs with h0
  · subst h0; simp; positivity
  · have := abs_roundHalfEven_sub_le (q / (2 : ℚ) ^ F.ulpExp q)
    have e1 : (roundHalfEven (q / (2 : ℚ) ^ F.ulpExp q) : ℚ) * (2 : ℚ) ^ F.ulpExp q - q
        = ((roundHalfEven (q / (2 : ℚ) ^ F.ulpExp q) : ℚ) - q / (2 : ℚ) ^ F.ulpExp q) * (2 : ℚ) ^ F.ulpExp q := by
      field_simp
    rw [e1, abs_mul, abs_of_pos hp]
    calc _ ≤ 1 / 2 * (2 : ℚ) ^ F.ulpExp q := mul_le_mul_of_nonneg_right this hp.le
      _ = _ := by ring

/-! ## Counted loops -/

theorem forLoop_succ {σ : Type} (n : Nat) (body : Nat → σ → σ) (s : σ) :
    forLoop (n + 1) body s = body n (forLoop n body s) := by
  simp [forLoop, List.range_succ]

theorem forLoop_zero {σ : Type} (body : Nat → σ → σ) (s : σ) : forLoop 0 body s = s := rfl

theorem forLoop_congr {σ : Type} (n : Nat) (body body' : Nat → σ → σ)
    (h : ∀ i, i < n → ∀ s, body i s = body' i s) (s : σ) :
    forLoop n body s = forLoop n body' s := by
  induction n with
  | zero => rfl
  | succ n ih =>
    rw [forLoop_succ, forLoop_succ, ih (fun i hi => h i (Nat.lt_succ_of_lt hi)), h n (Nat.lt_succ_self n)]

/-- Each pass of a loop either stores the intended value `g p` at `p` or leaves `p` alone. -/
theorem forLoop_good {α : Type} (g : Nat → α) (n : Nat) (body : Nat → (Nat → α) → (Nat → α))
    (h : ∀ i, i < n → ∀ d p, body i d p = g p ∨ body i d p = d p) (d : Nat → α) (p : Nat) :
    forLoop n body d p = g p ∨ forLoop n body d p = d p := by
  induction n with
  | zero => exact Or.inr rfl
  | succ n ih =>
    rw [forLoop_succ]
    rcases h n (Nat.lt_succ_self n) (forLoop n body d) p with h1 | h1
    · exact Or.inl h1
    · rw [h1]; exact ih (fun i hi => h i (Nat.lt_succ_of_lt hi))

theorem forLoop_hit {α : Type} (g : Nat → α) (n : Nat) (body : Nat → (Nat → α) → (Nat → α))
    (S : Nat → Nat → Prop)
    (hgood : ∀ i, i < n → ∀ d p, body i d p = g p ∨ body i d p = d p)
    (hhit : ∀ i, i < n → ∀ d p, S i p → body i d p = g p) (d : Nat → α) (p : Nat)
    (hp : ∃ i, i < n ∧ S i p) : forLoop n body d p = g p := by
  induction n with
  | zero => obtain ⟨i, hi, _⟩ := hp; exact absurd hi (Nat.not_lt_zero i)
  | succ n ih =>
    rw [forLoop_succ]
    obtain ⟨i, hi, hS⟩ := hp
    rcases Nat.lt_succ_iff_lt_or_eq.mp hi with hlt | heq
    · have := ih (fun i hi => hgood i (Nat.lt_succ_of_lt hi)) (fun i hi => hhit i (Nat.lt_succ_of_lt hi)) ⟨i, hlt, hS⟩
      rcases hgood n (Nat.lt_succ_self n) (forLoop n body d) p with h1 | h1
      · exact h1
      · rw [h1, this]
    · subst heq
      exact hhit i (Nat.lt_succ_self i) _ p hS

theorem planar_decode (w h x y k : Nat) (hx : x < w) (hy : y < h) :
    (k * w * h + y * w + x) % w = x ∧ (k * w * h + y * w + x) % (w * h) / w = y ∧
      (k * w * h + y * w + x) / (w * h) = k := by
  have hw : 0 < w := Nat.lt_of_le_of_lt (Nat.zero_le _) hx
  have hh : 0 < h := Nat.lt_of_le_of_lt (Nat.zero_le _) hy
  have hlt : y * w + x < w * h := by
    calc y * w + x < y * w + w := by omega
      _ = (y + 1) * w := by ring
      _ ≤ h * w := Nat.mul_le_mul_right w hy
      _ = w * h := Nat.mul_comm _ _
  have e1 : k * w * h + y * w + x = (y * w + x) + (w * h) * k := by ring
  have e2 : k * w * h + y * w + x = x + w * (k * h + y) := by ring
  refine ⟨?_, ?_, ?_⟩
  · rw [e2, Nat.add_mul_mod_self_left, Nat.mod_eq_of_lt hx]
  · rw [e1, Nat.add_mul_mod_self_left, Nat.mod_eq_of_lt hlt]
    have : y * w + x = x + w * y := by ring
    rw [this, Nat.add_mul_div_left _ _ hw, Nat.div_eq_of_lt hx, Nat.zero_add]
  · rw [e1, Nat.add_mul_div_left _ _ (Nat.mul_pos hw hh), Nat.div_eq_of_lt hlt, Nat.zero_add]

/-! ## Bytes as binary32 values -/

theorem ofRat_of_abs_le (F : FloatFormat) (q : ℚ) (h : |F.rnd q| < (2 : ℚ) ^ F.emax) :
    Flt.ofRat F q = Flt.fin (F.rnd q) := by
  simp [Flt.ofRat, h]

theorem ofInt32_byte (b : Nat) (hb : b < 256) : Flt.ofInt binary32 (b : Int) = Flt.fin (b : ℚ) := by
  have hr : binary32.rnd ((b : Int) : ℚ) = ((b : Int) : ℚ) := by
    have := rnd_exact binary32 (b : Int) 0 (by
      have : ((b : Int) : ℚ) < 256 := by exact_mod_cast hb
      rw [abs_of_nonneg (by positivity)]
      calc ((b : Int) : ℚ) < 256 := this
        _ < (2 : ℚ) ^ binary32.prec := by norm_num [binary32]) (by norm_num [binary32])
    simpa using this
  unfold Flt.ofInt
  rw [ofRat_of_abs_le, hr]
  · simp
  · rw [hr, abs_of_nonneg (by positivity)]
    have : ((b : Int) : ℚ) < 256 := by exact_mod_cast hb
    calc ((b : Int) : ℚ) < 256 := this
      _ < (2 : ℚ) ^ binary32.emax := by norm_num [binary32]


theorem abs_rnd_sub_le_of_lt (F : FloatFormat) (q : ℚ) (t : Int) (ht : F.emin ≤ t)
    (hlt : |q| < (2 : ℚ) ^ (t + F.prec)) : |F.rnd q - q| ≤ (2 : ℚ) ^ t / 2 := by
  by_cases h0 : q = 0
  · subst h0
    have : (0 : ℚ) < (2 : ℚ) ^ t := zpow_pos (by norm_num) t
    simp only [FloatFormat.rnd, if_true, sub_self, abs_zero]
    positivity
  · have h := abs_rnd_sub_le F q
    have hle := ulpExp_le F h0 ht hlt
    have : (2 : ℚ) ^ F.ulpExp q ≤ (2 : ℚ) ^ t := zpow_le_zpow_right₀ (by norm_num) hle
    linarith

/-- The binary32 quotient of a byte by 255 is within `2^-24` of the exact quotient. -/
theorem abs_rnd32_byte_div (b : Nat) (hb : b < 256) :
    |binary32.rnd ((b : ℚ) / 255) - (b : ℚ) / 255| ≤ 1 / 2 ^ 24 := by
  have hb' : (b : ℚ) ≤ 255 := by exact_mod_cast Nat.lt_succ_iff.mp hb
  have h1 : (b : ℚ) / 255 ≤ 1 := by rw [div_le_one (by norm_num)]; exact hb'
  have := abs_rnd_sub_le_of_lt binary32 ((b : ℚ) / 255) (-23) (by norm_num [binary32]) (by
    rw [abs_of_nonneg (by positivity)]
    norm_num [binary32]
    linarith)
  calc _ ≤ (2 : ℚ) ^ (-23 : Int) / 2 := this
    _ = 1 / 2 ^ 24 := by norm_num [zpow_neg]

theorem div32_byte (b : Nat) (hb : b < 256) :
    Flt.div binary32 (Flt.ofInt binary32 (b : Int)) (Flt.fin 255)
      = Flt.fin (binary32.rnd ((b : ℚ) / 255)) := by
  rw [ofInt32_byte b hb]
  have h := abs_rnd32_byte_div b hb
  have hb' : (b : ℚ) ≤ 255 := by exact_mod_cast Nat.lt_succ_iff.mp hb
  have h1 : (b : ℚ) / 255 ≤ 1 := by rw [div_le_one (by norm_num)]; exact hb'
  have h0 : (0 : ℚ) ≤ (b : ℚ) / 255 := by positivity
  simp only [Flt.div]
  rw [if_neg (by norm_num)]
  apply ofRat_of_abs_le
  rw [abs_le] at h
  rw [abs_lt]
  have : (2 : ℚ) ≤ (2 : ℚ) ^ binary32.emax := by norm_num [binary32]
  constructor <;> norm_num at h ⊢ <;> linarith


/-! ## The conversion `mat_to_image` -/

/-- Three nested counted loops that store `v i j l` at offset `idx i j l`: when the stored value
is a function `g` of the offset, the final memory holds `v i j l` at `idx i j l`. -/
theorem triple_loop_hit {α : Type} (n1 n2 n3 : Nat) (idx : Nat → Nat → Nat → Nat)
    (v : Nat → Nat → Nat → α) (g : Nat → α)
    (hg : ∀ i j l, i < n1 → j < n2 → l < n3 → g (idx i j l) = v i j l)
    (d : Nat → α) (i j l : Nat) (hi : i < n1) (hj : j < n2) (hl : l < n3) :
    forLoop n1 (fun i d => forLoop n2 (fun j d => forLoop n3 (fun l d =>
      Function.update d (idx i j l) (v i j l)) d) d) d (idx i j l) = v i j l := by
  have inner_good : ∀ i j, i < n1 → j < n2 → ∀ l, l < n3 → ∀ (d : Nat → α) (p : Nat),
      Function.update d (idx i j l) (v i j l) p = g p ∨
      Function.update d (idx i j l) (v i j l) p = d p := by
    intro i j hi hj l hl d p
    by_cases hp : p = idx i j l
    · left; rw [hp, Function.update_same, hg i j l hi hj hl]
    · right; rw [Function.update_noteq hp]
  have mid_good : ∀ i, i < n1 → ∀ j, j < n2 → ∀ (d : Nat → α) (p : Nat),
      forLoop n3 (fun l d => Function.update d (idx i j l) (v i j l)) d p = g p ∨
      forLoop n3 (fun l d => Function.update d (idx i j l) (v i j l)) d p = d p :=
    fun i hi j hj d p => forLoop_good g _ _ (inner_good i j hi hj) d p
  have mid_hit : ∀ i, i < n1 → ∀ j, j < n2 → ∀ (d : Nat → α) (l : Nat), l < n3 →
      forLoop n3 (fun l d => Function.update d (idx i j l) (v i j l)) d (idx i j l)
        = g (idx i j l) := by
    intro i hi j hj d l hl
    apply forLoop_hit g _ _ (fun l p => p = idx i j l) (inner_good i j hi hj)
    · intro l' hl' d p hp
      rw [hp, Function.update_same, hg i j l' hi hj hl']
    · exact ⟨l, hl, rfl⟩
  have row_good : ∀ i, i < n1 → ∀ (d : Nat → α) (p : Nat),
      forLoop n2 (fun j d => forLoop n3 (fun l d =>
        Function.update d (idx i j l) (v i j l)) d) d p = g p ∨
      forLoop n2 (fun j d => forLoop n3 (fun l d =>
        Function.update d (idx i j l) (v i j l)) d) d p = d p :=
    fun i hi d p => forLoop_good g _ _ (mid_good i hi) d p
  have row_hit : ∀ i, i < n1 → ∀ (d : Nat → α) (j l : Nat), j < n2 → l < n3 →
      forLoop n2 (fun j d => forLoop n3 (fun l d =>
        Function.update d (idx i j l) (v i j l)) d) d (idx i j l) = g (idx i j l) := by
    intro i hi d j l hj hl
    apply forLoop_hit g _ _ (fun j p => ∃ l, l < n3 ∧ p = idx i j l) (mid_good i hi)
    · rintro j' hj' d p ⟨l', hl', rfl⟩
      exact mid_hit i hi j' hj' d l' hl'
    · exact ⟨j, hj, l, hl, rfl⟩
  have all_hit := forLoop_hit g n1
    (fun i d => forLoop n2 (fun j d => forLoop n3 (fun l d =>
        Function.update d (idx i j l) (v i j l)) d) d)
    (fun i p => ∃ j l, j < n2 ∧ l < n3 ∧ p = idx i j l)
    row_good
    (by
      rintro i' hi' d p ⟨j', l', hj', hl', rfl⟩
      exact row_hit i' hi' d j' l' hj' hl')
    d (idx i j l) ⟨i, hi, j, l, hj, hl, rfl⟩
  rw [hg i j l hi hj hl] at all_hit
  exact all_hit

theorem mat_to_image_data (m : Mat) (x y k : Nat) (hx : x < m.cols) (hy : y < m.rows)
    (hk : k < m.chans) :
    (mat_to_image m).data (k * m.cols * m.rows + y * m.cols + x)
      = Flt.fin (binary32.rnd (((m.data (y * m.step + x * m.chans + k)).val : ℚ) / 255)) := by
  rw [← div32_byte _ (m.data (y * m.step + x * m.chans + k)).isLt]
  exact triple_loop_hit m.rows m.chans m.cols (fun y k x => k * m.cols * m.rows + y * m.cols + x)
    (fun y k x => Flt.div binary32
      (Flt.ofInt binary32 (m.data (y * m.step + x * m.chans + k)).val) (Flt.fin 255))
    (fun p => Flt.div binary32 (Flt.ofInt binary32 (m.data ((p % (m.cols * m.rows) / m.cols)
      * m.step + (p % m.cols) * m.chans + p / (m.cols * m.rows))).val) (Flt.fin 255))
    (by
      intro y k x hy _ hx
      obtain ⟨e1, e2, e3⟩ := planar_decode m.cols m.rows x y k hx hy
      simp only [e1, e2, e3])
    _ y k x hy hk hx


theorem mat_to_image_unfold (m : Mat) :
    mat_to_image m = ⟨m.cols, m.rows, m.chans,
      forLoop m.rows (fun y d =>
        forLoop m.chans (fun k d =>
          forLoop m.cols (fun x d =>
            Function.update d (k * m.cols * m.rows + y * m.cols + x)
              (Flt.div binary32 (Flt.ofInt binary32 (m.data (y * m.step + x * m.chans + k)).val)
                (Flt.fin 255))) d) d) (fun _ => Flt.fin 0)⟩ := rfl

theorem mat_to_image_congr (m m' : Mat) (hr : m'.rows = m.rows) (hc : m'.cols = m.cols)
    (hch : m'.chans = m.chans) (hs : m'.step = m.step)
    (h : ∀ y x k, y < m.rows → x < m.cols → k < m.chans →
      m'.data (y * m.step + x * m.chans + k) = m.data (y * m.step + x * m.chans + k)) :
    mat_to_image m' = mat_to_image m := by
  rw [mat_to_image_unfold m, mat_to_image_unfold m']
  simp only [hr, hc, hch, hs]
  refine congrArg (Image.mk m.cols m.rows m.chans) ?_
  apply forLoop_congr
  intro y hy e
  apply forLoop_congr
  intro k hk e
  apply forLoop_congr
  intro x hx e
  rw [h y x k hy hx hk]

/-- Claim C1: for a native buffer whose row stride is at least `cols * chans`, `mat_to_image`
returns an image of the buffer's width, height and channel count; for every pixel `(x, y)` and
channel `k` the sample at planar offset `k*w*h + y*w + x` is the byte at native offset
`y*step + x*c + k` divided by 255 in binary32 (channel `k` comes from channel `k`); and the
result does not change when the bytes of the stride padding change. -/
theorem mat_to_image_spec (m : Mat) (hstep : m.cols * m.chans ≤ m.step) :
    (mat_to_image m).w = m.cols ∧ (mat_to_image m).h = m.rows ∧ (mat_to_image m).c = m.chans ∧
    (∀ x y k, x < m.cols → y < m.rows → k < m.chans →
      (mat_to_image m).data (k * m.cols * m.rows + y * m.cols + x)
        = Flt.fin (binary32.rnd (((m.data (y * m.step + x * m.chans + k)).val : ℚ) / 255))) ∧
    (∀ m' : Mat, m'.rows = m.rows → m'.cols = m.cols → m'.chans = m.chans → m'.step = m.step →
      (∀ off, off % m.step < m.cols * m.chans → m'.data off = m.data off) →
      mat_to_image m' = mat_to_image m) := by
  refine ⟨rfl, rfl, rfl, fun x y k hx hy hk => mat_to_image_data m x y k hx hy hk, ?_⟩
  intro m' hr hc hch hs h
  apply mat_to_image_congr m m' hr hc hch hs
  intro y x k _ hx hk
  apply h
  have h1 : x * m.chans + k < m.cols * m.chans := by
    calc x * m.chans + k < x * m.chans + m.chans := by omega
      _ = (x + 1) * m.chans := by ring
      _ ≤ m.cols * m.chans := Nat.mul_le_mul_right _ hx
  have h2 : x * m.chans + k < m.step := lt_of_lt_of_le h1 hstep
  have : y * m.step + x * m.chans + k = (x * m.chans + k) + m.step * y := by ring
  rw [this, Nat.add_mul_mod_self_left, Nat.mod_eq_of_lt h2]
  exact h1

/-- Witness for C1 on `sampleMat`: pixel `(1, 1)`, channel 1. -/
theorem mat_to_image_spec_witness :
    sampleMat.cols * sampleMat.chans ≤ sampleMat.step ∧
    (mat_to_image sampleMat).w = 2 ∧ (mat_to_image sampleMat).h = 2 ∧
    (mat_to_image sampleMat).c = 3 ∧
    (mat_to_image sampleMat).data 7
      = Flt.fin (binary32.rnd (((sampleMat.data 12).val : ℚ) / 255)) :=
  ⟨by decide, (mat_to_image_spec sampleMat (by decide)).1,
    (mat_to_image_spec sampleMat (by decide)).2.1,
    (mat_to_image_spec sampleMat (by decide)).2.2.1,
    (mat_to_image_spec sampleMat (by decide)).2.2.2.1 1 1 1 (by decide) (by decide) (by decide)⟩

/-! ## The conversion `image_to_mat` -/

theorem forLoopM_succ {σ : Type} (n : Nat) (body : Nat → σ → Except Failure σ) (s : σ) :
    forLoopM (n + 1) body s = (forLoopM n body s) >>= body n := by
  simp [forLoopM, List.range_succ, List.foldlM_append]

theorem forLoopM_eq_ok {σ : Type} (n : Nat) (body : Nat → σ → Except Failure σ)
    (body' : Nat → σ → σ) (h : ∀ i, i < n → ∀ s, body i s = Except.ok (body' i s)) (s : σ) :
    forLoopM n body s = Except.ok (forLoop n body' s) := by
  induction n with
  | zero => rfl
  | succ n ih =>
    rw [forLoopM_succ, forLoop_succ, ih (fun i hi => h i (Nat.lt_succ_of_lt hi))]
    exact h n (Nat.lt_succ_self n) _

theorem native_decode (w c x y k : Nat) (hx : x < w) (hk : k < c) :
    (y * (w * c) + x * c + k) / (w * c) = y ∧ (y * (w * c) + x * c + k) % (w * c) / c = x ∧
      (y * (w * c) + x * c + k) % c = k := by
  have hw : 0 < w := Nat.lt_of_le_of_lt (Nat.zero_le _) hx
  have hc : 0 < c := Nat.lt_of_le_of_lt (Nat.zero_le _) hk
  have hlt : x * c + k < w * c := by
    calc x * c + k < x * c + c := by omega
      _ = (x + 1) * c := by ring
      _ ≤ w * c := Nat.mul_le_mul_right c hx
  have e1 : y * (w * c) + x * c + k = (x * c + k) + (w * c) * y := by ring
  have e2 : y * (w * c) + x * c + k = k + c * (y * w + x) := by ring
  have e3 : x * c + k = k + c * x := by ring
  refine ⟨?_, ?_, ?_⟩
  · rw [e1, Nat.add_mul_div_left _ _ (Nat.mul_pos hw hc), Nat.div_eq_of_lt hlt, Nat.zero_add]
  · rw [e1, Nat.add_mul_mod_self_left, Nat.mod_eq_of_lt hlt, e3, Nat.add_mul_div_left _ _ hc,
      Nat.div_eq_of_lt hk, Nat.zero_add]
  · rw [e2, Nat.add_mul_mod_self_left, Nat.mod_eq_of_lt hk]

theorem Mat.pixel_ofFn (rows cols chans : Nat) (f : Nat → Nat → Nat → Fin 256) (y x k : Nat)
    (hx : x < cols) (hk : k < chans) : (Mat.ofFn rows cols chans f).pixel y x k = f y x k := by
  obtain ⟨e1, e2, e3⟩ := native_decode cols chans x y k hx hk
  simp only [Mat.pixel, Mat.ofFn, e1, e2, e3]

theorem truncate_intCast (z : Int) : truncate (z : ℚ) = z := by
  unfold truncate
  split_ifs with h
  · simp
  · rw [← Int.cast_neg, Int.floor_intCast]; omega

theorem roundHalfAway_eq_of_abs_lt (p : ℚ) (b : Nat) (h : |p - b| < 1 / 2) :
    roundHalfAway p = b := by
  rw [abs_lt] at h
  unfold roundHalfAway
  split_ifs with h0
  · rw [Int.floor_eq_iff]; push_cast; constructor <;> linarith
  · have hb : b = 0 := by
      by_contra hne
      have : (1 : ℚ) ≤ b := by exact_mod_cast Nat.one_le_iff_ne_zero.mpr hne
      linarith
    subst hb
    have : ⌊-p + 1 / 2⌋ = 0 := by
      rw [Int.floor_eq_iff]; push_cast; constructor <;> linarith
    rw [this]; rfl

theorem abs_roundHalfAway_sub_le (p : ℚ) : |(roundHalfAway p : ℚ) - p| ≤ 1 / 2 := by
  unfold roundHalfAway
  split_ifs with h0
  · have h1 := Int.floor_le (p + 1 / 2)
    have h2 := Int.lt_floor_add_one (p + 1 / 2)
    rw [abs_le]; constructor <;> linarith
  · have h1 := Int.floor_le (-p + 1 / 2)
    have h2 := Int.lt_floor_add_one (-p + 1 / 2)
    rw [abs_le]; push_cast; constructor <;> linarith

/-- The binary32 product of a sample in `[0, 1]` with 255 is within `2^-17` of the exact one. -/
theorem abs_rnd32_mul255 (q : ℚ) (h0 : 0 ≤ q) (h1 : q ≤ 1) :
    |binary32.rnd (q * 255) - q * 255| ≤ 1 / 2 ^ 17 := by
  have := abs_rnd_sub_le_of_lt binary32 (q * 255) (-16) (by norm_num [binary32]) (by
    rw [abs_of_nonneg (by positivity)]
    norm_num [binary32]
    linarith)
  calc _ ≤ (2 : ℚ) ^ (-16 : Int) / 2 := this
    _ = 1 / 2 ^ 17 := by norm_num [zpow_neg]

theorem roundHalfAway_nonneg_of (p : ℚ) (h : -(1 / 2) < p) : 0 ≤ roundHalfAway p := by
  unfold roundHalfAway
  split_ifs with h0
  · exact Int.floor_nonneg.mpr (by linarith)
  · have : ⌊-p + 1 / 2⌋ = 0 := by
      rw [Int.floor_eq_iff]; push_cast; constructor <;> linarith
    omega

theorem roundHalfAway_le_of (p : ℚ) (n : Int) (h : p < n + 1 / 2) : roundHalfAway p ≤ n := by
  unfold roundHalfAway
  split_ifs with h0
  · have : ⌊p + 1 / 2⌋ < n + 1 := by rw [Int.floor_lt]; push_cast; linarith
    omega
  · have : -n ≤ ⌊-p + 1 / 2⌋ := by rw [Int.le_floor]; push_cast; linarith
    omega

/-- The byte `image_to_mat` stores for a sample in `[0, 1]`. -/
theorem toUChar_sample (q : ℚ) (h0 : 0 ≤ q) (h1 : q ≤ 1) :
    ∃ b : Fin 256, (Flt.round (Flt.mul binary32 (Flt.fin q) (Flt.fin 255))).toUChar = Except.ok b ∧
      (b.val : Int) = roundHalfAway (binary32.rnd (q * 255)) := by
  have hr := abs_rnd32_mul255 q h0 h1
  rw [abs_le] at hr
  have hlo : -(1 / 2) < binary32.rnd (q * 255) := by
    have : (0:ℚ) ≤ q * 255 := by positivity
    norm_num at hr ⊢; linarith
  have hhi : binary32.rnd (q * 255) < (255 : Int) + 1 / 2 := by
    have : q * 255 ≤ 255 := by linarith
    norm_num at hr ⊢; linarith
  have hfin : Flt.mul binary32 (Flt.fin q) (Flt.fin 255) = Flt.fin (binary32.rnd (q * 255)) := by
    simp only [Flt.mul]
    apply ofRat_of_abs_le
    rw [abs_lt]
    have : (256 : ℚ) ≤ (2 : ℚ) ^ binary32.emax := by norm_num [binary32]
    push_cast at hhi
    constructor <;> linarith
  have hn := roundHalfAway_nonneg_of _ hlo
  have hl := roundHalfAway_le_of _ 255 hhi
  rw [hfin]
  simp only [Flt.round, Flt.toUChar, truncate_intCast]
  rw [dif_pos ⟨hn, by omega⟩]
  exact ⟨_, rfl, by simp; omega⟩

theorem toUChar_of_inUnit (f : Flt) (h : f.InUnit) :
    (Flt.round (Flt.mul binary32 f (Flt.fin 255))).toUChar = Except.ok (byteOf f) ∧
    ((byteOf f).val : Int) = roundHalfAway (binary32.rnd (f.toRat * 255)) := by
  obtain ⟨q, rfl, h0, h1⟩ := h
  obtain ⟨b, hb, hv⟩ := toUChar_sample q h0 h1
  have : byteOf (Flt.fin q) = b := by simp only [byteOf, hb]
  rw [this]
  exact ⟨hb, hv⟩

theorem image_to_mat_ok (img : Image)
    (hrange : ∀ x y k, x < img.w → y < img.h → k < img.c →
      (img.data (k * img.h * img.w + y * img.w + x)).InUnit) :
    image_to_mat img = Except.ok ⟨img.h, img.w, img.c, img.w * img.c,
      forLoop img.h (fun y d => forLoop img.w (fun x d => forLoop img.c (fun k (d : Nat → Fin 256) =>
        Function.update d (y * (img.w * img.c) + x * img.c + k)
          (byteOf (img.data (k * img.h * img.w + y * img.w + x)))) d) d) (fun _ => 0)⟩ := by
  have h3 : ∀ y, y < img.h → ∀ x, x < img.w → ∀ d : Nat → Fin 256,
      forLoopM img.c (fun c d =>
        (Flt.round (Flt.mul binary32 (img.data (c * img.h * img.w + y * img.w + x))
          (Flt.fin 255))).toUChar.map
          (fun b => Function.update d (y * (img.w * img.c) + x * img.c + c) b)) d
      = Except.ok (forLoop img.c (fun k (d : Nat → Fin 256) =>
        Function.update d (y * (img.w * img.c) + x * img.c + k)
          (byteOf (img.data (k * img.h * img.w + y * img.w + x)))) d) := by
    intro y hy x hx d
    apply forLoopM_eq_ok
    intro k hk s
    rw [(toUChar_of_inUnit _ (hrange x y k hx hy hk)).1]
    rfl
  have h2 : ∀ y, y < img.h → ∀ d : Nat → Fin 256,
      forLoopM img.w (fun x d => forLoopM img.c (fun c d =>
        (Flt.round (Flt.mul binary32 (img.data (c * img.h * img.w + y * img.w + x))
          (Flt.fin 255))).toUChar.map
          (fun b => Function.update d (y * (img.w * img.c) + x * img.c + c) b)) d) d
      = Except.ok (forLoop img.w (fun x d => forLoop img.c (fun k (d : Nat → Fin 256) =>
        Function.update d (y * (img.w * img.c) + x * img.c + k)
          (byteOf (img.data (k * img.h * img.w + y * img.w + x)))) d) d) := by
    intro y hy d
    apply forLoopM_eq_ok
    intro x hx s
    exact h3 y hy x hx s
  have h1 : ∀ d : Nat → Fin 256,
      forLoopM img.h (fun y d => forLoopM img.w (fun x d => forLoopM img.c (fun c d =>
        (Flt.round (Flt.mul binary32 (img.data (c * img.h * img.w + y * img.w + x))
          (Flt.fin 255))).toUChar.map
          (fun b => Function.update d (y * (img.w * img.c) + x * img.c + c) b)) d) d) d
      = Except.ok (forLoop img.h (fun y d => forLoop img.w (fun x d => forLoop img.c (fun k (d : Nat → Fin 256) =>
        Function.update d (y * (img.w * img.c) + x * img.c + k)
          (byteOf (img.data (k * img.h * img.w + y * img.w + x)))) d) d) d) := by
    intro d
    apply forLoopM_eq_ok
    intro y hy s
    exact h2 y hy s
  show Except.map _ (forLoopM img.h _ _) = _
  erw [h1]
  rfl

/-- What `image_to_mat` returns for an image whose samples lie in `[0, 1]`: its size and the
byte stored for every pixel and channel. -/
theorem image_to_mat_pixels (img : Image)
    (hrange : ∀ x y k, x < img.w → y < img.h → k < img.c →
      (img.data (k * img.h * img.w + y * img.w + x)).InUnit) :
    ∃ m, image_to_mat img = Except.ok m ∧ m.rows = img.h ∧ m.cols = img.w ∧ m.chans = img.c ∧
      ∀ x y k, x < img.w → y < img.h → k < img.c →
        ((m.data (y * m.step + x * img.c + k)).val : Int)
          = roundHalfAway (binary32.rnd
              ((img.data (k * img.h * img.w + y * img.w + x)).toRat * 255)) ∧
        |((m.data (y * m.step + x * img.c + k)).val : ℚ)
          - (img.data (k * img.h * img.w + y * img.w + x)).toRat * 255| ≤ 1 / 2 + 1 / 2 ^ 17 := by
  refine ⟨_, image_to_mat_ok img hrange, rfl, rfl, rfl, ?_⟩
  intro x y k hx hy hk
  have hit := triple_loop_hit img.h img.w img.c
    (fun y x k => y * (img.w * img.c) + x * img.c + k)
    (fun y x k => byteOf (img.data (k * img.h * img.w + y * img.w + x)))
    (fun p => byteOf (img.data ((p % img.c) * img.h * img.w
      + (p / (img.w * img.c)) * img.w + p % (img.w * img.c) / img.c)))
    (by
      intro y x k _ hx hk
      obtain ⟨e1, e2, e3⟩ := native_decode img.w img.c x y k hx hk
      simp only [e1, e2, e3])
    (fun _ => 0) y x k hy hx hk
  simp only at hit ⊢
  rw [hit]
  have hv := (toUChar_of_inUnit _ (hrange x y k hx hy hk)).2
  refine ⟨hv, ?_⟩
  obtain ⟨q, hq, h0, h1⟩ := hrange x y k hx hy hk
  rw [hq] at hv ⊢
  simp only [Flt.toRat] at hv ⊢
  have e : ((byteOf (Flt.fin q)).val : ℚ) = ((roundHalfAway (binary32.rnd (q * 255)) : Int) : ℚ) := by
    rw [← hv]; simp
  rw [e]
  have a1 := abs_roundHalfAway_sub_le (binary32.rnd (q * 255))
  have a2 := abs_rnd32_mul255 q h0 h1
  calc |((roundHalfAway (binary32.rnd (q * 255)) : Int) : ℚ) - q * 255|
      = |(((roundHalfAway (binary32.rnd (q * 255)) : Int) : ℚ) - binary32.rnd (q * 255))
          + (binary32.rnd (q * 255) - q * 255)| := by ring_nf
    _ ≤ _ := (abs_add _ _).trans (add_le_add a1 a2)

/-- Claim C2: for a planar image whose samples all lie in `[0, 1]`, `image_to_mat` returns a
buffer of `h` rows, `w` columns and `c` channels in which the byte at native offset
`y*step + x*c + k` is the sample at planar offset `k*h*w + y*w + x` multiplied by 255 (in
binary32) and rounded to the nearest integer, ties away from zero; the byte is within
`1/2 + 2^-17` of the exact product, which truncation would not give. -/
theorem image_to_mat_spec (img : Image)
    (hrange : ∀ x y k, x < img.w → y < img.h → k < img.c →
      (img.data (k * img.h * img.w + y * img.w + x)).InUnit) :
    ∃ m, image_to_mat img = Except.ok m ∧ m.rows = img.h ∧ m.cols = img.w ∧ m.chans = img.c ∧
      ∀ x y k, x < img.w → y < img.h → k < img.c →
        ((m.data (y * m.step + x * img.c + k)).val : Int)
          = roundHalfAway (binary32.rnd
              ((img.data (k * img.h * img.w + y * img.w + x)).toRat * 255)) ∧
        |((m.data (y * m.step + x * img.c + k)).val : ℚ)
          - (img.data (k * img.h * img.w + y * img.w + x)).toRat * 255| ≤ 1 / 2 + 1 / 2 ^ 17 :=
  image_to_mat_pixels img hrange

/-- Every sample of `sampleImage` lies in `[0, 1]`. -/
theorem sampleImage_inUnit : ∀ x y k, x < sampleImage.w → y < sampleImage.h → k < sampleImage.c →
    (sampleImage.data (k * sampleImage.h * sampleImage.w + y * sampleImage.w + x)).InUnit := by
  intro x y k _ _ _
  refine ⟨_, rfl, by positivity, ?_⟩
  rw [div_le_one (by norm_num)]
  have := Nat.mod_lt (k * sampleImage.h * sampleImage.w + y * sampleImage.w + x)
    (by norm_num : 0 < 4)
  exact_mod_cast this.le

/-- Witness for C2 on `sampleImage`: pixel `(1, 1)`, channel 2. -/
theorem image_to_mat_spec_witness :
    (∀ x y k, x < sampleImage.w → y < sampleImage.h → k < sampleImage.c →
      (sampleImage.data (k * sampleImage.h * sampleImage.w + y * sampleImage.w + x)).InUnit) ∧
    ∃ m, image_to_mat sampleImage = Except.ok m ∧ m.rows = 2 ∧ m.cols = 2 ∧ m.chans = 3 ∧
      ((m.data (1 * m.step + 1 * 3 + 2)).val : Int)
        = roundHalfAway (binary32.rnd ((sampleImage.data 11).toRat * 255)) :=
  ⟨sampleImage_inUnit,
    (image_to_mat_spec sampleImage sampleImage_inUnit).imp fun _ h =>
      ⟨h.1, h.2.1, h.2.2.1, h.2.2.2.1, (h.2.2.2.2 1 1 2 (by decide) (by decide) (by decide)).1⟩⟩

theorem roundHalfEven_nonneg (s : ℚ) (h : 0 ≤ s) : 0 ≤ roundHalfEven s := by
  have hf : 0 ≤ ⌊s⌋ := Int.floor_nonneg.mpr h
  unfold roundHalfEven
  simp only
  split_ifs <;> omega

theorem roundHalfEven_le_int (s : ℚ) (n : Int) (h : s ≤ n) : roundHalfEven s ≤ n := by
  have hf : ⌊s⌋ ≤ n := by
    have := Int.floor_le s
    have : ((⌊s⌋ : Int) : ℚ) ≤ n := by linarith
    exact_mod_cast this
  have hlt := Int.lt_floor_add_one s
  unfold roundHalfEven
  simp only
  rcases hf.lt_or_eq with hlt' | heq
  · split_ifs <;> omega
  · have hs : s - ⌊s⌋ < 1 / 2 := by rw [heq]; linarith
    rw [if_pos hs]; omega

/-- Rounding to binary32 keeps a value of `[0, 1]` inside `[0, 1]`. -/
theorem rnd32_unit (q : ℚ) (h0 : 0 ≤ q) (h1 : q ≤ 1) :
    0 ≤ binary32.rnd q ∧ binary32.rnd q ≤ 1 := by
  unfold FloatFormat.rnd
  split_ifs with hq
  · exact ⟨le_refl _, by norm_num⟩
  · have h2 : (0 : ℚ) < 2 := by norm_num
    have he : binary32.ulpExp q ≤ 0 := by
      apply ulpExp_le binary32 hq (by norm_num [binary32])
      rw [abs_of_nonneg h0]
      norm_num [binary32]
      linarith
    set e := binary32.ulpExp q with hedef
    have hp := zpow_pos h2 e
    obtain ⟨n, hn⟩ : ∃ n : Nat, e = -(n : Int) := ⟨(-e).toNat, by omega⟩
    have hinv : (1 : ℚ) / (2 : ℚ) ^ e = ((2 ^ n : Int) : ℚ) := by
      rw [hn, zpow_neg, zpow_natCast]; simp
    constructor
    · have := roundHalfEven_nonneg (q / (2 : ℚ) ^ e) (by positivity)
      have : (0 : ℚ) ≤ (roundHalfEven (q / (2 : ℚ) ^ e) : ℚ) := by exact_mod_cast this
      positivity
    · have hle : q / (2 : ℚ) ^ e ≤ ((2 ^ n : Int) : ℚ) := by
        rw [← hinv]; exact div_le_div_of_nonneg_right h1 hp.le
      have := roundHalfEven_le_int _ _ hle
      have h3 : (roundHalfEven (q / (2 : ℚ) ^ e) : ℚ) ≤ ((2 ^ n : Int) : ℚ) := by exact_mod_cast this
      calc (roundHalfEven (q / (2 : ℚ) ^ e) : ℚ) * (2 : ℚ) ^ e
          ≤ ((2 ^ n : Int) : ℚ) * (2 : ℚ) ^ e := mul_le_mul_of_nonneg_right h3 hp.le
        _ = 1 := by rw [← hinv]; field_simp

/-- Claim C3: for every native buffer `B`, `image_to_mat (mat_to_image B)` is defined, has the
rows, columns and channels of `B`, and every pixel byte differs from the byte of `B` by at most 1
(the two bytes are in fact equal). -/
theorem roundtrip_quantization (B : Mat) :
    ∃ m, image_to_mat (mat_to_image B) = Except.ok m ∧
      m.rows = B.rows ∧ m.cols = B.cols ∧ m.chans = B.chans ∧
      ∀ x y k, x < B.cols → y < B.rows → k < B.chans →
        Int.natAbs (((m.pixel y x k).val : Int) - ((B.pixel y x k).val : Int)) ≤ 1 ∧
        m.pixel y x k = B.pixel y x k := by
  have hsample : ∀ x y k, x < B.cols → y < B.rows → k < B.chans →
      (mat_to_image B).data (k * B.rows * B.cols + y * B.cols + x)
        = Flt.fin (binary32.rnd (((B.pixel y x k).val : ℚ) / 255)) := by
    intro x y k hx hy hk
    have := mat_to_image_data B x y k hx hy hk
    have e : k * B.rows * B.cols = k * B.cols * B.rows := by ring
    rw [e]; exact this
  have hunit : ∀ x y k, x < (mat_to_image B).w → y < (mat_to_image B).h → k < (mat_to_image B).c →
      ((mat_to_image B).data (k * (mat_to_image B).h * (mat_to_image B).w
        + y * (mat_to_image B).w + x)).InUnit := by
    intro x y k hx hy hk
    have hb : ((B.pixel y x k).val : ℚ) ≤ 255 := by
      exact_mod_cast Nat.lt_succ_iff.mp (B.pixel y x k).isLt
    refine ⟨_, hsample x y k hx hy hk, ?_⟩
    exact rnd32_unit _ (by positivity) (by rw [div_le_one (by norm_num)]; exact hb)
  obtain ⟨m, hm, hr, hc, hch, hpx⟩ := image_to_mat_pixels (mat_to_image B) hunit
  refine ⟨m, hm, hr, hc, hch, ?_⟩
  intro x y k hx hy hk
  have h1 := (hpx x y k hx hy hk).1
  have hs := hsample x y k hx hy hk
  change _ = roundHalfAway (binary32.rnd
    (((mat_to_image B).data (k * B.rows * B.cols + y * B.cols + x)).toRat * 255)) at h1
  rw [hs] at h1
  simp only [Flt.toRat] at h1
  have hb : ((B.pixel y x k).val : ℚ) ≤ 255 := by
    exact_mod_cast Nat.lt_succ_iff.mp (B.pixel y x k).isLt
  have hq1 : ((B.pixel y x k).val : ℚ) / 255 ≤ 1 := by rw [div_le_one (by norm_num)]; exact hb
  have hu := rnd32_unit _ (by positivity : (0:ℚ) ≤ ((B.pixel y x k).val : ℚ) / 255) hq1
  have a1 := abs_rnd32_byte_div _ (B.pixel y x k).isLt
  have a2 := abs_rnd32_mul255 _ hu.1 hu.2
  have hclose : |binary32.rnd (binary32.rnd (((B.pixel y x k).val : ℚ) / 255) * 255)
      - ((B.pixel y x k).val : ℚ)| < 1 / 2 := by
    rw [abs_le] at a1 a2
    rw [abs_lt]
    norm_num at a1 a2 ⊢
    constructor <;> linarith
  have h2 := roundHalfAway_eq_of_abs_lt _ _ hclose
  rw [h2] at h1
  have hval : (m.pixel y x k).val = (B.pixel y x k).val := by
    have : m.pixel y x k = m.data (y * m.step + x * (mat_to_image B).c + k) := by
      show m.data _ = m.data _
      rw [hch]
    rw [this]
    exact_mod_cast h1
  refine ⟨by rw [hval]; simp, Fin.ext hval⟩

/-! ## The crop -/

theorem Mat.pixel_roi (m v : Mat) (r : Rect) (h : m.roi r = Except.ok v) (y x k : Nat) :
    v.rows = r.height.toNat ∧ v.cols = r.width.toNat ∧ v.chans = m.chans ∧
    v.pixel y x k = m.pixel (r.y.toNat + y) (r.x.toNat + x) k := by
  unfold Mat.roi at h
  split_ifs at h with hc
  · injection h with h
    subst h
    refine ⟨rfl, rfl, rfl, ?_⟩
    show m.data _ = m.data _
    congr 1
    ring
  
theorem Mat.roi_ok (m : Mat) (r : Rect)
    (hc : 0 ≤ r.x ∧ 0 ≤ r.width ∧ r.x + r.width ≤ m.cols ∧
      0 ≤ r.y ∧ 0 ≤ r.height ∧ r.y + r.height ≤ m.rows) :
    ∃ v, m.roi r = Except.ok v := by
  unfold Mat.roi
  rw [if_pos hc]
  exact ⟨_, rfl⟩

theorem Mat.roi_fatal (m : Mat) (r : Rect)
    (hc : ¬ (0 ≤ r.x ∧ 0 ≤ r.width ∧ r.x + r.width ≤ m.cols ∧
      0 ≤ r.y ∧ 0 ≤ r.height ∧ r.y + r.height ≤ m.rows)) :
    m.roi r = Except.error Failure.fatal := by
  unfold Mat.roi
  rw [if_neg hc]


theorem crop_buffer_slow {ρ : Type} (cv : OpenCV ρ) (img : Mat)
    (pleft ptop swidth sheight : Int) (colour : Nat → Fin 256)
    (hmean : cv.mean img = some colour) (hw : 0 ≤ swidth) (hh : 0 ≤ sheight)
    (hslow : ¬ (pleft = 0 ∧ ptop = 0 ∧ swidth = img.cols ∧ sheight = img.rows)) :
    crop_buffer cv img pleft ptop swidth sheight =
      (img.roi ((⟨pleft, ptop, swidth, sheight⟩ : Rect).inter ⟨0, 0, img.cols, img.rows⟩)) >>=
        fun src_view =>
          ((Mat.ofFn sheight.toNat swidth.toNat img.chans (fun _ _ k => colour k)).roi
            ⟨max 0 (-pleft), max 0 (-ptop),
              ((⟨pleft, ptop, swidth, sheight⟩ : Rect).inter ⟨0, 0, img.cols, img.rows⟩).width,
              ((⟨pleft, ptop, swidth, sheight⟩ : Rect).inter ⟨0, 0, img.cols, img.rows⟩).height⟩) >>=
          fun _ => pure (src_view.copyToRoi
            (Mat.ofFn sheight.toNat swidth.toNat img.chans (fun _ _ k => colour k))
            ⟨max 0 (-pleft), max 0 (-ptop),
              ((⟨pleft, ptop, swidth, sheight⟩ : Rect).inter ⟨0, 0, img.cols, img.rows⟩).width,
              ((⟨pleft, ptop, swidth, sheight⟩ : Rect).inter ⟨0, 0, img.cols, img.rows⟩).height⟩) := by
  unfold crop_buffer
  simp only [if_neg hslow, Mat.create, if_pos (And.intro hw hh), hmean, orFatal]
  rfl

theorem Rect.inter_empty (a b : Rect)
    (h : min (a.x + a.width) (b.x + b.width) - max a.x b.x ≤ 0 ∨
      min (a.y + a.height) (b.y + b.height) - max a.y b.y ≤ 0) :
    a.inter b = ⟨0, 0, 0, 0⟩ := by
  unfold Rect.inter
  simp only
  rw [if_pos h]

theorem Rect.inter_nonempty (a b : Rect)
    (h : ¬ (min (a.x + a.width) (b.x + b.width) - max a.x b.x ≤ 0 ∨
      min (a.y + a.height) (b.y + b.height) - max a.y b.y ≤ 0)) :
    a.inter b = ⟨max a.x b.x, max a.y b.y,
      min (a.x + a.width) (b.x + b.width) - max a.x b.x,
      min (a.y + a.height) (b.y + b.height) - max a.y b.y⟩ := by
  unfold Rect.inter
  simp only
  rw [if_neg h]

theorem Mat.copyToRoi_dims (src dst : Mat) (r : Rect) :
    (src.copyToRoi dst r).rows = dst.rows ∧ (src.copyToRoi dst r).cols = dst.cols ∧
    (src.copyToRoi dst r).chans = dst.chans := by
  unfold Mat.copyToRoi
  split_ifs <;> exact ⟨rfl, rfl, rfl⟩

/-- Pixels of `src.copyTo(dst(r))` when `src` has the size and type of the region `r`. -/
theorem Mat.pixel_copyToRoi (src dst : Mat) (r : Rect) (hr : src.rows ≠ 0) (hc : src.cols ≠ 0)
    (h1 : (src.rows : Int) = r.height) (h2 : (src.cols : Int) = r.width)
    (h3 : src.chans = dst.chans) (y x k : Nat) (hx : x < dst.cols) (hk : k < dst.chans) :
    (src.copyToRoi dst r).pixel y x k =
      if r.y ≤ y ∧ (y : Int) < r.y + r.height ∧ r.x ≤ x ∧ (x : Int) < r.x + r.width then
        src.pixel (y - r.y.toNat) (x - r.x.toNat) k
      else dst.pixel y x k := by
  unfold Mat.copyToRoi
  rw [if_neg (by omega), if_pos ⟨h1, h2, h3⟩]
  exact Mat.pixel_ofFn _ _ _ _ y x k hx hk

/-- The crop when the fast path (the rectangle is the whole image) is not taken: a
`swidth` x `sheight` buffer holding the source pixel where the rectangle covers the source and
the mean colour elsewhere, provided the rectangle does not lie more than its own size to the
left of or above the source origin. -/
theorem crop_buffer_padded {ρ : Type} (cv : OpenCV ρ) (img : Mat)
    (pleft ptop swidth sheight : Int) (colour : Nat → Fin 256)
    (hmean : cv.mean img = some colour) (hw : 1 ≤ swidth) (hh : 1 ≤ sheight)
    (hslow : ¬ (pleft = 0 ∧ ptop = 0 ∧ swidth = img.cols ∧ sheight = img.rows))
    (hx : -swidth ≤ pleft) (hy : -sheight ≤ ptop) :
    ∃ buf, crop_buffer cv img pleft ptop swidth sheight = Except.ok buf ∧
      (buf.cols : Int) = swidth ∧ (buf.rows : Int) = sheight ∧ buf.chans = img.chans ∧
      ∀ x y k : Nat, (x : Int) < swidth → (y : Int) < sheight → k < img.chans →
        buf.pixel y x k =
          if 0 ≤ pleft + x ∧ pleft + x < img.cols ∧ 0 ≤ ptop + y ∧ ptop + y < img.rows then
            img.pixel (ptop + y).toNat (pleft + x).toNat k
          else colour k := by
  rw [crop_buffer_slow cv img pleft ptop swidth sheight colour hmean (by omega) (by omega) hslow]
  by_cases hemp : min (pleft + swidth) (0 + (img.cols : Int)) - max pleft 0 ≤ 0 ∨
      min (ptop + sheight) (0 + (img.rows : Int)) - max ptop 0 ≤ 0
  · -- no overlap: nothing is copied
    rw [Rect.inter_empty ⟨pleft, ptop, swidth, sheight⟩ ⟨0, 0, img.cols, img.rows⟩ hemp]
    obtain ⟨v, hv⟩ : ∃ v, img.roi ⟨0, 0, 0, 0⟩ = Except.ok v := by
      apply Mat.roi_ok
      simp only
      refine ⟨le_refl _, le_refl _, ?_, le_refl _, le_refl _, ?_⟩ <;> omega
    obtain ⟨v', hv'⟩ : ∃ v', (Mat.ofFn sheight.toNat swidth.toNat img.chans
        (fun _ _ k => colour k)).roi ⟨max 0 (-pleft), max 0 (-ptop), 0, 0⟩ = Except.ok v' := by
      apply Mat.roi_ok
      simp only [Mat.ofFn]
      refine ⟨le_max_left _ _, le_refl _, ?_, le_max_left _ _, le_refl _, ?_⟩ <;> omega
    have hvr := (Mat.pixel_roi img v _ hv 0 0 0).1
    rw [hv]
    simp only [Except.bind, bind, hv', pure, Except.pure]
    refine ⟨_, rfl, ?_⟩
    have hcopy : v.copyToRoi (Mat.ofFn sheight.toNat swidth.toNat img.chans
        (fun _ _ k => colour k)) ⟨max 0 (-pleft), max 0 (-ptop), 0, 0⟩
        = Mat.ofFn sheight.toNat swidth.toNat img.chans (fun _ _ k => colour k) := by
      unfold Mat.copyToRoi
      rw [if_pos (Or.inl (by rw [hvr]; rfl))]
    rw [hcopy]
    refine ⟨by simp [Mat.ofFn]; omega, by simp [Mat.ofFn]; omega, rfl, ?_⟩
    intro x y k hxs hys hk
    rw [Mat.pixel_ofFn _ _ _ _ y x k (by omega) hk, if_neg]
    rintro ⟨a1, a2, a3, a4⟩
    rcases hemp with h | h <;> omega
  · -- overlap: the covered part is copied
    rw [Rect.inter_nonempty ⟨pleft, ptop, swidth, sheight⟩ ⟨0, 0, img.cols, img.rows⟩ hemp]
    push_neg at hemp
    obtain ⟨hW, hH⟩ := hemp
    obtain ⟨v, hv⟩ : ∃ v, img.roi ⟨max pleft 0, max ptop 0,
        min (pleft + swidth) (0 + (img.cols : Int)) - max pleft 0,
        min (ptop + sheight) (0 + (img.rows : Int)) - max ptop 0⟩ = Except.ok v := by
      apply Mat.roi_ok
      simp only
      refine ⟨le_max_right _ _, ?_, ?_, le_max_right _ _, ?_, ?_⟩ <;> omega
    obtain ⟨v', hv'⟩ : ∃ v', (Mat.ofFn sheight.toNat swidth.toNat img.chans
        (fun _ _ k => colour k)).roi ⟨max 0 (-pleft), max 0 (-ptop),
        min (pleft + swidth) (0 + (img.cols : Int)) - max pleft 0,
        min (ptop + sheight) (0 + (img.rows : Int)) - max ptop 0⟩ = Except.ok v' := by
      apply Mat.roi_ok
      simp only [Mat.ofFn]
      refine ⟨le_max_left _ _, ?_, ?_, le_max_left _ _, ?_, ?_⟩ <;> omega
    rw [hv]
    simp only [Except.bind, bind, hv', pure, Except.pure]
    refine ⟨_, rfl, ?_⟩
    have hvprop := fun y x k => Mat.pixel_roi img v _ hv y x k
    obtain ⟨hvr, hvc, hvch, -⟩ := hvprop 0 0 0
    simp only at hvr hvc
    have hdc : (Mat.ofFn sheight.toNat swidth.toNat img.chans (fun _ _ k => colour k)).cols
        = swidth.toNat := rfl
    have hdch : (Mat.ofFn sheight.toNat swidth.toNat img.chans (fun _ _ k => colour k)).chans
        = img.chans := rfl
    have key := fun y x k hx hk => Mat.pixel_copyToRoi v
      (Mat.ofFn sheight.toNat swidth.toNat img.chans (fun _ _ k => colour k))
      ⟨max 0 (-pleft), max 0 (-ptop),
        min (pleft + swidth) (0 + (img.cols : Int)) - max pleft 0,
        min (ptop + sheight) (0 + (img.rows : Int)) - max ptop 0⟩
      (by omega) (by omega) (by simp only; omega) (by simp only; omega) (by rw [hvch, hdch])
      y x k hx hk
    obtain ⟨kr, kc, kch⟩ := Mat.copyToRoi_dims v
      (Mat.ofFn sheight.toNat swidth.toNat img.chans (fun _ _ k => colour k))
      ⟨max 0 (-pleft), max 0 (-ptop),
        min (pleft + swidth) (0 + (img.cols : Int)) - max pleft 0,
        min (ptop + sheight) (0 + (img.rows : Int)) - max ptop 0⟩
    refine ⟨by rw [kc, hdc]; omega, by rw [kr]; simp only [Mat.ofFn]; omega, by rw [kch, hdch], ?_⟩
    intro x y k hxs hys hk
    rw [key y x k (by rw [hdc]; omega) (by rw [hdch]; exact hk)]
    simp only
    by_cases hin : 0 ≤ pleft + x ∧ pleft + x < img.cols ∧ 0 ≤ ptop + y ∧ ptop + y < img.rows
    · rw [if_pos hin, if_pos (by omega), (hvprop _ _ k).2.2.2]
      simp only
      congr 1 <;> omega
    · rw [if_neg hin, if_neg (by omega)]
      exact Mat.pixel_ofFn _ _ _ _ y x k (by omega) hk

/-- Claim C4: for a rectangle of positive size that lies inside the source, the buffer handed
to the resize step has the size of the rectangle and the channels of the source, and its pixel
`(x, y)` is the source pixel `(pleft + x, ptop + y)` in every channel (given that `cv::mean`
returns whenever it is called). -/
theorem crop_inside {ρ : Type} (cv : OpenCV ρ) (img : Mat) (pleft ptop swidth sheight : Int)
    (colour : Nat → Fin 256) (hmean : cv.mean img = some colour)
    (hw : 1 ≤ swidth) (hh : 1 ≤ sheight) (hl : 0 ≤ pleft) (ht : 0 ≤ ptop)
    (hr : pleft + swidth ≤ img.cols) (hb : ptop + sheight ≤ img.rows) :
    ∃ buf, crop_buffer cv img pleft ptop swidth sheight = Except.ok buf ∧
      (buf.cols : Int) = swidth ∧ (buf.rows : Int) = sheight ∧ buf.chans = img.chans ∧
      ∀ x y k : Nat, (x : Int) < swidth → (y : Int) < sheight → k < img.chans →
        buf.pixel y x k = img.pixel (ptop.toNat + y) (pleft.toNat + x) k := by
  by_cases hfast : pleft = 0 ∧ ptop = 0 ∧ swidth = img.cols ∧ sheight = img.rows
  · refine ⟨img, ?_, hfast.2.2.1.symm, hfast.2.2.2.symm, rfl, ?_⟩
    · unfold crop_buffer
      simp only
      rw [if_pos hfast]
    · intro x y k _ _ _
      rw [hfast.1, hfast.2.1]
      simp
  · obtain ⟨buf, hbuf, hc, hrw, hch, hpx⟩ := crop_buffer_padded cv img pleft ptop swidth sheight
      colour hmean hw hh hfast (by omega) (by omega)
    refine ⟨buf, hbuf, hc, hrw, hch, ?_⟩
    intro x y k hx hy hk
    rw [hpx x y k hx hy hk, if_pos (by omega)]
    congr 1 <;> omega

/-- Witness for C4: the right column of `sampleMat`. -/
theorem crop_inside_witness :
    sampleCV.mean sampleMat = some (fun k => sampleMat.pixel 0 0 k) ∧
    ∃ buf, crop_buffer sampleCV sampleMat 1 0 1 2 = Except.ok buf ∧
      (buf.cols : Int) = 1 ∧ (buf.rows : Int) = 2 ∧ buf.chans = sampleMat.chans ∧
      ∀ x y k : Nat, (x : Int) < 1 → (y : Int) < 2 → k < sampleMat.chans →
        buf.pixel y x k = sampleMat.pixel ((0 : Int).toNat + y) ((1 : Int).toNat + x) k :=
  ⟨rfl, crop_inside sampleCV sampleMat 1 0 1 2 (fun k => sampleMat.pixel 0 0 k) rfl
    (by decide) (by decide) (by decide) (by decide) (by decide) (by decide)⟩

/-- Claim C6: for a rectangle that overlaps the source without lying inside it, the destination
rectangle (origin `(max 0 (-pleft), max 0 (-ptop))`, size of the intersection) lies inside the
`swidth` x `sheight` padded buffer, the crop returns that buffer, and its pixel `(x, y)` is the
source pixel `(pleft + x, ptop + y)` where that coordinate is inside the source and the mean
colour elsewhere (given that `cv::mean` returns). -/
theorem crop_overlap {ρ : Type} (cv : OpenCV ρ) (img : Mat) (pleft ptop swidth sheight : Int)
    (colour : Nat → Fin 256) (hmean : cv.mean img = some colour)
    (hix : max pleft 0 < min (pleft + swidth) img.cols)
    (hiy : max ptop 0 < min (ptop + sheight) img.rows)
    (hsmall : ¬ (0 ≤ pleft ∧ 0 ≤ ptop ∧ pleft + swidth ≤ img.cols ∧ ptop + sheight ≤ img.rows)) :
    (0 ≤ max 0 (-pleft) ∧
      max 0 (-pleft) + (min (pleft + swidth) img.cols - max pleft 0) ≤ swidth ∧
      0 ≤ max 0 (-ptop) ∧
      max 0 (-ptop) + (min (ptop + sheight) img.rows - max ptop 0) ≤ sheight) ∧
    ∃ buf, crop_buffer cv img pleft ptop swidth sheight = Except.ok buf ∧
      (buf.cols : Int) = swidth ∧ (buf.rows : Int) = sheight ∧ buf.chans = img.chans ∧
      ∀ x y k : Nat, (x : Int) < swidth → (y : Int) < sheight → k < img.chans →
        buf.pixel y x k =
          if 0 ≤ pleft + x ∧ pleft + x < img.cols ∧ 0 ≤ ptop + y ∧ ptop + y < img.rows then
            img.pixel (ptop + y).toNat (pleft + x).toNat k
          else colour k := by
  refine ⟨by omega, ?_⟩
  exact crop_buffer_padded cv img pleft ptop swidth sheight colour hmean (by omega) (by omega)
    (by omega) (by omega) (by omega)

/-- Witness for C6: a rectangle that starts one column left of `sampleMat`. -/
theorem crop_overlap_witness :
    sampleCV.mean sampleMat = some (fun k => sampleMat.pixel 0 0 k) ∧
    ∃ buf, crop_buffer sampleCV sampleMat (-1) 0 2 2 = Except.ok buf ∧
      (buf.cols : Int) = 2 ∧ (buf.rows : Int) = 2 ∧ buf.chans = sampleMat.chans ∧
      ∀ x y k : Nat, (x : Int) < 2 → (y : Int) < 2 → k < sampleMat.chans →
        buf.pixel y x k =
          if 0 ≤ (-1 : Int) + x ∧ (-1 : Int) + x < sampleMat.cols ∧
              0 ≤ (0 : Int) + y ∧ (0 : Int) + y < sampleMat.rows then
            sampleMat.pixel ((0 : Int) + y).toNat ((-1 : Int) + x).toNat k
          else sampleMat.pixel 0 0 k :=
  ⟨rfl, (crop_overlap sampleCV sampleMat (-1) 0 2 2 (fun k => sampleMat.pixel 0 0 k) rfl
    (by decide) (by decide) (by decide)).2⟩

/-- A rectangle that ends before the source's left edge or above its top edge: the region of
interest `cropped(dst_rect)` starts outside `cropped`, OpenCV throws, the call ends in
`darknet_fatal_error`. -/
theorem crop_buffer_fatal {ρ : Type} (cv : OpenCV ρ) (img : Mat) (pleft ptop swidth sheight : Int)
    (hw : 1 ≤ swidth) (hh : 1 ≤ sheight) (hout : pleft + swidth < 0 ∨ ptop + sheight < 0) :
    crop_buffer cv img pleft ptop swidth sheight = Except.error Failure.fatal := by
  have hslow : ¬ (pleft = 0 ∧ ptop = 0 ∧ swidth = img.cols ∧ sheight = img.rows) := by omega
  cases hmean : cv.mean img with
  | none =>
    unfold crop_buffer
    simp only [if_neg hslow, Mat.create, if_pos (And.intro (by omega : 0 ≤ swidth)
      (by omega : 0 ≤ sheight)), hmean, orFatal]
    rfl
  | some colour =>
    rw [crop_buffer_slow cv img pleft ptop swidth sheight colour hmean (by omega) (by omega) hslow]
    have hemp : min (pleft + swidth) (0 + (img.cols : Int)) - max pleft 0 ≤ 0 ∨
        min (ptop + sheight) (0 + (img.rows : Int)) - max ptop 0 ≤ 0 := by omega
    rw [Rect.inter_empty ⟨pleft, ptop, swidth, sheight⟩ ⟨0, 0, img.cols, img.rows⟩ hemp]
    obtain ⟨v, hv⟩ : ∃ v, img.roi ⟨0, 0, 0, 0⟩ = Except.ok v := by
      apply Mat.roi_ok
      simp only
      refine ⟨le_refl _, le_refl _, ?_, le_refl _, le_refl _, ?_⟩ <;> omega
    have hbad : (Mat.ofFn sheight.toNat swidth.toNat img.chans
        (fun _ _ k => colour k)).roi ⟨max 0 (-pleft), max 0 (-ptop), 0, 0⟩
          = Except.error Failure.fatal := by
      apply Mat.roi_fatal
      simp only [Mat.ofFn]
      omega
    rw [hv]
    simp only [Except.bind, bind, hbad]

/-- Claim C5, the code at a failing input: for every source, the rectangle
`(pleft, ptop, swidth, sheight) = (-10, 0, 5, 4)`, which lies entirely to the left of the
source, does not give a mean-filled buffer; the crop ends in `darknet_fatal_error`. -/
theorem crop_left_of_source_fatal {ρ : Type} (cv : OpenCV ρ) (img : Mat) :
    crop_buffer cv img (-10) 0 5 4 = Except.error Failure.fatal :=
  crop_buffer_fatal cv img (-10) 0 5 4 (by norm_num) (by norm_num) (Or.inl (by norm_num))

/-! ## The flip -/

theorem Mat.pixel_flipH (m : Mat) (y x k : Nat) (hx : x < m.cols) (hk : k < m.chans) :
    m.flipH.pixel y x k = m.pixel y (m.cols - 1 - x) k :=
  Mat.pixel_ofFn _ _ _ _ y x k hx hk

/-- Claim C7: the flip done for `flip != 0` keeps the size, moves pixel `(x, y)` to
`(cols - 1 - x, y)` with the channel unchanged, and applied twice gives back every pixel. -/
theorem flip_involution (B : Mat) (flip : Int) (hflip : flip ≠ 0) :
    (flip_step B flip).rows = B.rows ∧ (flip_step B flip).cols = B.cols ∧
    (flip_step B flip).chans = B.chans ∧
    (∀ x y k, x < B.cols → k < B.chans →
      (flip_step B flip).pixel y (B.cols - 1 - x) k = B.pixel y x k) ∧
    (flip_step (flip_step B flip) flip).rows = B.rows ∧
    (flip_step (flip_step B flip) flip).cols = B.cols ∧
    (flip_step (flip_step B flip) flip).chans = B.chans ∧
    (∀ x y k, x < B.cols → k < B.chans →
      (flip_step (flip_step B flip) flip).pixel y x k = B.pixel y x k) := by
  have e : ∀ m : Mat, flip_step m flip = m.flipH := by
    intro m; unfold flip_step; rw [if_pos hflip]
  rw [e, e]
  refine ⟨rfl, rfl, rfl, ?_, rfl, rfl, rfl, ?_⟩
  · intro x y k hx hk
    rw [Mat.pixel_flipH B y _ k (by omega) hk]
    congr 1; omega
  · intro x y k hx hk
    rw [Mat.pixel_flipH B.flipH y x k hx hk]
    show B.flipH.pixel y (B.cols - 1 - x) k = _
    rw [Mat.pixel_flipH B y _ k (by omega) hk]
    congr 1; omega

/-- Witness for C7 on `sampleMat` with `flip = 1`. -/
theorem flip_involution_witness :
    (1 : Int) ≠ 0 ∧
    (flip_step sampleMat 1).pixel 1 (sampleMat.cols - 1 - 0) 2 = sampleMat.pixel 1 0 2 ∧
    (flip_step (flip_step sampleMat 1) 1).pixel 1 0 2 = sampleMat.pixel 1 0 2 :=
  ⟨by decide, (flip_involution sampleMat 1 (by decide)).2.2.2.1 0 1 2 (by decide) (by decide),
    (flip_involution sampleMat 1 (by decide)).2.2.2.2.2.2.2 0 1 2 (by decide) (by decide)⟩

/-! ## The hue, saturation and exposure step -/

theorem clampByte_natCast (n : Nat) : (clampByte (n : Int)).val = min n 255 := by
  unfold clampByte
  split_ifs with h1 h2
  · omega
  · show (255 : Nat) = _
    omega
  · simp only [Int.toNat_ofNat]
    omega

theorem ofRat_exact (F : FloatFormat) (m k : Int) (hm : |(m : ℚ)| < (2 : ℚ) ^ F.prec)
    (hk : F.emin ≤ k) (hmax : |(m : ℚ) * (2 : ℚ) ^ k| < (2 : ℚ) ^ F.emax) :
    Flt.ofRat F ((m : ℚ) * (2 : ℚ) ^ k) = Flt.fin ((m : ℚ) * (2 : ℚ) ^ k) := by
  unfold Flt.ofRat
  simp only [rnd_exact F m k hm hk]
  rw [if_pos hmax]

/-- A natural number up to `2^24` is a binary32 value. -/
theorem ofRat32_natCast (n : Nat) (hn : n ≤ 2 ^ 24) :
    Flt.ofRat binary32 (n : ℚ) = Flt.fin (n : ℚ) := by
  rcases Nat.lt_or_ge n (2 ^ 24) with h | h
  · have := ofRat_exact binary32 (n : Int) 0 (by
        rw [abs_of_nonneg (by positivity)]
        have : ((n : Int) : ℚ) < 2 ^ 24 := by exact_mod_cast h
        simpa [binary32] using this) (by norm_num [binary32]) (by
        rw [abs_of_nonneg (by positivity)]
        have : ((n : Int) : ℚ) < 2 ^ 24 := by exact_mod_cast h
        norm_num [binary32] at this ⊢
        linarith)
    simpa using this
  · have hn' : n = 2 ^ 24 := le_antisymm hn h
    subst hn'
    have := ofRat_exact binary32 1 24 (by norm_num [binary32]) (by norm_num [binary32])
      (by norm_num [binary32])
    norm_num at this ⊢
    exact this

/-- A natural number up to `2^24` is a binary64 value. -/
theorem ofRat64_natCast (n : Nat) (hn : n ≤ 2 ^ 24) :
    Flt.ofRat binary64 (n : ℚ) = Flt.fin (n : ℚ) := by
  have h : ((n : Int) : ℚ) ≤ 2 ^ 24 := by exact_mod_cast hn
  have := ofRat_exact binary64 (n : Int) 0 (by
      rw [abs_of_nonneg (by positivity)]
      norm_num [binary64] at h ⊢
      linarith) (by norm_num [binary64]) (by
      rw [abs_of_nonneg (by positivity)]
      norm_num [binary64] at h ⊢
      linarith)
  simpa using this

theorem ofRat_zero (F : FloatFormat) : Flt.ofRat F 0 = Flt.fin 0 := by
  have h : (0 : ℚ) < (2 : ℚ) ^ F.emax := zpow_pos (by norm_num) _
  simp [Flt.ofRat, FloatFormat.rnd, h]

theorem ofRat64_half : Flt.ofRat binary64 (1 / 2) = Flt.fin (1 / 2) := by
  have := ofRat_exact binary64 1 (-1) (by norm_num [binary64]) (by norm_num [binary64])
    (by rw [abs_of_nonneg (by norm_num)]; norm_num [binary64])
  norm_num at this ⊢
  exact this

theorem Mat.pixel_channel (m : Mat) (k : Nat) (y x : Nat) (hx : x < m.cols) :
    (m.channel k).pixel y x 0 = m.pixel y x k :=
  Mat.pixel_ofFn _ _ _ _ y x 0 hx (by norm_num)

theorem Mat.pixel_merge3 (a b c : Mat) (y x k : Nat) (hx : x < a.cols) (hk : k < 3) :
    (Mat.merge3 a b c).pixel y x k =
      if k = 0 then a.pixel y x 0 else if k = 1 then b.pixel y x 0 else c.pixel y x 0 :=
  Mat.pixel_ofFn _ _ _ _ y x k hx hk

theorem roundHalfEven_natCast (n : Nat) : roundHalfEven (n : ℚ) = n := by
  have := roundHalfEven_intCast (n : Int)
  simpa using this

/-- The update of the HSV planes for `dhue = dsat = dexp = 1`: saturation and value are kept,
every hue byte `h` becomes `min (h + 179) 255`. -/
theorem hsv_update_one (hsv_src : Mat) :
    ∃ r, hsv_update hsv_src (Flt.fin 1) (Flt.fin 1) (Flt.fin 1) = Except.ok r ∧
      r.rows = hsv_src.rows ∧ r.cols = hsv_src.cols ∧ r.chans = 3 ∧
      ∀ y x, x < hsv_src.cols →
        (r.pixel y x 0).val = min ((hsv_src.pixel y x 0).val + 179) 255 ∧
        r.pixel y x 1 = hsv_src.pixel y x 1 ∧ r.pixel y x 2 = hsv_src.pixel y x 2 := by
  have h179 : Flt.mul binary32 (Flt.ofInt binary32 179) (Flt.fin 1) = Flt.fin 179 := by
    have e1 : Flt.ofInt binary32 179 = Flt.fin 179 := by
      have := ofRat32_natCast 179 (by norm_num)
      simpa [Flt.ofInt] using this
    rw [e1]
    have := ofRat32_natCast 179 (by norm_num)
    simp only [Flt.mul, mul_one]
    exact_mod_cast this
  unfold hsv_update
  rw [h179]
  simp only [Mat.scale, Mat.addScalar, bind, Except.bind, pure, Except.pure]
  refine ⟨_, rfl, rfl, rfl, rfl, ?_⟩
  intro y x hx
  refine ⟨?_, ?_, ?_⟩
  · rw [Mat.pixel_merge3 _ _ _ y x 0 (by exact hx) (by norm_num)]
    simp only [if_true]
    rw [Mat.pixel_ofFn _ _ _ _ y x 0 (by exact hx) (by exact Nat.one_pos), Mat.pixel_channel _ _ _ _ hx]
    have e : (((hsv_src.pixel y x 0).val : ℚ) + 179) = (((hsv_src.pixel y x 0).val + 179 : Nat) : ℚ) := by
      push_cast; ring
    rw [e, roundHalfEven_natCast, clampByte_natCast]
  · rw [Mat.pixel_merge3 _ _ _ y x 1 (by exact hx) (by norm_num)]
    simp only [if_true, if_false, one_ne_zero]
    rw [Mat.pixel_ofFn _ _ _ _ y x 0 (by exact hx) (by exact Nat.one_pos), Mat.pixel_channel _ _ _ _ hx]
    apply Fin.ext
    rw [mul_one, roundHalfEven_natCast, clampByte_natCast]
    have := (hsv_src.pixel y x 1).isLt
    omega
  · rw [Mat.pixel_merge3 _ _ _ y x 2 (by exact hx) (by norm_num)]
    simp only [if_true, if_false, OfNat.ofNat_ne_zero, OfNat.ofNat_ne_one]
    rw [Mat.pixel_ofFn _ _ _ _ y x 0 (by exact hx) (by exact Nat.one_pos), Mat.pixel_channel _ _ _ _ hx]
    apply Fin.ext
    rw [mul_one, roundHalfEven_natCast, clampByte_natCast]
    have := (hsv_src.pixel y x 2).isLt
    omega

theorem hsv_step_one {ρ : Type} (cv : OpenCV ρ) (img sized : Mat) (h3 : 3 ≤ img.chans)
    (hsv_px : Nat → Nat → Nat → Fin 256) (hconv : cv.rgb2hsv sized = some hsv_px) (u : Mat)
    (hu : hsv_update (Mat.ofFn sized.rows sized.cols 3 hsv_px) (Flt.fin 1) (Flt.fin 1) (Flt.fin 1)
      = Except.ok u) :
    hsv_step cv img sized (Flt.fin 1) (Flt.fin 1) (Flt.fin 1) =
      (orFatal (cv.hsv2rgb u)).map (fun rgb_px => Mat.ofFn u.rows u.cols 3 rgb_px) := by
  unfold hsv_step
  have hne : Flt.fin 1 ≠ Flt.fin 0 := by
    intro h; injection h with h; norm_num at h
  rw [if_pos (Or.inr (Or.inr hne)), if_pos h3, hconv]
  simp only [orFatal, bind, Except.bind, hu]
  cases cv.hsv2rgb u <;> rfl

/-- Claim C8, amended: on a source of at least 3 channels with `dhue = dsat = dexp = 1` the
step is not skipped; the HSV planes are updated and converted back; the update keeps the
saturation and value bytes and maps every hue byte `h` to `min (h + 179) 255`, a saturating
addition, not a shift modulo the hue period. -/
theorem hue_shift_saturates {ρ : Type} (cv : OpenCV ρ) (img sized : Mat) (h3 : 3 ≤ img.chans)
    (hsv_px : Nat → Nat → Nat → Fin 256) (hconv : cv.rgb2hsv sized = some hsv_px) :
    ∃ u, hsv_update (Mat.ofFn sized.rows sized.cols 3 hsv_px) (Flt.fin 1) (Flt.fin 1) (Flt.fin 1)
        = Except.ok u ∧
      hsv_step cv img sized (Flt.fin 1) (Flt.fin 1) (Flt.fin 1) =
        (orFatal (cv.hsv2rgb u)).map (fun rgb_px => Mat.ofFn u.rows u.cols 3 rgb_px) ∧
      u.rows = sized.rows ∧ u.cols = sized.cols ∧ u.chans = 3 ∧
      ∀ y x, x < sized.cols →
        (u.pixel y x 0).val = min ((hsv_px y x 0).val + 179) 255 ∧
        u.pixel y x 1 = hsv_px y x 1 ∧ u.pixel y x 2 = hsv_px y x 2 := by
  obtain ⟨u, hu, hr, hc, hch, hpx⟩ := hsv_update_one (Mat.ofFn sized.rows sized.cols 3 hsv_px)
  refine ⟨u, hu, hsv_step_one cv img sized h3 hsv_px hconv u hu, hr, hc, hch, ?_⟩
  intro y x hx
  have := hpx y x hx
  rw [Mat.pixel_ofFn _ _ _ _ y x 0 hx (by norm_num), Mat.pixel_ofFn _ _ _ _ y x 1 hx (by norm_num),
    Mat.pixel_ofFn _ _ _ _ y x 2 hx (by norm_num)] at this
  exact this

/-- Witness for C8 on `sampleMat` with the stand-in colour conversion. -/
theorem hue_shift_saturates_witness :
    3 ≤ sampleMat.chans ∧
    sampleCV.rgb2hsv sampleMat = some (fun y x k => sampleMat.pixel y x k) ∧
    ∃ u, hsv_update (Mat.ofFn sampleMat.rows sampleMat.cols 3 (fun y x k => sampleMat.pixel y x k))
        (Flt.fin 1) (Flt.fin 1) (Flt.fin 1) = Except.ok u ∧
      hsv_step sampleCV sampleMat sampleMat (Flt.fin 1) (Flt.fin 1) (Flt.fin 1) =
        (orFatal (sampleCV.hsv2rgb u)).map (fun rgb_px => Mat.ofFn u.rows u.cols 3 rgb_px) ∧
      u.rows = sampleMat.rows ∧ u.cols = sampleMat.cols ∧ u.chans = 3 ∧
      ∀ y x, x < sampleMat.cols →
        (u.pixel y x 0).val = min ((sampleMat.pixel y x 0).val + 179) 255 ∧
        u.pixel y x 1 = sampleMat.pixel y x 1 ∧ u.pixel y x 2 = sampleMat.pixel y x 2 :=
  ⟨by decide, rfl, hue_shift_saturates sampleCV sampleMat sampleMat (by decide)
    (fun y x k => sampleMat.pixel y x k) rfl⟩

/-- Counterexample to C8 as stated: with `dhue = dsat = dexp = 1` the valid hue bytes 100 and
101 both become 255, which is congruent to 100 neither modulo 180 nor modulo 179. -/
theorem hue_wrap_counterexample :
    ∃ u, hsv_update (Mat.ofFn 1 2 3 (fun _ x k => if k = 0 then (if x = 0 then 100 else 101) else 0))
        (Flt.fin 1) (Flt.fin 1) (Flt.fin 1) = Except.ok u ∧
      (u.pixel 0 0 0).val = 255 ∧ (u.pixel 0 1 0).val = 255 ∧
      ¬ (255 ≡ 100 [MOD 180]) ∧ ¬ (255 ≡ 100 [MOD 179]) := by
  obtain ⟨u, hu, -, -, -, hpx⟩ := hsv_update_one
    (Mat.ofFn 1 2 3 (fun _ x k => if k = 0 then (if x = 0 then 100 else 101) else 0))
  refine ⟨u, hu, ?_, ?_, by decide, by decide⟩
  · rw [(hpx 0 0 (by decide)).1]; decide
  · rw [(hpx 0 1 (by decide)).1]; decide

/-! ## The blur step -/

theorem truncate_natCast (n : Nat) : truncate (n : ℚ) = n := by
  have := truncate_intCast (n : Int)
  simpa using this

/-- The pixel rectangle of the full-frame box `(0.5, 0.5, 1, 1)`, given the binary32 and
binary64 values of the buffer's width and height: left and top are 0, width and height are the
binary32 values, truncated. -/
theorem box_roi_eval (sized : Mat) (wf hf cq rq : ℚ)
    (hw32 : Flt.ofInt binary32 sized.cols = Flt.fin wf)
    (hh32 : Flt.ofInt binary32 sized.rows = Flt.fin hf)
    (hw64 : Flt.ofInt binary64 sized.cols = Flt.fin cq)
    (hh64 : Flt.ofInt binary64 sized.rows = Flt.fin rq)
    (hwf : Flt.ofRat binary32 wf = Flt.fin wf) (hhf : Flt.ofRat binary32 hf = Flt.fin hf) :
    box_roi sized ⟨Flt.fin (1 / 2), Flt.fin (1 / 2), Flt.fin 1, Flt.fin 1⟩
      = Except.ok ((⟨0, 0, truncate wf, truncate hf⟩ : Rect).inter
          ⟨0, 0, sized.cols, sized.rows⟩) := by
  have c1 : Flt.cast binary64 (Flt.fin 1) = Flt.fin 1 := by
    have := ofRat64_natCast 1 (by norm_num)
    simpa [Flt.cast] using this
  have c2 : Flt.cast binary64 (Flt.fin (1 / 2)) = Flt.fin (1 / 2) := by
    simp only [Flt.cast]; exact ofRat64_half
  have d1 : Flt.div binary64 (Flt.fin 1) (Flt.fin 2) = Flt.fin (1 / 2) := by
    simp only [Flt.div]
    rw [if_neg (by norm_num)]
    exact ofRat64_half
  have s1 : Flt.sub binary64 (Flt.fin (1 / 2)) (Flt.fin (1 / 2)) = Flt.fin 0 := by
    simp only [Flt.sub, sub_self]
    exact ofRat_zero _
  have m0 : ∀ q : ℚ, Flt.mul binary64 (Flt.fin 0) (Flt.fin q) = Flt.fin 0 := by
    intro n
    simp only [Flt.mul, zero_mul]
    exact ofRat_zero _
  have m1 : ∀ q : ℚ, Flt.ofRat binary32 q = Flt.fin q →
      Flt.mul binary32 (Flt.fin 1) (Flt.fin q) = Flt.fin q := by
    intro q hq
    simp only [Flt.mul, one_mul]
    exact hq
  have t0 : (Flt.fin 0).toIntE = Except.ok 0 := by
    simp [Flt.toIntE, Flt.toInt, truncate]
  have tq : ∀ q : ℚ, (Flt.fin q).toIntE = Except.ok (truncate q) := fun q => rfl
  unfold box_roi
  simp only [c1, c2, d1, s1, hw32, hh32, hw64, hh64, m0, m1 _ hwf, m1 _ hhf, t0, tq,
    bind, Except.bind, pure, Except.pure]

/-- The pixel rectangle of the full-frame box in a buffer of at most `2^24` columns and rows is
the whole buffer. -/
theorem box_roi_full (sized : Mat) (hc : sized.cols ≤ 2 ^ 24) (hr : sized.rows ≤ 2 ^ 24) :
    box_roi sized ⟨Flt.fin (1 / 2), Flt.fin (1 / 2), Flt.fin 1, Flt.fin 1⟩
      = Except.ok ((⟨0, 0, sized.cols, sized.rows⟩ : Rect).inter ⟨0, 0, sized.cols, sized.rows⟩) := by
  have i64 : ∀ n : Nat, n ≤ 2 ^ 24 → Flt.ofInt binary64 (n : Int) = Flt.fin (n : ℚ) := by
    intro n hn
    have := ofRat64_natCast n hn
    simpa [Flt.ofInt] using this
  have i32 : ∀ n : Nat, n ≤ 2 ^ 24 → Flt.ofInt binary32 (n : Int) = Flt.fin (n : ℚ) := by
    intro n hn
    have := ofRat32_natCast n hn
    simpa [Flt.ofInt] using this
  rw [box_roi_eval sized sized.cols sized.rows sized.cols sized.rows (i32 _ hc) (i32 _ hr)
    (i64 _ hc) (i64 _ hr) (ofRat32_natCast _ hc) (ofRat32_natCast _ hr),
    truncate_natCast, truncate_natCast]

theorem Rect.inter_self_img (cols rows : Nat) (hc : 0 < cols) (hr : 0 < rows) :
    (⟨0, 0, cols, rows⟩ : Rect).inter ⟨0, 0, cols, rows⟩ = ⟨0, 0, cols, rows⟩ := by
  rw [Rect.inter_nonempty ⟨0, 0, cols, rows⟩ ⟨0, 0, cols, rows⟩ (by simp only; omega)]
  simp

theorem Rect.inter_self_img_empty (cols rows : Nat) (h : cols = 0 ∨ rows = 0) :
    (⟨0, 0, cols, rows⟩ : Rect).inter ⟨0, 0, cols, rows⟩ = ⟨0, 0, 0, 0⟩ := by
  rw [Rect.inter_empty ⟨0, 0, cols, rows⟩ ⟨0, 0, cols, rows⟩ (by simp only; omega)]

/-- Reverting the blur inside one full-frame box gives every pixel of `sized` back. -/
theorem revert_full_box (sized dst : Mat) (truth_size : Nat) (truth : Nat → Flt)
    (h0 : truth 0 = Flt.fin (1 / 2)) (h1 : truth 1 = Flt.fin (1 / 2))
    (h2 : truth 2 = Flt.fin 1) (h3 : truth 3 = Flt.fin 1)
    (hc : sized.cols ≤ 2 ^ 24) (hr : sized.rows ≤ 2 ^ 24)
    (dr : dst.rows = sized.rows) (dc : dst.cols = sized.cols) (dch : dst.chans = sized.chans) :
    ∃ r, revert_boxes sized truth_size truth 0 1 dst = Except.ok r ∧
      r.rows = sized.rows ∧ r.cols = sized.cols ∧ r.chans = sized.chans ∧
      ∀ y x k, y < sized.rows → x < sized.cols → k < sized.chans →
        r.pixel y x k = sized.pixel y x k := by
  have hb : float_to_box_stride (fun i => truth (0 * truth_size + i)) 1
      = ⟨Flt.fin (1 / 2), Flt.fin (1 / 2), Flt.fin 1, Flt.fin 1⟩ := by
    simp [float_to_box_stride, h0, h1, h2, h3]
  have hz : (Flt.fin (1 / 2)).isZero = false := by
    simp [Flt.isZero]
  unfold revert_boxes
  simp only [hb, hz, box_roi_full sized hc hr, bind, Except.bind]
  by_cases hemp : sized.cols = 0 ∨ sized.rows = 0
  · rw [Rect.inter_self_img_empty _ _ hemp]
    obtain ⟨v, hv⟩ : ∃ v, sized.roi ⟨0, 0, 0, 0⟩ = Except.ok v := by
      apply Mat.roi_ok
      simp only
      refine ⟨le_refl _, le_refl _, ?_, le_refl _, le_refl _, ?_⟩ <;> omega
    obtain ⟨v', hv'⟩ : ∃ v', dst.roi ⟨0, 0, 0, 0⟩ = Except.ok v' := by
      apply Mat.roi_ok
      simp only
      refine ⟨le_refl _, le_refl _, ?_, le_refl _, le_refl _, ?_⟩ <;> omega
    simp only [hv, hv', revert_boxes]
    obtain ⟨kr, kc, kch⟩ := Mat.copyToRoi_dims v dst ⟨0, 0, 0, 0⟩
    refine ⟨_, rfl, by rw [kr, dr], by rw [kc, dc], by rw [kch, dch], ?_⟩
    intro y x k hy hx _
    omega
  · have hcp : 0 < sized.cols := by omega
    have hrp : 0 < sized.rows := by omega
    rw [Rect.inter_self_img _ _ hcp hrp]
    obtain ⟨v, hv⟩ : ∃ v, sized.roi ⟨0, 0, sized.cols, sized.rows⟩ = Except.ok v := by
      apply Mat.roi_ok
      simp only
      refine ⟨le_refl _, ?_, ?_, le_refl _, ?_, ?_⟩ <;> omega
    obtain ⟨v', hv'⟩ : ∃ v', dst.roi ⟨0, 0, sized.cols, sized.rows⟩ = Except.ok v' := by
      apply Mat.roi_ok
      simp only
      refine ⟨le_refl _, ?_, ?_, le_refl _, ?_, ?_⟩ <;> omega
    simp only [hv, hv', revert_boxes]
    obtain ⟨kr, kc, kch⟩ := Mat.copyToRoi_dims v dst ⟨0, 0, sized.cols, sized.rows⟩
    refine ⟨_, rfl, by rw [kr, dr], by rw [kc, dc], by rw [kch, dch], ?_⟩
    intro y x k hy hx hk
    have hvp := Mat.pixel_roi sized v _ hv y x k
    obtain ⟨hvr, hvc, hvch, hvpx⟩ := hvp
    simp only [Int.toNat_ofNat] at hvr hvc
    rw [Mat.pixel_copyToRoi v dst ⟨0, 0, sized.cols, sized.rows⟩ (by omega) (by omega)
      (by simp only; omega) (by simp only; omega) (by rw [hvch, dch]) y x k (by omega) (by omega)]
    simp only
    rw [if_pos (by omega)]
    simp only [Int.toNat_zero, Nat.sub_zero]
    rw [hvpx]
    simp

/-- The integer `2^24 + 1` is not a binary32 value; it is rounded to `2^24`. -/
theorem rnd32_wide : binary32.rnd 16777217 = 16777216 := by
  have hlog : Int.log 2 (16777217 : ℚ) = 24 := by
    rw [Int.log_ofNat]
    have : Nat.log 2 16777217 = 24 :=
      Nat.log_eq_of_pow_le_of_lt_pow (by norm_num) (by norm_num)
    exact_mod_cast this
  have hulp : binary32.ulpExp 16777217 = 1 := by
    unfold FloatFormat.ulpExp
    rw [abs_of_nonneg (by norm_num), hlog]
    norm_num [binary32]
  have hfloor : ⌊(16777217 : ℚ) / 2⌋ = 8388608 := by
    rw [Int.floor_eq_iff]; norm_num
  have hround : roundHalfEven ((16777217 : ℚ) / 2) = 8388608 := by
    unfold roundHalfEven
    simp only [hfloor]
    norm_num
  unfold FloatFormat.rnd
  rw [if_neg (by norm_num), hulp]
  norm_num [hround]

theorem ofInt32_wide : Flt.ofInt binary32 16777217 = Flt.fin 16777216 := by
  unfold Flt.ofInt Flt.ofRat
  have : ((16777217 : Int) : ℚ) = 16777217 := by norm_num
  simp only [this, rnd32_wide]
  rw [if_pos (by norm_num [binary32])]

theorem ofInt64_wide : Flt.ofInt binary64 16777217 = Flt.fin 16777217 := by
  have := ofRat_exact binary64 16777217 0 (by norm_num [binary64]) (by norm_num [binary64])
    (by norm_num [binary64])
  unfold Flt.ofInt
  norm_num at this ⊢
  exact this


theorem box_roi_wide :
    box_roi wideMat ⟨Flt.fin (1 / 2), Flt.fin (1 / 2), Flt.fin 1, Flt.fin 1⟩
      = Except.ok ⟨0, 0, 16777216, 1⟩ := by
  have h1 : Flt.ofRat binary32 1 = Flt.fin 1 := by
    have := ofRat32_natCast 1 (by norm_num)
    norm_num at this
    exact this
  have h2 : Flt.ofRat binary64 1 = Flt.fin 1 := by
    have := ofRat64_natCast 1 (by norm_num)
    norm_num at this
    exact this
  have h3 : Flt.ofRat binary32 16777216 = Flt.fin 16777216 := by
    have := ofRat32_natCast 16777216 (by norm_num)
    exact_mod_cast this
  have t1 : truncate 1 = 1 := by
    have := truncate_natCast 1
    norm_num at this
    exact this
  have t2 : truncate 16777216 = 16777216 := by
    have := truncate_natCast 16777216
    norm_num at this
    exact this
  have hcols : ((wideMat.cols : Nat) : Int) = 16777217 := by
    have : wideMat.cols = 16777217 := rfl
    rw [this]; norm_num
  have hrows : ((wideMat.rows : Nat) : Int) = 1 := by
    have : wideMat.rows = 1 := rfl
    rw [this]; norm_num
  rw [box_roi_eval wideMat 16777216 1 16777217 1 (by rw [hcols]; exact ofInt32_wide)
    (by rw [hrows]; simpa [Flt.ofInt] using h1) (by rw [hcols]; exact ofInt64_wide)
    (by rw [hrows]; simpa [Flt.ofInt] using h2) h3 h1, t1, t2, hcols, hrows,
    Rect.inter_nonempty ⟨0, 0, 16777216, 1⟩ ⟨0, 0, 16777217, 1⟩ (by norm_num)]
  norm_num

theorem blur_step_one {ρ : Type} (cv : OpenCV ρ) (sized : Mat) (num_boxes : Int)
    (truth_size : Nat) (truth : Nat → Flt) (px : Nat → Nat → Nat → Fin 256)
    (hblur : cv.gaussianBlur sized 17 = some px) :
    blur_step cv sized 1 num_boxes truth_size truth =
      revert_boxes sized truth_size truth 0 num_boxes.toNat
        (Mat.ofFn sized.rows sized.cols sized.chans px) := by
  unfold blur_step
  have hk : blur_ksize 1 = 17 := by simp [blur_ksize]
  rw [if_pos (by norm_num), hk, hblur]
  simp only [orFatal, bind, Except.bind]
  rw [if_pos trivial]

/-- Claim C9, amended: with `blur == 1`, one box `(0.5, 0.5, 1, 1)` and a buffer of at most
`2^24` columns and `2^24` rows, the buffer after the blur step has the size of the buffer before
it and the same pixels, whatever `cv::GaussianBlur` returned. -/
theorem blur_box_preservation {ρ : Type} (cv : OpenCV ρ) (sized : Mat) (truth_size : Nat)
    (truth : Nat → Flt) (px : Nat → Nat → Nat → Fin 256)
    (hblur : cv.gaussianBlur sized 17 = some px)
    (h0 : truth 0 = Flt.fin (1 / 2)) (h1 : truth 1 = Flt.fin (1 / 2))
    (h2 : truth 2 = Flt.fin 1) (h3 : truth 3 = Flt.fin 1)
    (hc : sized.cols ≤ 2 ^ 24) (hr : sized.rows ≤ 2 ^ 24) :
    ∃ r, blur_step cv sized 1 1 truth_size truth = Except.ok r ∧
      r.rows = sized.rows ∧ r.cols = sized.cols ∧ r.chans = sized.chans ∧
      ∀ y x k, y < sized.rows → x < sized.cols → k < sized.chans →
        r.pixel y x k = sized.pixel y x k := by
  rw [blur_step_one cv sized 1 truth_size truth px hblur]
  exact revert_full_box sized _ truth_size truth h0 h1 h2 h3 hc hr rfl rfl rfl

/-- Witness for C9 on `sampleMat` with the stand-in blur. -/
theorem blur_box_preservation_witness :
    sampleCV.gaussianBlur sampleMat 17 = some (fun _ _ _ => 0) ∧
    fullFrameTruth 0 = Flt.fin (1 / 2) ∧ fullFrameTruth 1 = Flt.fin (1 / 2) ∧
    fullFrameTruth 2 = Flt.fin 1 ∧ fullFrameTruth 3 = Flt.fin 1 ∧
    sampleMat.cols ≤ 2 ^ 24 ∧ sampleMat.rows ≤ 2 ^ 24 ∧
    ∃ r, blur_step sampleCV sampleMat 1 1 4 fullFrameTruth = Except.ok r ∧
      r.rows = sampleMat.rows ∧ r.cols = sampleMat.cols ∧ r.chans = sampleMat.chans ∧
      ∀ y x k, y < sampleMat.rows → x < sampleMat.cols → k < sampleMat.chans →
        r.pixel y x k = sampleMat.pixel y x k :=
  ⟨rfl, rfl, rfl, rfl, rfl, by decide, by decide,
    blur_box_preservation sampleCV sampleMat 4 fullFrameTruth (fun _ _ _ => 0) rfl rfl rfl rfl rfl
      (by decide) (by decide)⟩

/-- One pass of the box loop that is not ended by a zero `x`. -/
theorem revert_boxes_one (sized dst : Mat) (truth_size : Nat) (truth : Nat → Flt)
    (hx : (truth (0 * truth_size + 0)).isZero = false) :
    revert_boxes sized truth_size truth 0 1 dst =
      (box_roi sized (float_to_box_stride (fun i => truth (0 * truth_size + i)) 1)) >>= fun roi =>
        sized.roi roi >>= fun src_view => dst.roi roi >>= fun _ =>
          Except.ok (src_view.copyToRoi dst roi) := by
  unfold revert_boxes
  simp only [float_to_box_stride, hx]
  rfl

/-- Counterexample to C9 as stated: in a buffer of `2^24 + 1` columns the width
`b.w * sized.cols` is computed in binary32 as `2^24`, so the last column is not reverted and
keeps the blurred value. -/
theorem blur_wide_counterexample :
    ∃ r, blur_step sampleCV wideMat 1 1 4 fullFrameTruth = Except.ok r ∧
      r.pixel 0 16777216 0 ≠ wideMat.pixel 0 16777216 0 := by
  have hb : float_to_box_stride (fun i => fullFrameTruth (0 * 4 + i)) 1
      = ⟨Flt.fin (1 / 2), Flt.fin (1 / 2), Flt.fin 1, Flt.fin 1⟩ := by
    simp [float_to_box_stride, fullFrameTruth]
  have hcols : wideMat.cols = 16777217 := rfl
  have hrows : wideMat.rows = 1 := rfl
  obtain ⟨v, hv⟩ : ∃ v, wideMat.roi ⟨0, 0, 16777216, 1⟩ = Except.ok v := by
    apply Mat.roi_ok
    simp only [hcols, hrows]
    norm_num
  obtain ⟨v', hv'⟩ : ∃ v', (Mat.ofFn wideMat.rows wideMat.cols wideMat.chans
      (fun _ _ _ => (0 : Fin 256))).roi ⟨0, 0, 16777216, 1⟩ = Except.ok v' := by
    apply Mat.roi_ok
    simp only [Mat.ofFn, hcols, hrows]
    norm_num
  have hstep : blur_step sampleCV wideMat 1 1 4 fullFrameTruth = Except.ok (v.copyToRoi
      (Mat.ofFn wideMat.rows wideMat.cols wideMat.chans (fun _ _ _ => (0 : Fin 256)))
      ⟨0, 0, 16777216, 1⟩) := by
    rw [blur_step_one sampleCV wideMat 1 4 fullFrameTruth (fun _ _ _ => 0) rfl]
    have hn : (1 : Int).toNat = 1 := rfl
    rw [hn, revert_boxes_one wideMat _ 4 fullFrameTruth (by simp [fullFrameTruth, Flt.isZero]),
      hb, box_roi_wide]
    simp only [bind, Except.bind, hv, hv']
  refine ⟨_, hstep, ?_⟩
  obtain ⟨hvr, hvc, hvch, -⟩ := Mat.pixel_roi wideMat v _ hv 0 0 0
  simp only at hvr hvc
  rw [Mat.pixel_copyToRoi v _ ⟨0, 0, 16777216, 1⟩ (by rw [hvr]; norm_num) (by rw [hvc]; norm_num)
    (by rw [hvr]; norm_num) (by rw [hvc]; norm_num) (by rw [hvch]; rfl) 0 16777216 0
    (by show 16777216 < wideMat.cols; rw [hcols]; norm_num) (by show 0 < wideMat.chans; exact Nat.one_pos)]
  simp only
  rw [if_neg (by norm_num)]
  rw [Mat.pixel_ofFn _ _ _ _ 0 16777216 0 (by rw [hcols]; norm_num) (by exact Nat.one_pos)]
  have : wideMat.pixel 0 16777216 0 = 255 :=
    Mat.pixel_ofFn _ _ _ _ 0 16777216 0 (by norm_num) (by norm_num)
  rw [this]
  decide

/-! ## The noise step and the whole augmentation -/

theorem noise_step_zero {ρ : Type} (cv : OpenCV ρ) (rng : ρ) (sized : Mat) :
    noise_step cv rng sized 0 = (sized, rng) := by
  unfold noise_step
  rw [if_neg (by norm_num)]

/-- With `gaussian_noise = 0` the image that `image_data_augmentation` returns is the result of
the steps before the noise, none of which reads the generator. -/
theorem augmentation_without_noise {ρ : Type} (cv : OpenCV ρ) (rng : ρ) (img : Mat)
    (w h pleft ptop swidth sheight flip : Int) (dhue dsat dexp : Flt) (blur num_boxes : Int)
    (truth_size : Nat) (truth : Nat → Flt) :
    Except.map Prod.fst (image_data_augmentation cv rng (some img) w h pleft ptop swidth sheight
      flip dhue dsat dexp 0 blur num_boxes truth_size truth) =
    (crop_buffer cv img pleft ptop swidth sheight >>= fun buffer =>
      resizeTo cv buffer w h >>= fun sized =>
        hsv_step cv img (flip_step sized flip) dhue dsat dexp >>= fun sized =>
          blur_step cv sized blur num_boxes truth_size truth >>= fun sized =>
            Except.ok (mat_to_image sized)) := by
  unfold image_data_augmentation
  simp only [noise_step_zero]
  cases crop_buffer cv img pleft ptop swidth sheight with
  | error e => rfl
  | ok buffer =>
    cases h1 : resizeTo cv buffer w h with
    | error e => simp only [bind, Except.bind, h1, Except.map]
    | ok sized =>
      cases h2 : hsv_step cv img (flip_step sized flip) dhue dsat dexp with
      | error e => simp only [bind, Except.bind, h1, h2, Except.map]
      | ok sized2 =>
        cases h3 : blur_step cv sized2 blur num_boxes truth_size truth with
        | error e => simp only [bind, Except.bind, h1, h2, h3, Except.map]
        | ok sized3 => simp only [bind, Except.bind, h1, h2, h3, Except.map, pure, Except.pure]

/-- Claim C10, amended: with `gaussian_noise == 0` the image returned by
`image_data_augmentation` is the same for every state of the random-number generator. -/
theorem augmentation_deterministic_without_noise {ρ : Type} (cv : OpenCV ρ) (rng1 rng2 : ρ)
    (mat : Option Mat) (w h pleft ptop swidth sheight flip : Int) (dhue dsat dexp : Flt)
    (blur num_boxes : Int) (truth_size : Nat) (truth : Nat → Flt) :
    Except.map Prod.fst (image_data_augmentation cv rng1 mat w h pleft ptop swidth sheight
      flip dhue dsat dexp 0 blur num_boxes truth_size truth) =
    Except.map Prod.fst (image_data_augmentation cv rng2 mat w h pleft ptop swidth sheight
      flip dhue dsat dexp 0 blur num_boxes truth_size truth) := by
  cases mat with
  | none => rfl
  | some img => rw [augmentation_without_noise, augmentation_without_noise]

/-- The run of `image_data_augmentation` on the black 1 x 1 buffer with noise level 1 and
every other step switched off, started with generator state `s`. -/
theorem augmentation_dot (s : Nat) :
    image_data_augmentation sampleCV s (some dotMat) 1 1 0 0 1 1 0 (Flt.fin 0) (Flt.fin 1)
      (Flt.fin 1) 1 0 0 0 fullFrameTruth =
    Except.ok (mat_to_image ((Mat.ofFn 1 1 1 (fun _ _ _ => 0)).addSat
      (Mat.ofFn 1 1 1 (fun _ _ _ => Fin.ofNat s))), s + 1) := by
  rfl

/-- The value 1 is a binary32 value. -/
theorem rnd32_one : binary32.rnd 1 = 1 := by
  have := rnd_exact binary32 1 0 (by norm_num [binary32]) (by norm_num [binary32])
  norm_num at this
  exact this

/-- Counterexample to C10 as stated: with `gaussian_noise = 1` two runs with equal arguments,
started in generator states 0 and 255, return images that differ in their first sample. -/
theorem noise_counterexample :
    ∃ im1 im2 s1 s2,
      image_data_augmentation sampleCV 0 (some dotMat) 1 1 0 0 1 1 0 (Flt.fin 0) (Flt.fin 1)
        (Flt.fin 1) 1 0 0 0 fullFrameTruth = Except.ok (im1, s1) ∧
      image_data_augmentation sampleCV 255 (some dotMat) 1 1 0 0 1 1 0 (Flt.fin 0) (Flt.fin 1)
        (Flt.fin 1) 1 0 0 0 fullFrameTruth = Except.ok (im2, s2) ∧
      im1.data 0 ≠ im2.data 0 := by
  refine ⟨_, _, _, _, augmentation_dot 0, augmentation_dot 255, ?_⟩
  have h1 := mat_to_image_data ((Mat.ofFn 1 1 1 (fun _ _ _ => 0)).addSat
      (Mat.ofFn 1 1 1 (fun _ _ _ => Fin.ofNat 0))) 0 0 0 Nat.one_pos Nat.one_pos Nat.one_pos
  have h2 := mat_to_image_data ((Mat.ofFn 1 1 1 (fun _ _ _ => 0)).addSat
      (Mat.ofFn 1 1 1 (fun _ _ _ => Fin.ofNat 255))) 0 0 0 Nat.one_pos Nat.one_pos Nat.one_pos
  have e1 : (((Mat.ofFn 1 1 1 (fun _ _ _ => 0)).addSat
      (Mat.ofFn 1 1 1 (fun _ _ _ => Fin.ofNat 0))).data (0 * 1 + 0 * 1 + 0)).val = 0 := by decide
  have e2 : (((Mat.ofFn 1 1 1 (fun _ _ _ => 0)).addSat
      (Mat.ofFn 1 1 1 (fun _ _ _ => Fin.ofNat 255))).data (0 * 1 + 0 * 1 + 0)).val = 255 := by
    decide
  simp only [Nat.zero_mul, Nat.add_zero] at h1 h2 e1 e2
  rw [e1] at h1
  rw [e2] at h2
  rw [h1, h2]
  have r0 : binary32.rnd (((0 : Nat) : ℚ) / 255) = 0 := by simp [FloatFormat.rnd]
  have r1 : binary32.rnd (((255 : Nat) : ℚ) / 255) = 1 := by
    have : (((255 : Nat) : ℚ) / 255) = 1 := by norm_num
    rw [this, rnd32_one]
  rw [r0, r1]
  intro h
  injection h with h
  norm_num at h

/-! ## The heap and the retry loop -/

theorem World.delete_null (w : World) : w.delete none = Except.ok w := rfl

/-- Deleting a live object empties its cell and changes nothing else. -/
theorem World.delete_live (w : World) (a : Nat) (m : Mat) (h : w.heap.cells a = some m) :
    w.delete (some a) =
      Except.ok { w with heap := ⟨Function.update w.heap.cells a none, w.heap.next⟩ } := by
  simp only [World.delete, h]

theorem World.deref_live (w : World) (a : Nat) (m : Mat) (h : w.heap.cells a = some m) :
    w.deref (some a) = Except.ok m := by
  simp only [World.deref, h]

theorem World.deref_dead (w : World) (a : Nat) (h : w.heap.cells a = none) :
    w.deref (some a) = Except.error StreamFailure.undefined := by
  simp only [World.deref, h]

/-- A read from an opened source: the frame at the read position goes into a new object at
the next free address and the read position moves on by one. -/
theorem get_capture_frame_cv_open (c : Nat) (w : World) (h : (w.caps c).opened = true) :
    get_capture_frame_cv (some c) w =
      Except.ok (some w.heap.next,
        { w with
          heap := ⟨Function.update w.heap.cells w.heap.next
            (some ((w.caps c).frames (w.caps c).pos)), w.heap.next + 1⟩
          caps := Function.update w.caps c { w.caps c with pos := (w.caps c).pos + 1 } }) := by
  simp only [get_capture_frame_cv, h, if_true, Heap.alloc]

/-- The retry loop on an opened source whose next `n` frames are invalid and whose frame after
them is valid: with more than `n` passes allowed it ends with a pointer to that frame, after
exactly `n + 1` reads, and touches neither another source nor a `once` flag. -/
theorem warm_up_spec (c : Nat) : ∀ (n fuel : Nat) (src : Ptr) (w : World),
    n < fuel → (w.caps c).opened = true →
    (∀ a, src = some a → ∃ m, w.heap.cells a = some m) →
    (∀ i, i < n → ((w.caps c).frames ((w.caps c).pos + i)).invalid = true) →
    ((w.caps c).frames ((w.caps c).pos + n)).invalid = false →
    ∃ a w1, warm_up (some c) fuel src w = some (Except.ok (Sum.inr (some a), w1)) ∧
      w1.heap.cells a = some ((w.caps c).frames ((w.caps c).pos + n)) ∧
      w1.caps = Function.update w.caps c { w.caps c with pos := (w.caps c).pos + n + 1 } ∧
      w1.once_cpp = w.once_cpp ∧ w1.once_resize = w.once_resize ∧
      w1.once_letterbox = w.once_letterbox := by
  intro n
  induction n with
  | zero =>
    intro fuel src w hfuel hopen hsrc _ hvalid
    obtain ⟨f, rfl⟩ : ∃ f, fuel = f + 1 := ⟨fuel - 1, by omega⟩
    obtain ⟨w0, hdel, hcaps0, hf1, hf2, hf3⟩ : ∃ w0, w.delete src = Except.ok w0 ∧
        w0.caps = w.caps ∧ w0.once_cpp = w.once_cpp ∧ w0.once_resize = w.once_resize ∧
        w0.once_letterbox = w.once_letterbox := by
      cases src with
      | none => exact ⟨w, rfl, rfl, rfl, rfl, rfl⟩
      | some a =>
        obtain ⟨m, hm⟩ := hsrc a rfl
        exact ⟨_, World.delete_live w a m hm, rfl, rfl, rfl, rfl⟩
    have hopen0 : (w0.caps c).opened = true := by rw [hcaps0]; exact hopen
    simp only [Nat.add_zero] at hvalid
    have hinv : ((w0.caps c).frames (w0.caps c).pos).invalid = false := by
      rw [hcaps0]; exact hvalid
    refine ⟨w0.heap.next,
      { w0 with
        heap := ⟨Function.update w0.heap.cells w0.heap.next
          (some ((w0.caps c).frames (w0.caps c).pos)), w0.heap.next + 1⟩
        caps := Function.update w0.caps c { w0.caps c with pos := (w0.caps c).pos + 1 } },
      ?_, ?_, ?_, ?_, ?_, ?_⟩
    · simp only [warm_up, hdel, get_capture_frame_cv_open c w0 hopen0, World.deref,
        Function.update_same, hinv]
      rfl
    · simp only [Function.update_same, hcaps0, Nat.add_zero]
    · simp only [hcaps0, Nat.add_zero]
    · exact hf1
    · exact hf2
    · exact hf3
  | succ n ih =>
    intro fuel src w hfuel hopen hsrc hinvalid hvalid
    obtain ⟨f, rfl⟩ : ∃ f, fuel = f + 1 := ⟨fuel - 1, by omega⟩
    obtain ⟨w0, hdel, hcaps0, hf1, hf2, hf3⟩ : ∃ w0, w.delete src = Except.ok w0 ∧
        w0.caps = w.caps ∧ w0.once_cpp = w.once_cpp ∧ w0.once_resize = w.once_resize ∧
        w0.once_letterbox = w.once_letterbox := by
      cases src with
      | none => exact ⟨w, rfl, rfl, rfl, rfl, rfl⟩
      | some a =>
        obtain ⟨m, hm⟩ := hsrc a rfl
        exact ⟨_, World.delete_live w a m hm, rfl, rfl, rfl, rfl⟩
    have hopen0 : (w0.caps c).opened = true := by rw [hcaps0]; exact hopen
    have hinv : ((w0.caps c).frames (w0.caps c).pos).invalid = true := by
      rw [hcaps0]; exact hinvalid 0 (Nat.succ_pos n)
    obtain ⟨a, w1, hw, hcell, hcaps, g1, g2, g3⟩ := ih f (some w0.heap.next)
      { w0 with
        heap := ⟨Function.update w0.heap.cells w0.heap.next
          (some ((w0.caps c).frames (w0.caps c).pos)), w0.heap.next + 1⟩
        caps := Function.update w0.caps c { w0.caps c with pos := (w0.caps c).pos + 1 } }
      (by omega)
      (by simp only [Function.update_same]; exact hopen0)
      (by
        intro b hb
        injection hb with hb
        subst hb
        exact ⟨(w0.caps c).frames (w0.caps c).pos, Function.update_same _ _ _⟩)
      (by
        intro i hi
        simp only [Function.update_same, hcaps0]
        have := hinvalid (i + 1) (by omega)
        rw [show (w.caps c).pos + 1 + i = (w.caps c).pos + (i + 1) by omega]
        exact this)
      (by
        simp only [Function.update_same, hcaps0]
        rw [show (w.caps c).pos + 1 + n = (w.caps c).pos + (n + 1) by omega]
        exact hvalid)
    refine ⟨a, w1, ?_, ?_, ?_, ?_, ?_, ?_⟩
    · rw [← hw]
      simp only [warm_up, hdel, get_capture_frame_cv_open c w0 hopen0, World.deref,
        Function.update_same, hinv, if_true]
    · rw [hcell]
      simp only [Function.update_same, hcaps0]
      rw [show (w.caps c).pos + 1 + n = (w.caps c).pos + (n + 1) by omega]
    · rw [hcaps]
      simp only [Function.update_same, Function.update_idem, hcaps0]
      rw [show (w.caps c).pos + 1 + n + 1 = (w.caps c).pos + (n + 1) + 1 by omega]
    · rw [g1]; exact hf1
    · rw [g2]; exact hf2
    · rw [g3]; exact hf3

/-! ## The function `get_image_from_stream_cpp` -/

/-- The tail of `get_image_from_stream_cpp` on a live frame: the frame is converted, its
channel order reversed, and the frame is deleted. -/
theorem cpp_convert_live (w : World) (a : Nat) (m : Mat) (h : w.heap.cells a = some m) :
    cpp_convert (some a) w =
      Except.ok (rgbgr_image (mat_to_image m),
        { w with heap := ⟨Function.update w.heap.cells a none, w.heap.next⟩ }) := by
  simp only [cpp_convert, World.deref_live w a m h, World.delete_live w a m h, bind, Except.bind,
    pure, Except.pure]

/-- The first call of `get_image_from_stream_cpp` on an opened source whose next `n` frames are
invalid and whose frame after them is valid. -/
theorem cpp_first_call (c n fuel : Nat) (w : World) (hfirst : w.once_cpp = true)
    (hopen : (w.caps c).opened = true)
    (hinvalid : ∀ i, i < n → ((w.caps c).frames ((w.caps c).pos + i)).invalid = true)
    (hvalid : ((w.caps c).frames ((w.caps c).pos + n)).invalid = false) (hfuel : n < fuel) :
    ∃ w1, get_image_from_stream_cpp fuel (some c) w =
        some (Except.ok (rgbgr_image (mat_to_image ((w.caps c).frames ((w.caps c).pos + n))), w1)) ∧
      w1.caps = Function.update w.caps c { w.caps c with pos := (w.caps c).pos + n + 1 } ∧
      w1.once_cpp = false := by
  obtain ⟨a, w1, hw, hcell, hcaps, g1, -, -⟩ := warm_up_spec c n fuel none
    { w with once_cpp := false } hfuel hopen (by intro a ha; cases ha) hinvalid hvalid
  refine ⟨{ w1 with heap := ⟨Function.update w1.heap.cells a none, w1.heap.next⟩ }, ?_, hcaps, g1⟩
  simp only [get_image_from_stream_cpp, hfirst, if_true, hw]
  rw [cpp_convert_live w1 a _ hcell]

/-- A later call of `get_image_from_stream_cpp` on an opened source: one read, no retry. -/
theorem cpp_later_call (c fuel : Nat) (w : World) (hlater : w.once_cpp = false)
    (hopen : (w.caps c).opened = true) :
    ∃ w1, get_image_from_stream_cpp fuel (some c) w =
        some (Except.ok (rgbgr_image (mat_to_image ((w.caps c).frames (w.caps c).pos)), w1)) ∧
      w1.caps = Function.update w.caps c { w.caps c with pos := (w.caps c).pos + 1 } ∧
      w1.once_cpp = false := by
  refine ⟨{ w with
      heap := ⟨Function.update (Function.update w.heap.cells w.heap.next
        (some ((w.caps c).frames (w.caps c).pos))) w.heap.next none, w.heap.next + 1⟩
      caps := Function.update w.caps c { w.caps c with pos := (w.caps c).pos + 1 } },
    ?_, rfl, hlater⟩
  simp only [get_image_from_stream_cpp, hlater, get_capture_frame_cv_open c w hopen]
  rw [cpp_convert_live _ w.heap.next ((w.caps c).frames (w.caps c).pos)
    (Function.update_same _ _ _)]
  rfl

/-- Samples of the channel-reversed planar conversion: plane `k` holds channel `c - 1 - k`. -/
theorem rgbgr_mat_to_image_data (m : Mat) (x y k : Nat) (hx : x < m.cols) (hy : y < m.rows)
    (hk : k < m.chans) :
    (rgbgr_image (mat_to_image m)).data (k * m.cols * m.rows + y * m.cols + x)
      = Flt.fin (binary32.rnd (((m.pixel y x (m.chans - 1 - k)).val : ℚ) / 255)) := by
  have hw : 0 < m.cols := Nat.lt_of_le_of_lt (Nat.zero_le _) hx
  have hh : 0 < m.rows := Nat.lt_of_le_of_lt (Nat.zero_le _) hy
  have hlt : y * m.cols + x < m.cols * m.rows := by
    calc y * m.cols + x < y * m.cols + m.cols := by omega
      _ = (y + 1) * m.cols := by ring
      _ ≤ m.rows * m.cols := Nat.mul_le_mul_right _ hy
      _ = m.cols * m.rows := Nat.mul_comm _ _
  have e1 : k * m.cols * m.rows + y * m.cols + x = (y * m.cols + x) + (m.cols * m.rows) * k := by
    ring
  have hdiv : (k * m.cols * m.rows + y * m.cols + x) / (m.cols * m.rows) = k := by
    rw [e1, Nat.add_mul_div_left _ _ (Nat.mul_pos hw hh), Nat.div_eq_of_lt hlt, Nat.zero_add]
  have hmod : (k * m.cols * m.rows + y * m.cols + x) % (m.cols * m.rows) = y * m.cols + x := by
    rw [e1, Nat.add_mul_mod_self_left, Nat.mod_eq_of_lt hlt]
  have hin : k * m.cols * m.rows + y * m.cols + x < m.chans * (m.cols * m.rows) := by
    calc k * m.cols * m.rows + y * m.cols + x
        = k * (m.cols * m.rows) + (y * m.cols + x) := by ring
      _ < k * (m.cols * m.rows) + m.cols * m.rows := by omega
      _ = (k + 1) * (m.cols * m.rows) := by ring
      _ ≤ m.chans * (m.cols * m.rows) := Nat.mul_le_mul_right _ hk
  show (if k * m.cols * m.rows + y * m.cols + x < m.chans * (m.cols * m.rows) then
      (mat_to_image m).data ((m.chans - 1 - (k * m.cols * m.rows + y * m.cols + x)
        / (m.cols * m.rows)) * (m.cols * m.rows)
        + (k * m.cols * m.rows + y * m.cols + x) % (m.cols * m.rows))
    else (mat_to_image m).data (k * m.cols * m.rows + y * m.cols + x)) = _
  rw [if_pos hin, hdiv, hmod]
  have := mat_to_image_data m x y (m.chans - 1 - k) hx hy (by omega)
  rw [show (m.chans - 1 - k) * (m.cols * m.rows) + (y * m.cols + x)
    = (m.chans - 1 - k) * m.cols * m.rows + y * m.cols + x by ring]
  exact this

theorem Mat.invalid_eq_false (m : Mat) (h : m.invalid = false) :
    1 ≤ m.cols ∧ 1 ≤ m.rows ∧ 1 ≤ m.chans := by
  simp only [Mat.invalid, Bool.or_eq_false_iff, decide_eq_false_iff_not] at h
  omega

theorem Mat.invalid_eq_true (m : Mat) (h : m.invalid = true) :
    m.cols = 0 ∨ m.rows = 0 ∨ m.chans = 0 := by
  simp only [Mat.invalid, Bool.or_eq_true, decide_eq_true_eq] at h
  omega

/-- Claim C11 (acquirer warm-up): on the first call of `get_image_from_stream_cpp` on an opened
source whose next `n` frames are invalid and whose frame after them is the valid frame `F`, with
fuel for more than `n` passes of the retry loop, the call returns, reads exactly `n + 1` frames
and returns the planar conversion of `F` with the channel order reversed: width, height and
channel count are those of `F`, all at least 1, and plane `k` holds channel `c - 1 - k` of `F`
divided by 255 in binary32. -/
theorem acquirer_warm_up (c n fuel : Nat) (w : World) (F : Mat) (hfirst : w.once_cpp = true)
    (hopen : (w.caps c).opened = true)
    (hinvalid : ∀ i, i < n → ((w.caps c).frames ((w.caps c).pos + i)).invalid = true)
    (hF : (w.caps c).frames ((w.caps c).pos + n) = F) (hvalid : F.invalid = false)
    (hfuel : n < fuel) :
    ∃ w1, get_image_from_stream_cpp fuel (some c) w =
        some (Except.ok (rgbgr_image (mat_to_image F), w1)) ∧
      (w1.caps c).pos = (w.caps c).pos + (n + 1) ∧
      (rgbgr_image (mat_to_image F)).w = F.cols ∧ (rgbgr_image (mat_to_image F)).h = F.rows ∧
      (rgbgr_image (mat_to_image F)).c = F.chans ∧
      1 ≤ F.cols ∧ 1 ≤ F.rows ∧ 1 ≤ F.chans ∧
      ∀ x y k, x < F.cols → y < F.rows → k < F.chans →
        (rgbgr_image (mat_to_image F)).data (k * F.cols * F.rows + y * F.cols + x)
          = Flt.fin (binary32.rnd (((F.pixel y x (F.chans - 1 - k)).val : ℚ) / 255)) := by
  subst hF
  obtain ⟨w1, hcall, hcaps, -⟩ := cpp_first_call c n fuel w hfirst hopen hinvalid hvalid hfuel
  obtain ⟨v1, v2, v3⟩ := Mat.invalid_eq_false _ hvalid
  refine ⟨w1, hcall, ?_, rfl, rfl, rfl, v1, v2, v3, ?_⟩
  · rw [hcaps]
    simp only [Function.update_same]
    omega
  · intro x y k hx hy hk
    exact rgbgr_mat_to_image_data _ x y k hx hy hk

/-- Claim C16 (streaming pulls are returned as-is): a call of `get_image_from_stream_cpp` after
the first one, on an opened source, returns whatever the fuel of the retry loop, reads exactly
one frame and returns the channel-reversed planar conversion of that frame; an invalid frame
gives an image with a zero dimension. -/
theorem streaming_pull_as_is (c fuel : Nat) (w : World) (hlater : w.once_cpp = false)
    (hopen : (w.caps c).opened = true) :
    ∃ w1, get_image_from_stream_cpp fuel (some c) w =
        some (Except.ok (rgbgr_image (mat_to_image ((w.caps c).frames (w.caps c).pos)), w1)) ∧
      (w1.caps c).pos = (w.caps c).pos + 1 ∧
      (((w.caps c).frames (w.caps c).pos).invalid = true →
        (rgbgr_image (mat_to_image ((w.caps c).frames (w.caps c).pos))).w = 0 ∨
        (rgbgr_image (mat_to_image ((w.caps c).frames (w.caps c).pos))).h = 0 ∨
        (rgbgr_image (mat_to_image ((w.caps c).frames (w.caps c).pos))).c = 0) := by
  obtain ⟨w1, hcall, hcaps, -⟩ := cpp_later_call c fuel w hlater hopen
  refine ⟨w1, hcall, ?_, ?_⟩
  · rw [hcaps]
    simp only [Function.update_same]
  · intro hinv
    exact Mat.invalid_eq_true _ hinv

/-! ## The function `wait_for_stream` -/

/-- The loop of `wait_for_stream` that reads and deletes `n` frames of an opened source: `n`
reads, and no object that lived below the first free address is touched. -/
theorem discard_frames_spec (c : Nat) : ∀ (n : Nat) (w : World), (w.caps c).opened = true →
    ∃ w1, discard_frames (some c) n w = Except.ok w1 ∧
      w1.caps = Function.update w.caps c { w.caps c with pos := (w.caps c).pos + n } ∧
      w.heap.next ≤ w1.heap.next ∧
      (∀ a, a < w.heap.next → w1.heap.cells a = w.heap.cells a) := by
  intro n
  induction n with
  | zero =>
    intro w _
    refine ⟨w, rfl, ?_, le_refl _, fun _ _ => rfl⟩
    simp only [Nat.add_zero]
    exact (Function.update_eq_self c w.caps).symm
  | succ n ih =>
    intro w hopen
    obtain ⟨w1, hw, hcaps, hnext, hcells⟩ := ih
      { w with
        heap := ⟨Function.update (Function.update w.heap.cells w.heap.next
          (some ((w.caps c).frames (w.caps c).pos))) w.heap.next none, w.heap.next + 1⟩
        caps := Function.update w.caps c { w.caps c with pos := (w.caps c).pos + 1 } }
      (by simp only [Function.update_same]; exact hopen)
    refine ⟨w1, ?_, ?_, ?_, ?_⟩
    · rw [← hw]
      simp only [discard_frames, get_capture_frame_cv_open c w hopen, bind, Except.bind]
      rw [World.delete_live _ w.heap.next ((w.caps c).frames (w.caps c).pos)
        (Function.update_same _ _ _)]
    · rw [hcaps]
      simp only [Function.update_same, Function.update_idem]
      rw [show (w.caps c).pos + 1 + n = (w.caps c).pos + (n + 1) by omega]
    · simp only at hnext
      omega
    · intro a ha
      rw [hcells a (by simp only; omega)]
      simp only
      rw [Function.update_noteq (by omega), Function.update_noteq (by omega)]

theorem placeholder_valid : placeholder.invalid = false := by decide

theorem wait_null_close (cap : Ptr) (w : World) :
    wait_for_stream_body cap none 0 w = Except.ok (0, none, w) := by
  simp [wait_for_stream_body, pure, Except.pure]

theorem wait_null_keep (cap : Ptr) (dont_close : Int) (w : World) (hd : dont_close ≠ 0) :
    wait_for_stream_body cap none dont_close w =
      Except.ok (1, some w.heap.next,
        { w with heap := ⟨Function.update w.heap.cells w.heap.next (some placeholder),
          w.heap.next + 1⟩ }) := by
  simp only [wait_for_stream_body, hd, ne_eq, not_false_eq_true, if_true, Heap.alloc]
  rw [World.deref_live _ w.heap.next placeholder (Function.update_same _ _ _)]
  simp only [bind, Except.bind, placeholder_valid, pure, Except.pure]
  rfl

theorem wait_valid (cap : Ptr) (dont_close : Int) (w : World) (a : Nat) (m : Mat)
    (hm : w.heap.cells a = some m) (hv : m.invalid = false) :
    wait_for_stream_body cap (some a) dont_close w = Except.ok (1, some a, w) := by
  simp only [wait_for_stream_body, World.deref_live w a m hm, bind, Except.bind, hv, pure,
    Except.pure]
  rfl

theorem wait_invalid_close (cap : Ptr) (w : World) (a : Nat) (m : Mat)
    (hm : w.heap.cells a = some m) (hv : m.invalid = true) :
    wait_for_stream_body cap (some a) 0 w = Except.ok (0, some a, w) := by
  simp [wait_for_stream_body, World.deref_live w a m hm, bind, Except.bind, hv, pure,
    Except.pure]

/-- The recovery branch of `wait_for_stream`: the frame is deleted, 20 frames are read and
deleted, a placeholder is allocated for the parameter `src`, and 1 is returned; the deleted
frame's address holds no object afterwards. -/
theorem wait_invalid_keep (c : Nat) (dont_close : Int) (w : World) (a : Nat) (m : Mat)
    (hd : dont_close ≠ 0) (hopen : (w.caps c).opened = true)
    (hm : w.heap.cells a = some m) (hv : m.invalid = true) (ha : a < w.heap.next) :
    ∃ p w1, wait_for_stream_body (some c) (some a) dont_close w = Except.ok (1, some p, w1) ∧
      w1.heap.cells p = some placeholder ∧ w1.heap.cells a = none ∧ p ≠ a ∧
      w1.caps = Function.update w.caps c { w.caps c with pos := (w.caps c).pos + 20 } := by
  obtain ⟨w2, hw2, hcaps, hnext, hcells⟩ := discard_frames_spec c 20
    { w with heap := ⟨Function.update w.heap.cells a none, w.heap.next⟩ } hopen
  simp only at hnext hcells hcaps
  refine ⟨w2.heap.next, { w2 with heap := ⟨Function.update w2.heap.cells w2.heap.next
    (some placeholder), w2.heap.next + 1⟩ }, ?_, ?_, ?_, ?_, hcaps⟩
  · simp only [wait_for_stream_body, World.deref_live w a m hm, bind, Except.bind, hv, if_true,
      hd, ne_eq, not_false_eq_true, World.delete_live w a m hm, hw2, pure, Except.pure,
      Heap.alloc]
  · simp only [Function.update_same]
  · simp only
    rw [Function.update_noteq (by omega), hcells a ha, Function.update_same]
  · omega

/-! ## The functions `get_image_from_stream_resize` and `get_image_from_stream_letterbox` -/

/-- What `wait_for_stream` returns for an opened source and a pointer that is null or points
to a live frame. -/
theorem wait_for_stream_returns (c : Nat) (src : Ptr) (dont_close : Int) (w : World)
    (hopen : (w.caps c).opened = true) (hbelow : ∀ a, src = some a → a < w.heap.next)
    (hsrc : ∀ a, src = some a → ∃ m, w.heap.cells a = some m) :
    ∃ r w1, wait_for_stream (some c) src dont_close w = Except.ok (r, w1) ∧
      (r = 0 ↔ dont_close = 0 ∧
        (src = none ∨ ∃ a m, src = some a ∧ w.heap.cells a = some m ∧ m.invalid = true)) ∧
      (r ≠ 0 → r = 1) ∧ (r = 0 → w1 = w) := by
  cases src with
  | none =>
    by_cases hd : dont_close = 0
    · subst hd
      refine ⟨0, w, ?_, ?_, fun h => absurd rfl h, fun _ => rfl⟩
      · simp only [wait_for_stream, wait_null_close]; rfl
      · exact ⟨fun _ => ⟨rfl, Or.inl rfl⟩, fun _ => rfl⟩
    · refine ⟨1, { w with heap := ⟨Function.update w.heap.cells w.heap.next (some placeholder),
          w.heap.next + 1⟩ }, ?_, ?_, fun _ => rfl, fun h => absurd h one_ne_zero⟩
      · simp only [wait_for_stream, wait_null_keep _ _ _ hd]; rfl
      · exact ⟨fun h => absurd h one_ne_zero, fun h => absurd h.1 hd⟩
  | some a =>
    obtain ⟨m, hm⟩ := hsrc a rfl
    cases hv : m.invalid with
    | false =>
      refine ⟨1, w, ?_, ?_, fun _ => rfl, fun h => absurd h one_ne_zero⟩
      · simp only [wait_for_stream, wait_valid _ _ _ a m hm hv]; rfl
      · refine ⟨fun h => absurd h one_ne_zero, ?_⟩
        rintro ⟨-, h | ⟨b, m', hb, hm', hv'⟩⟩
        · cases h
        · injection hb with hb
          subst hb
          rw [hm] at hm'
          injection hm' with hm'
          subst hm'
          rw [hv] at hv'
          cases hv'
    | true =>
      by_cases hd : dont_close = 0
      · subst hd
        refine ⟨0, w, ?_, ?_, fun h => absurd rfl h, fun _ => rfl⟩
        · simp only [wait_for_stream, wait_invalid_close _ _ a m hm hv]; rfl
        · exact ⟨fun _ => ⟨rfl, Or.inr ⟨a, m, rfl, hm, hv⟩⟩, fun _ => rfl⟩
      · obtain ⟨p, w1, hw1, -, -, -, -⟩ :=
          wait_invalid_keep c dont_close w a m hd hopen hm hv (hbelow a rfl)
        refine ⟨1, w1, ?_, ?_, fun _ => rfl, fun h => absurd h one_ne_zero⟩
        · simp only [wait_for_stream, hw1]; rfl
        · exact ⟨fun h => absurd h one_ne_zero, fun h => absurd h.1 hd⟩

/-- The tail of `get_image_from_stream_resize` for an invalid frame and `dont_close == 0`: the
empty image, nothing stored through `in_img`, the state untouched. -/
theorem resize_convert_close {ρ : Type} (cv : OpenCV ρ) (cap : Ptr) (wd ht ch : Int)
    (w : World) (a : Nat) (m : Mat) (hm : w.heap.cells a = some m) (hv : m.invalid = true) :
    resize_convert cv cap (some a) wd ht ch 0 w = Except.ok ⟨make_empty_image 0 0 0, none, w⟩ := by
  simp [resize_convert, wait_for_stream, wait_invalid_close cap w a m hm hv, bind, Except.bind,
    Except.map, pure, Except.pure]

theorem letterbox_convert_close {ρ : Type} (cv : OpenCV ρ)
    (letterbox : Image → Int → Int → Image) (cap : Ptr) (wd ht ch : Int)
    (w : World) (a : Nat) (m : Mat) (hm : w.heap.cells a = some m) (hv : m.invalid = true) :
    letterbox_convert cv letterbox cap (some a) wd ht ch 0 w =
      Except.ok ⟨make_empty_image 0 0 0, none, w⟩ := by
  simp [letterbox_convert, wait_for_stream, wait_invalid_close cap w a m hm hv, bind,
    Except.bind, Except.map, pure, Except.pure]

/-- A later call of `get_image_from_stream_resize` with `dont_close == 0` whose frame is
invalid: one read, the empty image. -/
theorem resize_close {ρ : Type} (cv : OpenCV ρ) (fuel c : Nat) (wd ht ch : Int) (w : World)
    (hlater : w.once_resize = false) (hopen : (w.caps c).opened = true)
    (hv : ((w.caps c).frames (w.caps c).pos).invalid = true) :
    ∃ w1, get_image_from_stream_resize cv fuel (some c) wd ht ch 0 w =
        some (Except.ok ⟨make_empty_image 0 0 0, none, w1⟩) ∧
      (w1.caps c).pos = (w.caps c).pos + 1 := by
  refine ⟨{ w with
      heap := ⟨Function.update w.heap.cells w.heap.next
        (some ((w.caps c).frames (w.caps c).pos)), w.heap.next + 1⟩
      caps := Function.update w.caps c { w.caps c with pos := (w.caps c).pos + 1 } }, ?_, ?_⟩
  · simp only [get_image_from_stream_resize, hlater, get_capture_frame_cv_open c w hopen]
    rw [resize_convert_close cv (some c) wd ht _ _ w.heap.next
      ((w.caps c).frames (w.caps c).pos) (Function.update_same _ _ _) hv]
    rfl
  · simp only [Function.update_same]

theorem letterbox_close {ρ : Type} (cv : OpenCV ρ) (letterbox : Image → Int → Int → Image)
    (fuel c : Nat) (wd ht ch : Int) (w : World)
    (hlater : w.once_letterbox = false) (hopen : (w.caps c).opened = true)
    (hv : ((w.caps c).frames (w.caps c).pos).invalid = true) :
    ∃ w1, get_image_from_stream_letterbox cv letterbox fuel (some c) wd ht ch 0 w =
        some (Except.ok ⟨make_empty_image 0 0 0, none, w1⟩) ∧
      (w1.caps c).pos = (w.caps c).pos + 1 := by
  refine ⟨{ w with
      heap := ⟨Function.update w.heap.cells w.heap.next
        (some ((w.caps c).frames (w.caps c).pos)), w.heap.next + 1⟩
      caps := Function.update w.caps c { w.caps c with pos := (w.caps c).pos + 1 } }, ?_, ?_⟩
  · simp only [get_image_from_stream_letterbox, hlater, get_capture_frame_cv_open c w hopen]
    rw [letterbox_convert_close cv letterbox (some c) wd ht _ _ w.heap.next
      ((w.caps c).frames (w.caps c).pos) (Function.update_same _ _ _) hv]
    rfl
  · simp only [Function.update_same]

/-- The tail of `get_image_from_stream_resize` for an invalid frame and `dont_close != 0`:
`wait_for_stream` deletes the frame and returns 1, the caller's `src` still holds the deleted
frame's address, and the caller uses it. -/
theorem resize_convert_keep {ρ : Type} (cv : OpenCV ρ) (c : Nat) (wd ht ch dont_close : Int)
    (w : World) (a : Nat) (m : Mat) (hd : dont_close ≠ 0) (hopen : (w.caps c).opened = true)
    (hm : w.heap.cells a = some m) (hv : m.invalid = true) (ha : a < w.heap.next)
    (hwd : 0 ≤ wd) (hht : 0 ≤ ht) :
    resize_convert cv (some c) (some a) wd ht ch dont_close w =
      Except.error StreamFailure.undefined := by
  obtain ⟨p, w1, hw1, -, hdead, -, -⟩ := wait_invalid_keep c dont_close w a m hd hopen hm hv ha
  simp only [resize_convert, wait_for_stream, hw1, Except.map, bind, Except.bind, one_ne_zero,
    if_false, Mat.create, hwd, hht, and_self, if_true, thrown, World.deref_dead w1 a hdead]

theorem letterbox_convert_keep {ρ : Type} (cv : OpenCV ρ)
    (letterbox : Image → Int → Int → Image) (c : Nat) (wd ht ch dont_close : Int)
    (w : World) (a : Nat) (m : Mat) (hd : dont_close ≠ 0) (hopen : (w.caps c).opened = true)
    (hm : w.heap.cells a = some m) (hv : m.invalid = true) (ha : a < w.heap.next) :
    letterbox_convert cv letterbox (some c) (some a) wd ht ch dont_close w =
      Except.error StreamFailure.undefined := by
  obtain ⟨p, w1, hw1, -, hdead, -, -⟩ := wait_invalid_keep c dont_close w a m hd hopen hm hv ha
  simp only [letterbox_convert, wait_for_stream, hw1, Except.map, bind, Except.bind, one_ne_zero,
    if_false, World.deref_dead w1 a hdead]

/-- A later call of `get_image_from_stream_resize` with `dont_close != 0` whose frame is
invalid ends in undefined behaviour, for every non-negative target size. -/
theorem resize_keep {ρ : Type} (cv : OpenCV ρ) (fuel c : Nat) (wd ht ch dont_close : Int)
    (w : World) (hd : dont_close ≠ 0) (hlater : w.once_resize = false)
    (hopen : (w.caps c).opened = true)
    (hv : ((w.caps c).frames (w.caps c).pos).invalid = true) (hwd : 0 ≤ wd) (hht : 0 ≤ ht) :
    get_image_from_stream_resize cv fuel (some c) wd ht ch dont_close w =
      some (Except.error StreamFailure.undefined) := by
  simp only [get_image_from_stream_resize, hlater, get_capture_frame_cv_open c w hopen]
  rw [resize_convert_keep cv c wd ht _ dont_close _ w.heap.next
    ((w.caps c).frames (w.caps c).pos) hd (by simp only [Function.update_same]; exact hopen)
    (Function.update_same _ _ _) hv (by simp only; omega) hwd hht]
  rfl

theorem letterbox_keep {ρ : Type} (cv : OpenCV ρ) (letterbox : Image → Int → Int → Image)
    (fuel c : Nat) (wd ht ch dont_close : Int)
    (w : World) (hd : dont_close ≠ 0) (hlater : w.once_letterbox = false)
    (hopen : (w.caps c).opened = true)
    (hv : ((w.caps c).frames (w.caps c).pos).invalid = true) :
    get_image_from_stream_letterbox cv letterbox fuel (some c) wd ht ch dont_close w =
      some (Except.error StreamFailure.undefined) := by
  simp only [get_image_from_stream_letterbox, hlater, get_capture_frame_cv_open c w hopen]
  rw [letterbox_convert_keep cv letterbox c wd ht _ dont_close _ w.heap.next
    ((w.caps c).frames (w.caps c).pos) hd (by simp only [Function.update_same]; exact hopen)
    (Function.update_same _ _ _) hv (by simp only; omega)]
  rfl

/-! ## The warm-up flag across sources -/

theorem World.delete_frame (w w1 : World) (p : Ptr) (h : w.delete p = Except.ok w1) :
    w1.caps = w.caps ∧ w1.once_cpp = w.once_cpp := by
  cases p with
  | none =>
    injection h with h
    subst h
    exact ⟨rfl, rfl⟩
  | some a =>
    simp only [World.delete] at h
    cases hc : w.heap.cells a with
    | none => rw [hc] at h; cases h
    | some m =>
      rw [hc] at h
      injection h with h
      subst h
      exact ⟨rfl, rfl⟩

theorem get_capture_frame_cv_frame (A : Nat) (w w1 : World) (p : Ptr)
    (h : get_capture_frame_cv (some A) w = Except.ok (p, w1)) :
    (∀ B, B ≠ A → w1.caps B = w.caps B) ∧ w1.once_cpp = w.once_cpp := by
  simp only [get_capture_frame_cv] at h
  split at h
  · injection h with h
    injection h with _ h
    subst h
    exact ⟨fun B hB => Function.update_noteq hB _ _, rfl⟩
  · cases h

/-- The retry loop on source `A` touches neither another source nor the flag `once`. -/
theorem warm_up_frame (A : Nat) : ∀ (fuel : Nat) (src : Ptr) (w : World)
    (x : Image ⊕ Ptr) (w1 : World),
    warm_up (some A) fuel src w = some (Except.ok (x, w1)) →
    (∀ B, B ≠ A → w1.caps B = w.caps B) ∧ w1.once_cpp = w.once_cpp := by
  intro fuel
  induction fuel with
  | zero =>
    intro src w x w1 h
    simp only [warm_up] at h
    cases h
  | succ f ih =>
    intro src w x w1 h
    simp only [warm_up] at h
    cases hdel : w.delete src with
    | error e => rw [hdel] at h; simp only at h; cases h
    | ok w0 =>
      rw [hdel] at h
      simp only at h
      obtain ⟨d1, d2⟩ := World.delete_frame w w0 src hdel
      cases hget : get_capture_frame_cv (some A) w0 with
      | error e => rw [hget] at h; simp only at h; cases h
      | ok r =>
        obtain ⟨p, w2⟩ := r
        rw [hget] at h
        simp only at h
        obtain ⟨g1, g2⟩ := get_capture_frame_cv_frame A w0 w2 p hget
        cases p with
        | none =>
          simp only at h
          injection h with h
          injection h with h
          injection h with _ h
          subst h
          exact ⟨fun B hB => by rw [g1 B hB, d1], by rw [g2, d2]⟩
        | some a =>
          simp only at h
          cases hder : w2.deref (some a) with
          | error e => rw [hder] at h; simp only at h; cases h
          | ok m =>
            rw [hder] at h
            simp only at h
            cases hv : m.invalid with
            | true =>
              rw [hv] at h
              simp only [if_true] at h
              obtain ⟨i1, i2⟩ := ih (some a) w2 x w1 h
              exact ⟨fun B hB => by rw [i1 B hB, g1 B hB, d1], by rw [i2, g2, d2]⟩
            | false =>
              rw [hv] at h
              simp only [Bool.false_eq_true, if_false] at h
              injection h with h
              injection h with h
              injection h with _ h
              subst h
              exact ⟨fun B hB => by rw [g1 B hB, d1], by rw [g2, d2]⟩

theorem cpp_convert_frame (src : Ptr) (w w1 : World) (im : Image)
    (h : cpp_convert src w = Except.ok (im, w1)) :
    w1.caps = w.caps ∧ w1.once_cpp = w.once_cpp := by
  cases src with
  | none =>
    simp only [cpp_convert] at h
    injection h with h
    injection h with _ h
    subst h
    exact ⟨rfl, rfl⟩
  | some a =>
    simp only [cpp_convert, bind, Except.bind] at h
    cases hder : w.deref (some a) with
    | error e => rw [hder] at h; cases h
    | ok m =>
      rw [hder] at h
      simp only at h
      cases hdel : w.delete (some a) with
      | error e => rw [hdel] at h; cases h
      | ok w0 =>
        rw [hdel] at h
        simp only [pure, Except.pure] at h
        injection h with h
        injection h with _ h
        subst h
        exact World.delete_frame w w0 (some a) hdel

/-- Every call of `get_image_from_stream_cpp` on source `A` that returns leaves the flag `once`
cleared and leaves every other source as it was. -/
theorem cpp_call_frame (A fuel : Nat) (w w1 : World) (im : Image)
    (h : get_image_from_stream_cpp fuel (some A) w = some (Except.ok (im, w1))) :
    w1.once_cpp = false ∧ ∀ B, B ≠ A → w1.caps B = w.caps B := by
  simp only [get_image_from_stream_cpp] at h
  cases honce : w.once_cpp with
  | true =>
    rw [honce] at h
    simp only [if_true] at h
    cases hwarm : warm_up (some A) fuel none { w with once_cpp := false } with
    | none => rw [hwarm] at h; simp only at h; cases h
    | some r =>
      rw [hwarm] at h
      cases r with
      | error e => simp only at h; cases h
      | ok r =>
        obtain ⟨x, w0⟩ := r
        obtain ⟨f1, f2⟩ := warm_up_frame A fuel none _ x w0 hwarm
        cases x with
        | inl im0 =>
          simp only at h
          injection h with h
          injection h with h
          injection h with _ h
          subst h
          exact ⟨f2, f1⟩
        | inr src =>
          simp only at h
          injection h with h
          obtain ⟨c1, c2⟩ := cpp_convert_frame src w0 w1 im h
          exact ⟨by rw [c2, f2], fun B hB => by rw [c1, f1 B hB]⟩
  | false =>
    rw [honce] at h
    simp only [Bool.false_eq_true, if_false] at h
    cases hget : get_capture_frame_cv (some A) w with
    | error e => rw [hget] at h; simp only at h; cases h
    | ok r =>
      obtain ⟨p, w0⟩ := r
      rw [hget] at h
      simp only at h
      injection h with h
      obtain ⟨g1, g2⟩ := get_capture_frame_cv_frame A w w0 p hget
      obtain ⟨c1, c2⟩ := cpp_convert_frame p w0 w1 im h
      exact ⟨by rw [c2, g2, honce], fun B hB => by rw [c1, g1 B hB]⟩

/-- After any call of `get_image_from_stream_cpp` on source `A` that returned, a call on another
opened source `B` reads one frame of `B` and converts it, without the retry loop. -/
theorem cpp_other_source (A B fuelA fuelB : Nat) (w w1 : World) (imA : Image)
    (hAB : A ≠ B) (hopen : (w.caps B).opened = true)
    (hcall : get_image_from_stream_cpp fuelA (some A) w = some (Except.ok (imA, w1))) :
    w1.once_cpp = false ∧ w1.caps B = w.caps B ∧
    ∃ w2, get_image_from_stream_cpp fuelB (some B) w1 =
        some (Except.ok (rgbgr_image (mat_to_image ((w.caps B).frames (w.caps B).pos)), w2)) ∧
      (w2.caps B).pos = (w.caps B).pos + 1 := by
  obtain ⟨h1, h2⟩ := cpp_call_frame A fuelA w w1 imA hcall
  have hB : w1.caps B = w.caps B := h2 B (Ne.symm hAB)
  obtain ⟨w2, hw2, hcaps, -⟩ := cpp_later_call B fuelB w1 h1 (by rw [hB]; exact hopen)
  rw [hB] at hw2 hcaps
  refine ⟨h1, hB, w2, hw2, ?_⟩
  rw [hcaps]
  simp only [Function.update_same]

/-! ## The blur kernel, the null handle and the stream claims -/

/-- The kernel side is odd. -/
theorem blur_ksize_odd (blur : Int) : blur_ksize blur % 2 = 1 := by
  unfold blur_ksize
  split
  · decide
  · omega

/-- For a blur parameter of at least 2 the kernel side is the least odd integer not below it. -/
theorem blur_ksize_least (blur : Int) (h : 2 ≤ blur) :
    blur ≤ blur_ksize blur ∧ ∀ k : Int, k % 2 = 1 → blur ≤ k → blur_ksize blur ≤ k := by
  have h1 : blur ≠ 1 := by omega
  have hd : Int.tdiv blur 2 = blur / 2 := Int.tdiv_eq_ediv (by omega) (by decide)
  unfold blur_ksize
  rw [if_neg h1, hd]
  constructor
  · omega
  · intro k hk hle
    omega

/-- For a blur parameter other than 0 and 1 the blur step is one call of the Gaussian blur with
kernel side `(blur / 2) * 2 + 1`. -/
theorem blur_step_kernel {ρ : Type} (cv : OpenCV ρ) (sized : Mat) (blur num_boxes : Int)
    (truth_size : Nat) (truth : Nat → Flt) (h0 : blur ≠ 0) (h1 : blur ≠ 1) :
    blur_step cv sized blur num_boxes truth_size truth =
      (orFatal (cv.gaussianBlur sized (Int.tdiv blur 2 * 2 + 1))).map
        (Mat.ofFn sized.rows sized.cols sized.chans) := by
  simp only [blur_step, blur_ksize, h0, h1, ne_eq, not_false_eq_true, if_true, if_false, bind,
    Except.bind, Except.map, pure, Except.pure]

/-- Claim C17 (blur kernel size): the kernel side used by the blur step is 17 for `blur == 1`
and `(blur / 2) * 2 + 1` with truncating division otherwise (for a blur parameter other than 0
and 1 the step is one Gaussian blur with that side); it is odd for every blur parameter, and for
`blur >= 2` it is the least odd integer not below `blur`. -/
theorem blur_kernel_size {ρ : Type} (cv : OpenCV ρ) (sized : Mat) (blur num_boxes : Int)
    (truth_size : Nat) (truth : Nat → Flt) :
    blur_ksize 1 = 17 ∧
    (blur ≠ 1 → blur_ksize blur = Int.tdiv blur 2 * 2 + 1) ∧
    (blur ≠ 0 → blur ≠ 1 → blur_step cv sized blur num_boxes truth_size truth =
      (orFatal (cv.gaussianBlur sized (Int.tdiv blur 2 * 2 + 1))).map
        (Mat.ofFn sized.rows sized.cols sized.chans)) ∧
    blur_ksize blur % 2 = 1 ∧
    (2 ≤ blur → blur ≤ blur_ksize blur ∧
      ∀ k : Int, k % 2 = 1 → blur ≤ k → blur_ksize blur ≤ k) :=
  ⟨rfl, fun h => if_neg h, blur_step_kernel cv sized blur num_boxes truth_size truth,
    blur_ksize_odd blur, blur_ksize_least blur⟩

/-- For `blur == 4` the kernel side is 5, odd and not below 4, and no odd integer from 4 on is
smaller. -/
theorem blur_kernel_size_witness :
    blur_ksize 4 = 5 ∧ blur_ksize 4 % 2 = 1 ∧ (4 : Int) ≤ blur_ksize 4 ∧
    ∀ k : Int, k % 2 = 1 → 4 ≤ k → blur_ksize 4 ≤ k :=
  ⟨(blur_kernel_size sampleCV sampleMat 4 0 0 fullFrameTruth).2.1 (by decide),
    (blur_kernel_size sampleCV sampleMat 4 0 0 fullFrameTruth).2.2.2.1,
    ((blur_kernel_size sampleCV sampleMat 4 0 0 fullFrameTruth).2.2.2.2 (by decide)).1,
    ((blur_kernel_size sampleCV sampleMat 4 0 0 fullFrameTruth).2.2.2.2 (by decide)).2⟩

/-- Claim C14 (fatal-on-null), as the code behaves: given a null handle, `get_width_mat` and
`get_height_mat` take the fatal-error path, while `mat_to_image_cv` and
`image_data_augmentation` dereference the null handle, which is undefined behaviour and not
the fatal-error path. -/
theorem null_handle_paths {ρ : Type} (cv : OpenCV ρ) (rng : ρ) (w h : Int)
    (pleft ptop swidth sheight : Int) (flip : Int) (dhue dsat dexp : Flt)
    (gaussian_noise blur num_boxes : Int) (truth_size : Nat) (truth : Nat → Flt) :
    get_width_mat none = Except.error Failure.fatal ∧
    get_height_mat none = Except.error Failure.fatal ∧
    mat_to_image_cv none = Except.error Failure.undefined ∧
    image_data_augmentation cv rng none w h pleft ptop swidth sheight flip dhue dsat dexp
      gaussian_noise blur num_boxes truth_size truth = Except.error Failure.undefined :=
  ⟨rfl, rfl, rfl, rfl⟩

/-- The empty frame fails the validity test. -/
theorem emptyFrame_invalid : emptyFrame.invalid = true := by decide

/-- The 640 x 480 x 3 frame passes the validity test. -/
theorem vgaFrame_valid : vgaFrame.invalid = false := by decide

/-- Two empty frames followed by a 640 x 480 x 3 frame: the first call reads three frames and
returns a 640 x 480 x 3 image. -/
theorem acquirer_warm_up_witness :
    ∃ w1, get_image_from_stream_cpp 3 (some 0) (freshWorld warmingCapture) =
        some (Except.ok (rgbgr_image (mat_to_image vgaFrame), w1)) ∧
      (w1.caps 0).pos = 3 ∧
      (rgbgr_image (mat_to_image vgaFrame)).w = 640 ∧
      (rgbgr_image (mat_to_image vgaFrame)).h = 480 ∧
      (rgbgr_image (mat_to_image vgaFrame)).c = 3 := by
  obtain ⟨w1, h1, h2, h3, h4, h5, -⟩ := acquirer_warm_up 0 2 3 (freshWorld warmingCapture)
    vgaFrame rfl rfl (by decide) rfl vgaFrame_valid (by decide)
  exact ⟨w1, h1, h2, h3, h4, h5⟩

/-- A later call on a source that delivers an empty frame returns an image of width 0 after
one read. -/
theorem streaming_pull_as_is_witness :
    ∃ w1, get_image_from_stream_cpp 0 (some 0) (startedWorld stalledCapture) =
        some (Except.ok (rgbgr_image (mat_to_image emptyFrame), w1)) ∧
      (w1.caps 0).pos = 1 ∧ (rgbgr_image (mat_to_image emptyFrame)).w = 0 := by
  obtain ⟨w1, h1, h2, -⟩ := streaming_pull_as_is 0 0 (startedWorld stalledCapture) rfl rfl
  exact ⟨w1, h1, h2, rfl⟩

/-- Claim C15, amended: the warm-up state of `get_image_from_stream_cpp` is one flag for the
whole process, not one per source.  After any call on a source `A` that returned, the flag is
cleared and every other source `B` is untouched; the next call on an opened `B`, the first pull
on `B`, returns whatever the fuel, reads exactly one frame of `B` and returns the
channel-reversed conversion of that frame, without the retry loop. -/
theorem warm_up_state_is_process_wide (A B fuelA fuelB : Nat) (w w1 : World) (imA : Image)
    (hAB : A ≠ B) (hopen : (w.caps B).opened = true)
    (hcall : get_image_from_stream_cpp fuelA (some A) w = some (Except.ok (imA, w1))) :
    w1.once_cpp = false ∧ w1.caps B = w.caps B ∧
    ∃ w2, get_image_from_stream_cpp fuelB (some B) w1 =
        some (Except.ok (rgbgr_image (mat_to_image ((w.caps B).frames (w.caps B).pos)), w2)) ∧
      (w2.caps B).pos = (w.caps B).pos + 1 :=
  cpp_other_source A B fuelA fuelB w w1 imA hAB hopen hcall

/-- After a first call on source 0 the flag is cleared, and the first pull on source 1 returns
its empty first frame after one read. -/
theorem warm_up_state_is_process_wide_witness :
    ∃ w1 w2, get_image_from_stream_cpp 1 (some 0) twoSources =
        some (Except.ok (rgbgr_image (mat_to_image vgaFrame), w1)) ∧
      w1.once_cpp = false ∧
      get_image_from_stream_cpp 0 (some 1) w1 =
        some (Except.ok (rgbgr_image (mat_to_image emptyFrame), w2)) ∧
      (w2.caps 1).pos = 1 := by
  obtain ⟨w1, hcall, -, -⟩ := cpp_first_call 0 0 1 twoSources rfl rfl
    (by intro i hi; omega) vgaFrame_valid (by decide)
  obtain ⟨h1, -, w2, h3, h4⟩ := warm_up_state_is_process_wide 0 1 1 0 twoSources w1 _
    (by decide) rfl hcall
  exact ⟨w1, w2, hcall, h1, h3, h4⟩

/-- Against a warm-up state per source: source 1 delivers an empty frame and then 640 x 480 x 3
frames.  Pulled first, it is read twice and yields the 640 x 480 x 3 frame; pulled after one
call on source 0, which leaves source 1 unread, its first pull reads one frame and returns an
image of width 0 and height 0. -/
theorem warm_up_per_source_counterexample :
    (∃ w3, get_image_from_stream_cpp 2 (some 1) twoSources =
        some (Except.ok (rgbgr_image (mat_to_image vgaFrame), w3)) ∧ (w3.caps 1).pos = 2) ∧
    ∃ imA w1 w2, get_image_from_stream_cpp 2 (some 0) twoSources = some (Except.ok (imA, w1)) ∧
      (w1.caps 1).pos = 0 ∧
      get_image_from_stream_cpp 2 (some 1) w1 =
        some (Except.ok (rgbgr_image (mat_to_image emptyFrame), w2)) ∧
      (w2.caps 1).pos = 1 ∧
      (rgbgr_image (mat_to_image emptyFrame)).w = 0 ∧
      (rgbgr_image (mat_to_image emptyFrame)).h = 0 := by
  constructor
  · obtain ⟨w3, h, hcaps, -⟩ := cpp_first_call 1 1 2 twoSources rfl rfl
      (by decide) vgaFrame_valid (by decide)
    refine ⟨w3, h, ?_⟩
    rw [hcaps]
    rfl
  · obtain ⟨w1, hcall, -, -⟩ := cpp_first_call 0 0 2 twoSources rfl rfl
      (by intro i hi; omega) vgaFrame_valid (by decide)
    obtain ⟨-, h2, w2, h3, h4⟩ := cpp_other_source 0 1 2 2 twoSources w1 _
      (by decide) rfl hcall
    refine ⟨_, w1, w2, hcall, ?_, h3, h4, rfl, rfl⟩
    rw [h2]
    rfl

/-- Claim C12 (placeholder substitution), as the code behaves: on a later call with
`dont_close == 1`, target 416 x 416 x 3 and a source that delivers empty frames, both
`get_image_from_stream_resize` and `get_image_from_stream_letterbox` end in undefined
behaviour.  The function `wait_for_stream` does delete the invalid frame at address 0, read 20
further frames and allocate a 416 x 416 x 3 placeholder, but at another address `p`, held only
by its own copy of the pointer; the caller still holds address 0, where no object lives. -/
theorem placeholder_lost_to_caller :
    get_image_from_stream_resize sampleCV 0 (some 0) 416 416 3 1 (startedWorld stalledCapture)
      = some (Except.error StreamFailure.undefined) ∧
    get_image_from_stream_letterbox sampleCV (fun im _ _ => im) 0 (some 0) 416 416 3 1
      (startedWorld stalledCapture) = some (Except.error StreamFailure.undefined) ∧
    ∃ p w1, wait_for_stream_body (some 0) (some 0) 1 heldWorld = Except.ok (1, some p, w1) ∧
      w1.heap.cells p = some placeholder ∧ w1.heap.cells 0 = none ∧ p ≠ 0 ∧
      (w1.caps 0).pos = 20 := by
  refine ⟨resize_keep sampleCV 0 0 416 416 3 1 (startedWorld stalledCapture) (by decide) rfl rfl
      emptyFrame_invalid (by decide) (by decide),
    letterbox_keep sampleCV _ 0 0 416 416 3 1 (startedWorld stalledCapture) (by decide) rfl rfl
      emptyFrame_invalid, ?_⟩
  obtain ⟨p, w1, h1, h2, h3, h4, h5⟩ := wait_invalid_keep 0 1 heldWorld 0 emptyFrame
    (by decide) rfl rfl emptyFrame_invalid (by decide)
  refine ⟨p, w1, h1, h2, h3, h4, ?_⟩
  rw [h5]
  rfl

/-- Claim C13 (close on failure): for an opened source and a pointer that is null or points to
a live frame, `wait_for_stream` returns; it returns 0 exactly when `dont_close == 0` and the
frame is null or invalid, returns 1 otherwise, and leaves the state untouched when it returns
0.  With an invalid frame and `dont_close == 0` the tails of `get_image_from_stream_resize`
and `get_image_from_stream_letterbox` return the empty image and leave the state untouched (no
further frame is read); a later call of either function whose frame is invalid returns the
empty image after the one read that acquired the frame.  The empty image has dimensions
`(0, 0, 0)`. -/
theorem close_on_failure {ρ : Type} (cv : OpenCV ρ) (letterbox : Image → Int → Int → Image)
    (fuel c : Nat) (src : Ptr) (dont_close wd ht ch : Int) (w : World)
    (hopen : (w.caps c).opened = true) (hbelow : ∀ a, src = some a → a < w.heap.next)
    (hsrc : ∀ a, src = some a → ∃ m, w.heap.cells a = some m) :
    (∃ r w1, wait_for_stream (some c) src dont_close w = Except.ok (r, w1) ∧
      (r = 0 ↔ dont_close = 0 ∧
        (src = none ∨ ∃ a m, src = some a ∧ w.heap.cells a = some m ∧ m.invalid = true)) ∧
      (r ≠ 0 → r = 1) ∧ (r = 0 → w1 = w)) ∧
    (∀ a m, src = some a → w.heap.cells a = some m → m.invalid = true →
      resize_convert cv (some c) src wd ht ch 0 w =
        Except.ok ⟨make_empty_image 0 0 0, none, w⟩ ∧
      letterbox_convert cv letterbox (some c) src wd ht ch 0 w =
        Except.ok ⟨make_empty_image 0 0 0, none, w⟩) ∧
    (w.once_resize = false → ((w.caps c).frames (w.caps c).pos).invalid = true →
      ∃ w1, get_image_from_stream_resize cv fuel (some c) wd ht ch 0 w =
          some (Except.ok ⟨make_empty_image 0 0 0, none, w1⟩) ∧
        (w1.caps c).pos = (w.caps c).pos + 1) ∧
    (w.once_letterbox = false → ((w.caps c).frames (w.caps c).pos).invalid = true →
      ∃ w1, get_image_from_stream_letterbox cv letterbox fuel (some c) wd ht ch 0 w =
          some (Except.ok ⟨make_empty_image 0 0 0, none, w1⟩) ∧
        (w1.caps c).pos = (w.caps c).pos + 1) ∧
    (make_empty_image 0 0 0).w = 0 ∧ (make_empty_image 0 0 0).h = 0 ∧
    (make_empty_image 0 0 0).c = 0 := by
  refine ⟨wait_for_stream_returns c src dont_close w hopen hbelow hsrc, ?_, ?_, ?_, rfl, rfl, rfl⟩
  · intro a m ha hm hv
    subst ha
    exact ⟨resize_convert_close cv (some c) wd ht ch w a m hm hv,
      letterbox_convert_close cv letterbox (some c) wd ht ch w a m hm hv⟩
  · intro hlater hv
    exact resize_close cv fuel c wd ht ch w hlater hopen hv
  · intro hlater hv
    exact letterbox_close cv letterbox fuel c wd ht ch w hlater hopen hv

/-- A started process holding an empty frame, `dont_close == 0`: `wait_for_stream` returns 0,
the tail of the resize function returns the empty image with the state untouched, and a later
call returns the empty image after one read. -/
theorem close_on_failure_witness :
    wait_for_stream (some 0) (some 0) 0 heldWorld = Except.ok (0, heldWorld) ∧
    resize_convert sampleCV (some 0) (some 0) 416 416 3 0 heldWorld =
      Except.ok ⟨make_empty_image 0 0 0, none, heldWorld⟩ ∧
    ∃ w1, get_image_from_stream_resize sampleCV 0 (some 0) 416 416 3 0 heldWorld =
        some (Except.ok ⟨make_empty_image 0 0 0, none, w1⟩) ∧ (w1.caps 0).pos = 1 := by
  obtain ⟨⟨r, w1, h1, h2, -, h4⟩, h5, h6, -⟩ := close_on_failure sampleCV (fun im _ _ => im)
    0 0 (some 0) 0 416 416 3 heldWorld rfl
    (by intro a h; cases h; decide) (by intro a h; cases h; exact ⟨emptyFrame, rfl⟩)
  have hr : r = 0 := h2.mpr ⟨rfl, Or.inr ⟨0, emptyFrame, rfl, rfl, emptyFrame_invalid⟩⟩
  have hw : w1 = heldWorld := h4 hr
  subst hr
  subst hw
  exact ⟨h1, (h5 0 emptyFrame rfl rfl emptyFrame_invalid).1, h6 rfl emptyFrame_invalid⟩

end Darknet
